import Mathlib

/-! TaskNestle: authorization and resource services.

A shallow embedding of the backend of TaskNestle (Express handlers over a
Mongoose document store) and the properties proved about it.

Conventions of the embedding

* An `ObjectId` is represented by the string its `toString()` returns.
* A request body field is either absent (`none`, JavaScript `undefined`) or a
  string; list-valued fields are absent or an array of strings.
* A handler is a function from the store and the request to a response and the
  store after the request.  A JavaScript exception is the `catch` branch of the
  handler, which answers 500 and leaves the store as it was before the write
  that threw.
* Behaviour of the libraries (bson, validator.js, the JavaScript runtime) that
  the source does not contain is a parameter, `Lib`.
* Token signing and verification, password hashing and mail delivery are a
  second parameter, `Env`; handlers that sign or verify take the time of the
  call, and handlers that sign or send return, besides the response and the
  store, the tokens signed and the messages handed to the transporter.
* `populate` calls that only join display fields (names, e-mails) into the
  response are not part of the payload; the payload carries the document.
* The `timestamps` option of the schemas (createdAt, updatedAt) is not part of
  the documents.
-/

namespace TaskNestle

/-! ## Values -/

/-- An ObjectId, represented by its `toString()`. -/
abbrev ObjectId := String

/-- A date, in milliseconds since the epoch. -/
abbrev DateTime := Int

/-- Behaviour of library code used by the handlers. -/
structure Lib where
  /-- bson / Mongoose cast of a string to an ObjectId; `none` is a CastError. -/
  castObjectId : String → Option ObjectId
  /-- validator.js `trim` and the `trim` setter of Mongoose string paths. -/
  trim : String → String
  /-- The length validator.js `isLength` compares with its bounds. -/
  validatorLength : String → Nat
  /-- validator.js `isMongoId`. -/
  isMongoId : String → Bool
  /-- validator.js `isISO8601`. -/
  isISO8601 : String → Bool
  /-- validator.js `isEmail`. -/
  isEmail : String → Bool
  /-- validator.js `normalizeEmail`. -/
  normalizeEmail : String → String
  /-- JavaScript `new Date(s)`; `none` is an Invalid Date. -/
  parseDate : String → Option DateTime
  /-- The empty string is not an ObjectId. -/
  cast_empty : castObjectId "" = none

/-- JavaScript truthiness of an optional string. -/
def truthy (v : Option String) : Bool :=
  match v with
  | some s => s != ""
  | none => false

/-- JavaScript `a || b` on optional strings. -/
def jsOr (a b : Option String) : Option String :=
  if truthy a then a else b

/-- JavaScript `String.prototype.length`: the number of UTF-16 code units. -/
def utf16Length (s : String) : Nat :=
  (s.data.map (fun c => if c.val.toNat < 65536 then 1 else 2)).sum

/-! ## Documents (models/Project.js, models/Task.js, models/Comment.js) -/

/-- Modelled from the spec: the User model (models/User.js) is used by every
controller; the spec gives its fields as id, name, email, passwordHash, role
and emailVerified. -/
structure User where
  _id : ObjectId
  name : String
  email : String
  password : String
  role : String
  isEmailVerified : Bool
  deriving DecidableEq, Repr

/-- A document of `projectSchema`. -/
structure Project where
  _id : ObjectId
  title : String
  description : Option String
  members : List ObjectId
  createdBy : ObjectId
  status : String
  deriving DecidableEq, Repr

/-- A document of `taskSchema`. -/
structure Task where
  _id : ObjectId
  title : String
  description : Option String
  status : String
  priority : String
  assignedTo : Option ObjectId
  dueDate : Option DateTime
  projectId : ObjectId
  createdBy : ObjectId
  comments : List ObjectId
  deriving DecidableEq, Repr

/-- A document of `commentSchema`. -/
structure Comment where
  _id : ObjectId
  text : String
  createdBy : ObjectId
  taskId : ObjectId
  deriving DecidableEq, Repr

/-- The document store: one collection per model. -/
structure Store where
  users : List User
  projects : List Project
  tasks : List Task
  comments : List Comment
  deriving DecidableEq, Repr

/-! ## Requests and responses -/

/-- Route parameters (`req.params`). -/
structure Params where
  id : Option String := none
  projectId : Option String := none
  taskId : Option String := none
  userId : Option String := none
  token : Option String := none
  commentId : Option String := none
  deriving DecidableEq, Repr

/-- Request body (`req.body`). -/
structure Body where
  title : Option String := none
  description : Option String := none
  status : Option String := none
  priority : Option String := none
  assignedTo : Option String := none
  dueDate : Option String := none
  projectId : Option String := none
  members : Option (List String) := none
  memberIds : Option (List String) := none
  email : Option String := none
  name : Option String := none
  password : Option String := none
  role : Option String := none
  token : Option String := none
  userId : Option String := none
  text : Option String := none
  deriving DecidableEq, Repr

/-- The query string (`req.query`), for the parameters the handlers read. -/
structure Query where
  status : Option String := none
  deriving DecidableEq, Repr

/-- A task with its `projectId` path populated (`populate('projectId')`):
the project document, or `none` (JavaScript `null`) when it no longer exists. -/
structure PopulatedTask where
  task : Task
  project : Option Project
  deriving DecidableEq, Repr

/-- An Express request after `authenticateToken`: `req.user` is set. -/
structure Request where
  user : User
  params : Params := {}
  body : Body := {}
  /-- Messages collected by the express-validator chains that ran. -/
  validationErrors : List String := []
  /-- Value of `req.project`, set by `requireProjectAccess`. -/
  project : Option Project := none
  /-- Value of `req.task`, set by `requireTaskAccess`. -/
  task : Option PopulatedTask := none
  query : Query := {}
  deriving DecidableEq, Repr

/-- The `data` (or `errors`) member of a JSON response. -/
inductive Payload where
  | empty
  | errors (es : List String)
  | project (p : Project)
  | task (t : Task)
  | comment (c : Comment)
  | user (u : User)
  | invitation (email : Option String) (invitationToken : String)
  | registration (u : User) (token : String) (projectId : ObjectId) (title : String)
  | credentials (u : User) (email : Option String) (password : String)
  | addedToProject (u : User) (projectId : ObjectId) (title : String)
  | invitationInfo (email : Option String) (projectId : ObjectId) (title : String)
      (description : Option String)
  | projects (ps : List Project)
  deriving DecidableEq, Repr

/-- A JSON response: HTTP status, `success`, `message`, and payload. -/
structure Response where
  status : Nat
  success : Bool
  message : String
  data : Payload := Payload.empty
  deriving DecidableEq, Repr

/-- The response `res.status(code).json({ success: false, message })`. -/
def fail (code : Nat) (message : String) : Response :=
  { status := code, success := false, message := message }

/-- The response of the `!errors.isEmpty()` branch of a handler. -/
def validationFailed (es : List String) : Response :=
  { status := 400, success := false, message := "Validation failed", data := Payload.errors es }

/-- What a handler leaves behind: the response sent and the store. -/
structure Outcome where
  response : Response
  store : Store
  deriving DecidableEq, Repr

/-- What a middleware does: call `next()` with the request, or respond. -/
inductive MwResult where
  | next (req : Request)
  | respond (r : Response)
  deriving DecidableEq, Repr

/-! ## Store access (Mongoose queries) -/

/-- Result of a `findById` with a string id. -/
inductive Lookup (α : Type) where
  | castError
  | notFound
  | found (a : α)
  deriving DecidableEq, Repr

/-- The first project with the given ObjectId. -/
def findProject (s : Store) (oid : ObjectId) : Option Project :=
  s.projects.find? (fun p => p._id == oid)

/-- The first task with the given ObjectId. -/
def findTask (s : Store) (oid : ObjectId) : Option Task :=
  s.tasks.find? (fun t => t._id == oid)

/-- `Project.findById(id)`: `findById(undefined)` finds nothing, a string that
is not an ObjectId throws a CastError. -/
def Project.findById (L : Lib) (s : Store) (id : Option String) : Lookup Project :=
  match id with
  | none => Lookup.notFound
  | some str =>
    match L.castObjectId str with
    | none => Lookup.castError
    | some oid =>
      match findProject s oid with
      | none => Lookup.notFound
      | some p => Lookup.found p

/-- `Task.findById(id)`. -/
def Task.findById (L : Lib) (s : Store) (id : Option String) : Lookup Task :=
  match id with
  | none => Lookup.notFound
  | some str =>
    match L.castObjectId str with
    | none => Lookup.castError
    | some oid =>
      match findTask s oid with
      | none => Lookup.notFound
      | some t => Lookup.found t

/-- The first comment with the given ObjectId. -/
def findComment (s : Store) (oid : ObjectId) : Option Comment :=
  s.comments.find? (fun c => c._id == oid)

/-- `Comment.findById(id)`. -/
def Comment.findById (L : Lib) (s : Store) (id : Option String) : Lookup Comment :=
  match id with
  | none => Lookup.notFound
  | some str =>
    match L.castObjectId str with
    | none => Lookup.castError
    | some oid =>
      match findComment s oid with
      | none => Lookup.notFound
      | some c => Lookup.found c

/-- The first user with the given ObjectId. -/
def findUser (s : Store) (oid : ObjectId) : Option User :=
  s.users.find? (fun u => u._id == oid)

/-- `User.findById(id)`. -/
def User.findById (L : Lib) (s : Store) (id : Option String) : Lookup User :=
  match id with
  | none => Lookup.notFound
  | some str =>
    match L.castObjectId str with
    | none => Lookup.castError
    | some oid =>
      match findUser s oid with
      | none => Lookup.notFound
      | some u => Lookup.found u

/-- `User.findOne({ email })`: the first user with that e-mail; an absent
e-mail matches no user. -/
def findUserByEmail (s : Store) (email : Option String) : Option User :=
  s.users.find? (fun u => some u.email == email)

/-! ## middleware/auth.js -/

/-- The id `requireProjectAccess` looks up:
`req.params.projectId || req.params.id || req.body.projectId`. -/
def requestedProjectId (req : Request) : Option String :=
  jsOr (jsOr req.params.projectId req.params.id) req.body.projectId

/-- Middleware `requireProjectAccess`. -/
def requireProjectAccess (L : Lib) (s : Store) (req : Request) : MwResult :=
  let projectId := requestedProjectId req
  if !truthy projectId then
    MwResult.respond (fail 400 "Project ID required")
  else
    match Project.findById L s projectId with
    | Lookup.castError => MwResult.respond (fail 500 "Server error during authorization")
    | Lookup.notFound => MwResult.respond (fail 404 "Project not found")
    | Lookup.found project =>
      let isMember := project.members.any (fun member => member == req.user._id)
      let isAdmin := req.user.role == "admin"
      let isCreator := project.createdBy == req.user._id
      if !isMember && !isAdmin && !isCreator then
        MwResult.respond (fail 403 "Access denied - not a project member")
      else
        MwResult.next { req with project := some project }

/-- The id `requireTaskAccess` looks up: `req.params.taskId || req.params.id`. -/
def requestedTaskId (req : Request) : Option String :=
  jsOr req.params.taskId req.params.id

/-- `Task.findById(id).populate('projectId')`. -/
def Task.findByIdPopulated (L : Lib) (s : Store) (id : Option String) : Lookup PopulatedTask :=
  match Task.findById L s id with
  | Lookup.castError => Lookup.castError
  | Lookup.notFound => Lookup.notFound
  | Lookup.found t => Lookup.found { task := t, project := findProject s t.projectId }

/-- `task.assignedTo && task.assignedTo.toString() === id`. -/
def isAssignedTo (task : Task) (id : ObjectId) : Bool :=
  match task.assignedTo with
  | none => false
  | some a => a == id

/-- Middleware `requireTaskAccess`.  Reading `task.projectId.members` of a task
whose project is gone throws, which the `catch` turns into 500. -/
def requireTaskAccess (L : Lib) (s : Store) (req : Request) : MwResult :=
  let taskId := requestedTaskId req
  if !truthy taskId then
    MwResult.respond (fail 400 "Task ID required")
  else
    match Task.findByIdPopulated L s taskId with
    | Lookup.castError => MwResult.respond (fail 500 "Server error during authorization")
    | Lookup.notFound => MwResult.respond (fail 404 "Task not found")
    | Lookup.found task =>
      match task.project with
      | none => MwResult.respond (fail 500 "Server error during authorization")
      | some project =>
        let isAdmin := req.user.role == "admin"
        let isProjectMember := project.members.any (fun member => member == req.user._id)
        let isTaskCreator := task.task.createdBy == req.user._id
        let isAssigned := isAssignedTo task.task req.user._id
        if !isAdmin && !isProjectMember && !isTaskCreator && !isAssigned then
          MwResult.respond (fail 403 "Access denied - insufficient permissions")
        else
          MwResult.next { req with task := some task }

/-! ## Schema validation (models/Project.js, models/Task.js) -/

/-- Project `status` enum. -/
def projectStatuses : List String := ["active", "archived", "completed"]

/-- Task `status` enum. -/
def taskStatuses : List String :=
  ["todo", "discovery", "in-progress", "review", "testing", "completed", "hold", "cancelled"]

/-- Task `priority` enum. -/
def taskPriorities : List String := ["low", "medium", "high"]

/-- A required, trimmed string path with a `maxlength`: the stored value, or
`none` when the validators reject it. -/
def requiredString (L : Lib) (max : Nat) (v : Option String) : Option String :=
  match v with
  | none => none
  | some str =>
    let t := L.trim str
    if t != "" && utf16Length t ≤ max then some t else none

/-- An optional, trimmed string path with a `maxlength`: `none` when the
validators reject it, `some none` when the path is not set. -/
def optionalString (L : Lib) (max : Nat) (v : Option String) : Option (Option String) :=
  match v with
  | none => some none
  | some str =>
    let t := L.trim str
    if utf16Length t ≤ max then some (some t) else none

/-- A string path with an `enum` and a default. -/
def enumString (allowed : List String) (dflt : String) (v : Option String) : Option String :=
  match v with
  | none => some dflt
  | some str => if allowed.contains str then some str else none

/-- Cast of every element of an array of ids; `none` is a CastError. -/
def castAll (L : Lib) : List String → Option (List ObjectId)
  | [] => some []
  | x :: xs =>
    match L.castObjectId x, castAll L xs with
    | some o, some os => some (o :: os)
    | _, _ => none

/-- `User.find({ _id: { $in: ids } })` once the ids are cast. -/
def usersWithIds (s : Store) (oids : List ObjectId) : List User :=
  s.users.filter (fun u => oids.contains u._id)

/-- Replace the first element satisfying `p` (what `findByIdAndUpdate` and
`save` of a loaded document write). -/
def replaceFirst {α : Type} (p : α → Bool) (new : α) : List α → List α
  | [] => []
  | x :: xs => if p x then new :: xs else x :: replaceFirst p new xs

/-- The store after writing a project document back. -/
def Store.putProject (s : Store) (p : Project) : Store :=
  { s with projects := replaceFirst (fun q => q._id == p._id) p s.projects }

/-- The store after writing a task document back. -/
def Store.putTask (s : Store) (t : Task) : Store :=
  { s with tasks := replaceFirst (fun q => q._id == t._id) t s.tasks }

/-- JavaScript `[...new Set(xs)]`: duplicates removed, first occurrences kept. -/
def uniqueInOrder : List String → List String
  | [] => []
  | x :: xs => x :: (uniqueInOrder xs).filter (fun y => y != x)

/-! ## controllers/projectController.js -/

/-- The response `res.status(code).json({ success: true, message, data })`. -/
def ok (code : Nat) (message : String) (data : Payload) : Response :=
  { status := code, success := true, message := message, data := data }

/-- `new Project({ title, description, members, createdBy })` as `save()`
writes it, or `none` when schema validation rejects it. -/
def Project.create (L : Lib) (newId : ObjectId) (title description : Option String)
    (members : List ObjectId) (createdBy : ObjectId) : Option Project :=
  match requiredString L 100 title, optionalString L 500 description with
  | some t, some d =>
    some { _id := newId, title := t, description := d, members := members,
           createdBy := createdBy, status := "active" }
  | _, _ => none

/-- Handler `createProject`; `newId` is the ObjectId the driver generates. -/
def createProject (L : Lib) (newId : ObjectId) (s : Store) (req : Request) : Outcome :=
  if !req.validationErrors.isEmpty then
    ⟨validationFailed req.validationErrors, s⟩
  else
    let members := req.body.members.getD []
    let createdBy := req.user._id
    let allMembers := uniqueInOrder (members ++ [createdBy])
    match castAll L allMembers with
    | none => ⟨fail 500 "Server error while creating project", s⟩
    | some oids =>
      let existingUsers := usersWithIds s oids
      if existingUsers.length != allMembers.length then
        ⟨fail 400 "One or more member IDs are invalid", s⟩
      else
        match Project.create L newId req.body.title req.body.description oids createdBy with
        | none => ⟨fail 500 "Server error while creating project", s⟩
        | some project =>
          ⟨ok 201 "Project created successfully" (Payload.project project),
           { s with projects := s.projects ++ [project] }⟩

/-- The `updateData` of `updateProject` applied to a project with
`runValidators`: `title` and `status` are set when truthy, `description` when
not undefined, `members` when given; `none` when a validator rejects. -/
def Project.applyUpdate (L : Lib) (p : Project) (title description status : Option String)
    (members : Option (List ObjectId)) : Option Project :=
  let newTitle := if truthy title then requiredString L 100 title else some p.title
  let newDescription :=
    match description with
    | none => some p.description
    | some d => optionalString L 500 (some d)
  let newStatus := if truthy status then enumString projectStatuses p.status status else some p.status
  match newTitle, newDescription, newStatus with
  | some t, some d, some st =>
    some { p with title := t, description := d, status := st, members := members.getD p.members }
  | _, _, _ => none

/-- The tail of `updateProject`: `findByIdAndUpdate` and the response. -/
def updateProjectWrite (L : Lib) (s : Store) (req : Request) (project : Project)
    (members : Option (List ObjectId)) : Outcome :=
  match Project.applyUpdate L project req.body.title req.body.description req.body.status members with
  | none => ⟨fail 500 "Server error while updating project", s⟩
  | some updatedProject =>
    ⟨ok 200 "Project updated successfully" (Payload.project updatedProject),
     s.putProject updatedProject⟩

/-- Handler `updateProject`. -/
def updateProject (L : Lib) (s : Store) (req : Request) : Outcome :=
  if !req.validationErrors.isEmpty then
    ⟨validationFailed req.validationErrors, s⟩
  else
    match Project.findById L s req.params.id with
    | Lookup.castError => ⟨fail 500 "Server error while updating project", s⟩
    | Lookup.notFound => ⟨fail 404 "Project not found", s⟩
    | Lookup.found project =>
      let isAdmin := req.user.role == "admin"
      let isCreator := project.createdBy == req.user._id
      let isMember := project.members.any (fun member => member == req.user._id)
      if !isAdmin && !isCreator && !isMember then
        ⟨fail 403 "Access denied - not a project member", s⟩
      else
        match req.body.members with
        | none => updateProjectWrite L s req project none
        | some members =>
          match castAll L members with
          | none => ⟨fail 500 "Server error while updating project", s⟩
          | some oids =>
            if (usersWithIds s oids).length != members.length then
              ⟨fail 400 "One or more member IDs are invalid", s⟩
            else
              updateProjectWrite L s req project (some oids)

/-- Handler `deleteProject`. -/
def deleteProject (L : Lib) (s : Store) (req : Request) : Outcome :=
  match Project.findById L s req.params.id with
  | Lookup.castError => ⟨fail 500 "Server error while deleting project", s⟩
  | Lookup.notFound => ⟨fail 404 "Project not found", s⟩
  | Lookup.found project =>
    let isAdmin := req.user.role == "admin"
    let isCreator := project.createdBy == req.user._id
    if !isAdmin && !isCreator then
      ⟨fail 403 "Access denied - only admin or project creator can delete", s⟩
    else
      ⟨ok 200 "Project deleted successfully" Payload.empty,
       { s with projects := s.projects.eraseP (fun q => q._id == project._id) }⟩

/-- Handler `addMembers`. -/
def addMembers (L : Lib) (s : Store) (req : Request) : Outcome :=
  match req.body.memberIds with
  | none => ⟨fail 400 "Member IDs array is required", s⟩
  | some memberIds =>
    if memberIds.length == 0 then
      ⟨fail 400 "Member IDs array is required", s⟩
    else
      match castAll L memberIds with
      | none => ⟨fail 500 "Server error while adding members", s⟩
      | some oids =>
        if (usersWithIds s oids).length != memberIds.length then
          ⟨fail 400 "One or more member IDs are invalid", s⟩
        else
          match Project.findById L s req.params.id with
          | Lookup.castError => ⟨fail 500 "Server error while adding members", s⟩
          | Lookup.notFound => ⟨fail 404 "Project not found", s⟩
          | Lookup.found project =>
            let currentMembers := project.members
            let newMembers := memberIds.filter (fun id => !currentMembers.contains id)
            if newMembers.length == 0 then
              ⟨fail 400 "All provided members are already in the project", s⟩
            else
              match castAll L newMembers with
              | none => ⟨fail 500 "Server error while adding members", s⟩
              | some pushed =>
                let saved := { project with members := project.members ++ pushed }
                ⟨ok 200 "Members added successfully" (Payload.project saved), s.putProject saved⟩

/-- Handler `removeMembers`. -/
def removeMembers (L : Lib) (s : Store) (req : Request) : Outcome :=
  match req.body.memberIds with
  | none => ⟨fail 400 "Member IDs array is required", s⟩
  | some memberIds =>
    if memberIds.length == 0 then
      ⟨fail 400 "Member IDs array is required", s⟩
    else
      match Project.findById L s req.params.id with
      | Lookup.castError => ⟨fail 500 "Server error while removing members", s⟩
      | Lookup.notFound => ⟨fail 404 "Project not found", s⟩
      | Lookup.found project =>
        let isRemovingCreator := memberIds.any (fun id => id == project.createdBy)
        if isRemovingCreator then
          ⟨fail 400 "Cannot remove project creator", s⟩
        else
          let saved :=
            { project with members := project.members.filter (fun member => !memberIds.contains member) }
          ⟨ok 200 "Members removed successfully" (Payload.project saved), s.putProject saved⟩

/-! ## controllers/taskController.js -/

/-- The value `dueDate ? new Date(dueDate) : null` is stored as; the outer
`none` is an Invalid Date, which the Date path rejects. -/
def dueDateValue (L : Lib) (dueDate : Option String) : Option (Option DateTime) :=
  match dueDate with
  | none => some none
  | some d => if d != "" then (L.parseDate d).map some else some none

/-- The ObjectId the `assignedTo` of a request is stored as, once the handler
has checked that a truthy `assignedTo` is the `toString()` of a member: that
member.  An absent one is stored as `null`; the outer `none` is a CastError. -/
def assigneeValue (L : Lib) (assignedTo : Option String) : Option (Option ObjectId) :=
  match assignedTo with
  | none => some none
  | some a => if a != "" then some (some a) else (L.castObjectId a).map some

/-- `new Task({ title, description, priority, assignedTo, dueDate, projectId,
createdBy })` as `save()` writes it, or `none` when the schema rejects it. -/
def Task.create (L : Lib) (newId : ObjectId) (b : Body) (projectId createdBy : ObjectId) :
    Option Task :=
  match requiredString L 100 b.title, optionalString L 1000 b.description,
        enumString taskPriorities "medium" b.priority, assigneeValue L b.assignedTo,
        dueDateValue L b.dueDate with
  | some t, some d, some pr, some a, some due =>
    some { _id := newId, title := t, description := d, status := "todo", priority := pr,
           assignedTo := a, dueDate := due, projectId := projectId, createdBy := createdBy,
           comments := [] }
  | _, _, _, _, _ => none

/-- Handler `createTask`; `newId` is the ObjectId the driver generates.  The
`projectId` string the task is built from casts to the `_id` of the project it
found. -/
def createTask (L : Lib) (newId : ObjectId) (s : Store) (req : Request) : Outcome :=
  if !req.validationErrors.isEmpty then
    ⟨validationFailed req.validationErrors, s⟩
  else
    let assignedTo := req.body.assignedTo
    let projectId := jsOr req.params.projectId req.params.id
    let createdBy := req.user._id
    match Project.findById L s projectId with
    | Lookup.castError => ⟨fail 500 "Server error while creating task", s⟩
    | Lookup.notFound => ⟨fail 404 "Project not found", s⟩
    | Lookup.found project =>
      let isMember := project.members.any (fun member => member == createdBy)
      let isAdmin := req.user.role == "admin"
      let isCreator := project.createdBy == createdBy
      if !isMember && !isAdmin && !isCreator then
        ⟨fail 403 "Access denied - not a project member", s⟩
      else if truthy assignedTo &&
          !project.members.any (fun member => some member == assignedTo) then
        ⟨fail 400 "Assigned user must be a project member", s⟩
      else
        match Task.create L newId req.body project._id createdBy with
        | none => ⟨fail 500 "Server error while creating task", s⟩
        | some task =>
          ⟨ok 201 "Task created successfully" (Payload.task task),
           { s with tasks := s.tasks ++ [task] }⟩

/-- The `updateData` of `updateTask` applied to a task with `runValidators`:
`title`, `status` and `priority` are set when truthy, `description`,
`assignedTo` and `dueDate` when not undefined; `none` when the update is
rejected. -/
def Task.applyUpdate (L : Lib) (t : Task) (b : Body) : Option Task :=
  let newTitle := if truthy b.title then requiredString L 100 b.title else some t.title
  let newDescription :=
    match b.description with
    | none => some t.description
    | some d => optionalString L 1000 (some d)
  let newStatus := if truthy b.status then enumString taskStatuses t.status b.status else some t.status
  let newPriority :=
    if truthy b.priority then enumString taskPriorities t.priority b.priority else some t.priority
  let newAssignedTo :=
    match b.assignedTo with
    | none => some t.assignedTo
    | some a => assigneeValue L (some a)
  let newDueDate :=
    match b.dueDate with
    | none => some t.dueDate
    | some d => dueDateValue L (some d)
  match newTitle, newDescription, newStatus, newPriority, newAssignedTo, newDueDate with
  | some ti, some d, some st, some pr, some a, some due =>
    some { t with title := ti, description := d, status := st, priority := pr,
                  assignedTo := a, dueDate := due }
  | _, _, _, _, _, _ => none

/-- Handler `updateTask`. -/
def updateTask (L : Lib) (s : Store) (req : Request) : Outcome :=
  if !req.validationErrors.isEmpty then
    ⟨validationFailed req.validationErrors, s⟩
  else
    let assignedTo := req.body.assignedTo
    match Task.findById L s req.params.id with
    | Lookup.castError => ⟨fail 500 "Server error while updating task", s⟩
    | Lookup.notFound => ⟨fail 404 "Task not found", s⟩
    | Lookup.found task =>
      match findProject s task.projectId with
      | none => ⟨fail 404 "Project not found", s⟩
      | some project =>
        let isAdmin := req.user.role == "admin"
        let isProjectMember := project.members.any (fun member => member == req.user._id)
        let isTaskCreator := task.createdBy == req.user._id
        let isAssigned := isAssignedTo task req.user._id
        if !isAdmin && !isProjectMember && !isTaskCreator && !isAssigned then
          ⟨fail 403 "Access denied - insufficient permissions", s⟩
        else if truthy assignedTo &&
            !project.members.any (fun member => some member == assignedTo) then
          ⟨fail 400 "Assigned user must be a project member", s⟩
        else
          match Task.applyUpdate L task req.body with
          | none => ⟨fail 500 "Server error while updating task", s⟩
          | some updatedTask =>
            ⟨ok 200 "Task updated successfully" (Payload.task updatedTask), s.putTask updatedTask⟩

/-- Handler `deleteTask`. -/
def deleteTask (L : Lib) (s : Store) (req : Request) : Outcome :=
  match Task.findById L s req.params.id with
  | Lookup.castError => ⟨fail 500 "Server error while deleting task", s⟩
  | Lookup.notFound => ⟨fail 404 "Task not found", s⟩
  | Lookup.found task =>
    match findProject s task.projectId with
    | none => ⟨fail 404 "Project not found", s⟩
    | some project =>
      let isAdmin := req.user.role == "admin"
      let isProjectCreator := project.createdBy == req.user._id
      let isTaskCreator := task.createdBy == req.user._id
      if !isAdmin && !isProjectCreator && !isTaskCreator then
        ⟨fail 403 "Access denied - insufficient permissions", s⟩
      else
        ⟨ok 200 "Task deleted successfully" Payload.empty,
         { s with tasks := s.tasks.eraseP (fun q => q._id == task._id) }⟩

/-! ## middleware/validation.js

An express-validator chain reads one body field.  With `.optional()` an absent
field is skipped.  Otherwise the sanitizers and validators run in order on the
string form of the value (an absent value reads as the empty string), every
failing validator contributes its message, and a sanitizer writes its result
back into the body. -/

/-- The messages of `notEmpty().withMessage(emptyMsg)` followed by
`isLength` with bounds `min`, `max` and `withMessage(lengthMsg)`, on a trimmed
value. -/
def notEmptyLengthErrors (L : Lib) (min max : Nat) (emptyMsg lengthMsg : String)
    (t : String) : List String :=
  (if t == "" then [emptyMsg] else []) ++
  (if min ≤ L.validatorLength t && L.validatorLength t ≤ max then [] else [lengthMsg])

/-- The messages of `.isIn(allowed).withMessage(msg)`. -/
def isInErrors (allowed : List String) (msg : String) (v : String) : List String :=
  if allowed.contains v then [] else [msg]

/-- Run an optional chain: nothing to report for an absent field. -/
def optionalChain (v : Option String) (check : String → List String) : List String :=
  match v with
  | none => []
  | some str => check str

/-- Validator chains `validateUpdateProject`; `members` is an array whenever it
is present, so its `isArray()` has nothing to report. -/
def validateUpdateProject (L : Lib) (req : Request) : Request :=
  let b := req.body
  let title := b.title.map L.trim
  let description := b.description.map L.trim
  let errors :=
    optionalChain title (notEmptyLengthErrors L 3 100 "Title cannot be empty"
      "Title must be between 3 and 100 characters") ++
    optionalChain description (fun d =>
      if L.validatorLength d ≤ 500 then [] else ["Description cannot exceed 500 characters"]) ++
    optionalChain b.status
      (isInErrors projectStatuses "Status must be active, archived, or completed")
  { req with body := { b with title := title, description := description },
             validationErrors := req.validationErrors ++ errors }

/-- The statuses `validateUpdateTask` lets through. -/
def updateTaskStatuses : List String := ["todo", "in-progress", "done"]

/-- Validator chains `validateUpdateTask`. -/
def validateUpdateTask (L : Lib) (req : Request) : Request :=
  let b := req.body
  let title := b.title.map L.trim
  let description := b.description.map L.trim
  let errors :=
    optionalChain title (notEmptyLengthErrors L 3 100 "Title cannot be empty"
      "Title must be between 3 and 100 characters") ++
    optionalChain description (fun d =>
      if L.validatorLength d ≤ 1000 then [] else ["Description cannot exceed 1000 characters"]) ++
    optionalChain b.status (isInErrors updateTaskStatuses "Status must be todo, in-progress, or done") ++
    optionalChain b.priority (isInErrors taskPriorities "Priority must be low, medium, or high") ++
    optionalChain b.assignedTo (fun a =>
      if L.isMongoId a then [] else ["Assigned user must be a valid user ID"]) ++
    optionalChain b.dueDate (fun d =>
      if L.isISO8601 d then [] else ["Due date must be a valid date"])
  { req with body := { b with title := title, description := description },
             validationErrors := req.validationErrors ++ errors }

/-- Validator chains `validateCreateTask`. -/
def validateCreateTask (L : Lib) (req : Request) : Request :=
  let b := req.body
  let title := L.trim (b.title.getD "")
  let description := b.description.map L.trim
  let errors :=
    notEmptyLengthErrors L 3 100 "Task title is required"
      "Title must be between 3 and 100 characters" title ++
    optionalChain description (fun d =>
      if L.validatorLength d ≤ 1000 then [] else ["Description cannot exceed 1000 characters"]) ++
    optionalChain b.priority (isInErrors taskPriorities "Priority must be low, medium, or high") ++
    optionalChain b.assignedTo (fun a =>
      if L.isMongoId a then [] else ["Assigned user must be a valid user ID"]) ++
    optionalChain b.dueDate (fun d =>
      if L.isISO8601 d then [] else ["Due date must be a valid date"]) ++
    (if L.isMongoId (b.projectId.getD "") then [] else ["Project ID is required and must be valid"])
  { req with body := { b with title := some title, description := description },
             validationErrors := req.validationErrors ++ errors }

/-! ## routes/tasks.js, routes/projects.js

Each route runs `authenticateToken` first; the requests here are the ones it
lets through, with `req.user` set. -/

/-- The request Express hands to the chain of a `/:id` route. -/
def requestWithId (user : User) (id : String) (body : Body) : Request :=
  { user := user, params := { id := some id }, body := body }

/-- Route `PUT /api/tasks/:id`:
`requireTaskAccess, validateUpdateTask, taskController.updateTask`. -/
def putTaskRoute (L : Lib) (s : Store) (user : User) (id : String) (body : Body) : Outcome :=
  match requireTaskAccess L s (requestWithId user id body) with
  | MwResult.respond r => ⟨r, s⟩
  | MwResult.next req => updateTask L s (validateUpdateTask L req)

/-- Route `DELETE /api/tasks/:id`: `requireTaskAccess, taskController.deleteTask`. -/
def deleteTaskRoute (L : Lib) (s : Store) (user : User) (id : String) (body : Body) : Outcome :=
  match requireTaskAccess L s (requestWithId user id body) with
  | MwResult.respond r => ⟨r, s⟩
  | MwResult.next req => deleteTask L s req

/-- Route `POST /api/projects/:id/tasks`:
`requireProjectAccess, validateCreateTask, taskController.createTask`. -/
def postProjectTaskRoute (L : Lib) (newId : ObjectId) (s : Store) (user : User) (id : String)
    (body : Body) : Outcome :=
  match requireProjectAccess L s (requestWithId user id body) with
  | MwResult.respond r => ⟨r, s⟩
  | MwResult.next req => createTask L newId s (validateCreateTask L req)

/-- Route `PUT /api/projects/:id`:
`requireProjectAccess, validateUpdateProject, projectController.updateProject`. -/
def putProjectRoute (L : Lib) (s : Store) (user : User) (id : String) (body : Body) : Outcome :=
  match requireProjectAccess L s (requestWithId user id body) with
  | MwResult.respond r => ⟨r, s⟩
  | MwResult.next req => updateProject L s (validateUpdateProject L req)

/-- Route `DELETE /api/projects/:id/members`:
`requireProjectAccess, projectController.removeMembers`. -/
def deleteMembersRoute (L : Lib) (s : Store) (user : User) (id : String) (body : Body) : Outcome :=
  match requireProjectAccess L s (requestWithId user id body) with
  | MwResult.respond r => ⟨r, s⟩
  | MwResult.next req => removeMembers L s req

/-! ## Services around the handlers: tokens, mail, password hashing -/

/-- The claims of a JSON web token, as `jwt.verify` returns them (`iat` and
`exp` apart). -/
structure JwtPayload where
  type : Option String := none
  email : Option String := none
  projectId : Option String := none
  userId : Option String := none
  deriving DecidableEq, Repr

/-- A message handed to the mail transporter. -/
inductive Mail where
  | projectInvitation (email : Option String) (projectTitle inviterName invitationToken : String)
  | loginCredentials (email : String) (name : String) (password : String)
      (projectTitle : Option String)
  deriving DecidableEq, Repr

/-- The services the handlers call besides the store.  Times are in seconds.
`jwtSign p iat ttl` is `jwt.sign(p, JWT_SECRET, expiresIn)` at time `iat`;
`jwtVerify t now` is `jwt.verify(t, JWT_SECRET)` at time `now`, `none` when it
throws.  A token the server signed verifies to its claims until it expires.
The tokens the server signs carry no `nbf` claim, so a `jwt.verify` that
throws throws a `TokenExpiredError` or a `JsonWebTokenError`. -/
structure Env where
  jwtSign : JwtPayload → Nat → Nat → String
  jwtVerify : String → Nat → Option JwtPayload
  /-- When `jwt.verify` throws: whether the error is a `TokenExpiredError`
  (otherwise it is a `JsonWebTokenError`). -/
  jwtExpired : String → Nat → Bool
  /-- The password hash the User model stores. -/
  hashPassword : String → String
  /-- Whether the transporter delivers the message (`false`: `sendMail` throws). -/
  deliver : Mail → Bool
  jwt_verify_sign : ∀ (p : JwtPayload) (iat ttl now : Nat),
    jwtVerify (jwtSign p iat ttl) now = if now < iat + ttl then some p else none

/-- The lifetime `expiresIn: '7d'`, in seconds. -/
def sevenDays : Nat := 7 * 24 * 60 * 60

/-- What a handler that signs tokens or sends mail leaves behind: the response,
the store, the messages handed to the transporter and the tokens signed. -/
structure Effects where
  response : Response
  store : Store
  mails : List Mail := []
  tokens : List String := []
  deriving DecidableEq, Repr

/-- A request on a public route: no `authenticateToken` ran, `req.user` is not
set. -/
structure AnonRequest where
  params : Params := {}
  body : Body := {}
  validationErrors : List String := []
  deriving DecidableEq, Repr

/-! ## services/emailService.js -/

deriving instance DecidableEq for Except

/-- Function `generateInvitationToken`, called at time `now`. -/
def generateInvitationToken (E : Env) (now : Nat) (email projectId : Option String) : String :=
  E.jwtSign { email := email, projectId := projectId, type := some "invitation" } now sevenDays

/-- Function `verifyInvitationToken`: the decoded claims, or the message of the
error it throws.  `jwt.verify` throws on an absent token. -/
def verifyInvitationToken (E : Env) (now : Nat) (token : Option String) :
    Except String JwtPayload :=
  match token with
  | none => Except.error "Invalid or expired invitation token"
  | some t =>
    match E.jwtVerify t now with
    | none => Except.error "Invalid or expired invitation token"
    | some decoded =>
      if decoded.type != some "invitation" then
        Except.error "Invalid or expired invitation token"
      else
        Except.ok decoded

/-! ## controllers/commentController.js -/

/-- The store after writing a comment document back. -/
def Store.putComment (s : Store) (c : Comment) : Store :=
  { s with comments := replaceFirst (fun q => q._id == c._id) c s.comments }

/-- `new Comment({ text, createdBy, taskId })` as `save()` writes it, or `none`
when the schema rejects it. -/
def Comment.create (L : Lib) (newId : ObjectId) (text : Option String)
    (createdBy taskId : ObjectId) : Option Comment :=
  match requiredString L 500 text with
  | some t => some { _id := newId, text := t, createdBy := createdBy, taskId := taskId }
  | none => none

/-- Handler `addComment`; `newId` is the ObjectId the driver generates. -/
def addComment (L : Lib) (newId : ObjectId) (s : Store) (req : Request) : Outcome :=
  if !req.validationErrors.isEmpty then
    ⟨validationFailed req.validationErrors, s⟩
  else
    match Task.findById L s req.params.taskId with
    | Lookup.castError => ⟨fail 500 "Server error while adding comment", s⟩
    | Lookup.notFound => ⟨fail 404 "Task not found", s⟩
    | Lookup.found task =>
      match Comment.create L newId req.body.text req.user._id task._id with
      | none => ⟨fail 500 "Server error while adding comment", s⟩
      | some comment =>
        let saved := { task with comments := task.comments ++ [comment._id] }
        ⟨ok 201 "Comment added successfully" (Payload.comment comment),
         { s with comments := s.comments ++ [comment] }.putTask saved⟩

/-- Handler `updateComment`. -/
def updateComment (L : Lib) (s : Store) (req : Request) : Outcome :=
  if !req.validationErrors.isEmpty then
    ⟨validationFailed req.validationErrors, s⟩
  else
    match Comment.findById L s req.params.commentId with
    | Lookup.castError => ⟨fail 500 "Server error while updating comment", s⟩
    | Lookup.notFound => ⟨fail 404 "Comment not found", s⟩
    | Lookup.found comment =>
      if comment.createdBy != req.user._id then
        ⟨fail 403 "Access denied - can only edit your own comments", s⟩
      else
        match requiredString L 500 req.body.text with
        | none => ⟨fail 500 "Server error while updating comment", s⟩
        | some text =>
          let saved := { comment with text := text }
          ⟨ok 200 "Comment updated successfully" (Payload.comment saved), s.putComment saved⟩

/-- The store after the `if (task)` block of `deleteComment`: the owning task,
when it exists, is written back with the ids that differ, as strings, from
the `commentId` of the request. -/
def detachComment (s : Store) (comment : Comment) (commentId : Option String) : Store :=
  match findTask s comment.taskId with
  | none => s
  | some task =>
    s.putTask
      { task with comments := task.comments.filter (fun commentRef => some commentRef != commentId) }

/-- Handler `deleteComment`. -/
def deleteComment (L : Lib) (s : Store) (req : Request) : Outcome :=
  let commentId := req.params.commentId
  match Comment.findById L s commentId with
  | Lookup.castError => ⟨fail 500 "Server error while deleting comment", s⟩
  | Lookup.notFound => ⟨fail 404 "Comment not found", s⟩
  | Lookup.found comment =>
    let isCreator := comment.createdBy == req.user._id
    let isAdmin := req.user.role == "admin"
    if !isCreator && !isAdmin then
      ⟨fail 403 "Access denied - can only delete your own comments", s⟩
    else
      let s1 := detachComment s comment commentId
      ⟨ok 200 "Comment deleted successfully" Payload.empty,
       { s1 with comments := s1.comments.eraseP (fun q => q._id == comment._id) }⟩

/-! ## controllers/invitationController.js, controllers/adminController.js -/

/-- The roles of a user. -/
def userRoles : List String := ["admin", "member"]

/-- Modelled from the spec: `new User(...)` followed by `save()`; models/User.js
is not part of the sources.  The spec gives a user a name, a unique e-mail, a
password hash, a role among admin and member, and the e-mail verified flag; a
user created without a role is a member.  `none` is a rejected save. -/
def User.create (E : Env) (s : Store) (newId : ObjectId) (name email password role : Option String)
    (isEmailVerified : Bool) : Option User :=
  match name, email, password with
  | some n, some e, some pw =>
    let r := role.getD "member"
    if userRoles.contains r && (findUserByEmail s (some e)).isNone then
      some { _id := newId, name := n, email := e, password := E.hashPassword pw, role := r,
             isEmailVerified := isEmailVerified }
    else none
  | _, _, _ => none

/-- JavaScript `s.includes(sub)`. -/
def includes (s sub : String) : Bool :=
  s.data.tails.any (fun t => sub.data.isPrefixOf t)

/-- The message of the CastError Mongoose throws for a project id that is not
an ObjectId. -/
def castErrorMessage (value : String) : String :=
  "Cast to ObjectId failed for value \"" ++ value ++
    "\" (type string) at path \"_id\" for model \"Project\""

/-- The `catch` of `acceptInvitation`: 400 with the message of the error when
it mentions `Invalid` or `expired`, 500 otherwise. -/
def acceptInvitationCatch (message : String) : Response :=
  if includes message "Invalid" || includes message "expired" then
    fail 400 message
  else
    fail 500 "Server error while accepting invitation"

/-- Handler `inviteUser`, called at time `now`.  A failed delivery of the
invitation makes `sendProjectInvitation` throw, which the `catch` answers. -/
def inviteUser (L : Lib) (E : Env) (now : Nat) (s : Store) (req : Request) : Effects :=
  if !req.validationErrors.isEmpty then
    { response := validationFailed req.validationErrors, store := s }
  else
    let email := req.body.email
    let projectId := req.params.projectId
    match Project.findById L s projectId with
    | Lookup.castError =>
      { response := fail 500 "Server error while sending invitation", store := s }
    | Lookup.notFound => { response := fail 404 "Project not found", store := s }
    | Lookup.found project =>
      let isMember := project.members.any (fun member => member == req.user._id)
      let isAdmin := req.user.role == "admin"
      let isCreator := project.createdBy == req.user._id
      if !isMember && !isAdmin && !isCreator then
        { response := fail 403 "Access denied - not a project member", store := s }
      else
        match findUserByEmail s email with
        | some existingUser =>
          let isAlreadyMember := project.members.any (fun member => member == existingUser._id)
          if isAlreadyMember then
            { response := fail 400 "User is already a project member", store := s }
          else
            let saved := { project with members := project.members ++ [existingUser._id] }
            { response := ok 200 "User added to project successfully" (Payload.user existingUser),
              store := s.putProject saved }
        | none =>
          let invitationToken := generateInvitationToken E now email projectId
          let mail := Mail.projectInvitation email project.title req.user.name invitationToken
          if E.deliver mail then
            { response := ok 200 "Invitation sent successfully"
                (Payload.invitation email invitationToken),
              store := s, mails := [mail], tokens := [invitationToken] }
          else
            { response := fail 500 "Server error while sending invitation",
              store := s, mails := [mail], tokens := [invitationToken] }

/-- Handler `acceptInvitation`, called at time `now`; `newId` is the ObjectId
the driver generates for the user.  `sendWelcomeEmail` is not among the exports
of services/emailService.js, so the call throws inside its own `try` and no
message reaches the transporter. -/
def acceptInvitation (L : Lib) (E : Env) (now : Nat) (newId : ObjectId) (s : Store)
    (req : AnonRequest) : Effects :=
  if !req.validationErrors.isEmpty then
    { response := validationFailed req.validationErrors, store := s }
  else
    match verifyInvitationToken E now req.body.token with
    | Except.error message => { response := acceptInvitationCatch message, store := s }
    | Except.ok decoded =>
      match findUserByEmail s decoded.email with
      | some _ => { response := fail 400 "User already exists with this email", store := s }
      | none =>
        match Project.findById L s decoded.projectId with
        | Lookup.castError =>
          { response := acceptInvitationCatch (castErrorMessage (decoded.projectId.getD "")),
            store := s }
        | Lookup.notFound =>
          { response := fail 404 "Project not found or has been deleted", store := s }
        | Lookup.found project =>
          match User.create E s newId req.body.name decoded.email req.body.password none true with
          | none => { response := fail 500 "Server error while accepting invitation", store := s }
          | some user =>
            let saved := { project with members := project.members ++ [user._id] }
            let authToken := E.jwtSign { userId := some user._id } now sevenDays
            { response := ok 201 "Account created and invitation accepted successfully"
                (Payload.registration user authToken project._id project.title),
              store := { s with users := s.users ++ [user] }.putProject saved,
              tokens := [authToken] }

/-- Handler `verifyInvitation`, called at time `now`; its `catch` answers 400
with the message of whatever was thrown. -/
def verifyInvitation (L : Lib) (E : Env) (now : Nat) (s : Store) (req : AnonRequest) : Outcome :=
  match verifyInvitationToken E now req.params.token with
  | Except.error message => ⟨fail 400 message, s⟩
  | Except.ok decoded =>
    match Project.findById L s decoded.projectId with
    | Lookup.castError => ⟨fail 400 (castErrorMessage (decoded.projectId.getD "")), s⟩
    | Lookup.notFound => ⟨fail 404 "Project not found", s⟩
    | Lookup.found project =>
      ⟨ok 200 "Invitation token is valid"
        (Payload.invitationInfo decoded.email project._id project.title project.description), s⟩

/-- Handler `createUserWithCredentials`; `generated` is
`crypto.randomBytes(8).toString('base64')` with everything but letters and
digits removed, `newId` the ObjectId the driver generates.  The user is saved
before the project is looked up, so an error thrown by that lookup answers 500
with the user already stored.  A failed delivery is caught and ignored. -/
def createUserWithCredentials (L : Lib) (E : Env) (generated : String) (newId : ObjectId)
    (s : Store) (req : Request) : Effects :=
  if !req.validationErrors.isEmpty then
    { response := validationFailed req.validationErrors, store := s }
  else
    let role := req.body.role.getD "member"
    let projectId := req.body.projectId
    match findUserByEmail s req.body.email with
    | some _ => { response := fail 400 "User already exists with this email", store := s }
    | none =>
      let password := generated ++ "123"
      match User.create E s newId req.body.name req.body.email (some password) (some role) true with
      | none => { response := fail 500 "Server error while creating user", store := s }
      | some user =>
        let s1 := { s with users := s.users ++ [user] }
        let created (store : Store) (projectTitle : Option String) : Effects :=
          { response := ok 201 "User created and credentials sent successfully"
              (Payload.credentials user req.body.email password),
            store := store,
            mails := [Mail.loginCredentials user.email user.name password projectTitle] }
        if truthy projectId then
          match Project.findById L s1 projectId with
          | Lookup.castError =>
            { response := fail 500 "Server error while creating user", store := s1 }
          | Lookup.notFound => created s1 none
          | Lookup.found project =>
            created (s1.putProject { project with members := project.members ++ [user._id] })
              (some project.title)
        else
          created s1 none

/-- Handler `addUserToProject`.  The id pushed is the `userId` of the body,
which casts to the `_id` of the user it found. -/
def addUserToProject (L : Lib) (s : Store) (req : Request) : Effects :=
  let userId := req.body.userId
  match User.findById L s userId with
  | Lookup.castError =>
    { response := fail 500 "Server error while adding user to project", store := s }
  | Lookup.notFound => { response := fail 404 "User not found", store := s }
  | Lookup.found user =>
    match Project.findById L s req.body.projectId with
    | Lookup.castError =>
      { response := fail 500 "Server error while adding user to project", store := s }
    | Lookup.notFound => { response := fail 404 "Project not found", store := s }
    | Lookup.found project =>
      let isAlreadyMember := project.members.any (fun member => some member == userId)
      if isAlreadyMember then
        { response := fail 400 "User is already a project member", store := s }
      else
        let saved := { project with members := project.members ++ [user._id] }
        { response := ok 200 "User added to project successfully"
            (Payload.addedToProject user project._id project.title),
          store := s.putProject saved,
          mails := [Mail.loginCredentials user.email user.name "Your existing password"
            (some project.title)] }

/-- Middleware `requireAdmin`. -/
def requireAdmin (req : Request) : MwResult :=
  if req.user.role != "admin" then
    MwResult.respond (fail 403 "Admin access required")
  else
    MwResult.next req

/-! ## middleware/validation.js: comments, invitations, users -/

/-- The pattern `/^(?=.*[a-z])(?=.*[A-Z])(?=.*\d)/` of the password chains: a
lower-case letter, an upper-case letter and a digit, each before the first
line terminator. -/
def passwordPattern (s : String) : Bool :=
  let isLineTerminator := fun (c : Char) =>
    c.val.toNat == 10 || c.val.toNat == 13 || c.val.toNat == 8232 || c.val.toNat == 8233
  let line := s.data.takeWhile (fun c => !isLineTerminator c)
  line.any (fun c => c.val.toNat ≥ 97 && c.val.toNat ≤ 122) &&
  line.any (fun c => c.val.toNat ≥ 65 && c.val.toNat ≤ 90) &&
  line.any (fun c => c.val.toNat ≥ 48 && c.val.toNat ≤ 57)

/-- The messages of the `password` chain of `validateCreateUser` and
`validateAcceptInvitation`. -/
def passwordErrors (L : Lib) (password : String) : List String :=
  (if 6 ≤ L.validatorLength password then []
   else ["Password must be at least 6 characters long"]) ++
  (if passwordPattern password then []
   else ["Password must contain at least one uppercase letter, one lowercase letter, and one number"])

/-- The messages of the `name` chain of `validateCreateUser` and
`validateAcceptInvitation`, on the trimmed name. -/
def nameErrors (L : Lib) (name : String) : List String :=
  notEmptyLengthErrors L 2 50 "Name is required" "Name must be between 2 and 50 characters" name

/-- Validator chains `validateComment`. -/
def validateComment (L : Lib) (req : Request) : Request :=
  let b := req.body
  let text := L.trim (b.text.getD "")
  let errors :=
    notEmptyLengthErrors L 1 500 "Comment text is required"
      "Comment must be between 1 and 500 characters" text
  { req with body := { b with text := some text },
             validationErrors := req.validationErrors ++ errors }

/-- Validator chains `validateInvitation`. -/
def validateInvitation (L : Lib) (req : Request) : Request :=
  let b := req.body
  let email := b.email.getD ""
  let errors := if L.isEmail email then [] else ["Please provide a valid email"]
  { req with body := { b with email := some (L.normalizeEmail email) },
             validationErrors := req.validationErrors ++ errors }

/-- Validator chains `validateAcceptInvitation`. -/
def validateAcceptInvitation (L : Lib) (req : AnonRequest) : AnonRequest :=
  let b := req.body
  let name := L.trim (b.name.getD "")
  let errors :=
    (if b.token.getD "" == "" then ["Invitation token is required"] else []) ++
    nameErrors L name ++
    passwordErrors L (b.password.getD "")
  { req with body := { b with name := some name },
             validationErrors := req.validationErrors ++ errors }

/-- Validator chains `validateCreateUser`. -/
def validateCreateUser (L : Lib) (req : Request) : Request :=
  let b := req.body
  let name := L.trim (b.name.getD "")
  let email := b.email.getD ""
  let errors :=
    nameErrors L name ++
    (if L.isEmail email then [] else ["Please provide a valid email"]) ++
    passwordErrors L (b.password.getD "") ++
    optionalChain b.role (isInErrors userRoles "Role must be either admin or member")
  { req with body := { b with name := some name, email := some (L.normalizeEmail email) },
             validationErrors := req.validationErrors ++ errors }

/-! ## routes/comments.js, routes/invitations.js, routes/auth.js, routes/projects.js -/

/-- The request Express hands to the chain of a `/:commentId` route. -/
def requestWithCommentId (user : User) (commentId : String) (body : Body) : Request :=
  { user := user, params := { commentId := some commentId }, body := body }

/-- Route `PUT /api/comments/:commentId`:
`validateComment, commentController.updateComment`. -/
def putCommentRoute (L : Lib) (s : Store) (user : User) (commentId : String) (body : Body) :
    Outcome :=
  updateComment L s (validateComment L (requestWithCommentId user commentId body))

/-- Route `DELETE /api/comments/:commentId`: `commentController.deleteComment`. -/
def deleteCommentRoute (L : Lib) (s : Store) (user : User) (commentId : String) (body : Body) :
    Outcome :=
  deleteComment L s (requestWithCommentId user commentId body)

/-- Route `POST /api/projects/:id/members`:
`requireProjectAccess, projectController.addMembers`. -/
def postMembersRoute (L : Lib) (s : Store) (user : User) (id : String) (body : Body) : Outcome :=
  match requireProjectAccess L s (requestWithId user id body) with
  | MwResult.respond r => ⟨r, s⟩
  | MwResult.next req => addMembers L s req

/-- Route `POST /api/projects/:projectId/invite`:
`requireProjectAccess, validateInvitation, invitationController.inviteUser`. -/
def postInviteRoute (L : Lib) (E : Env) (now : Nat) (s : Store) (user : User)
    (projectId : String) (body : Body) : Effects :=
  match requireProjectAccess L s
      { user := user, params := { projectId := some projectId }, body := body } with
  | MwResult.respond r => { response := r, store := s }
  | MwResult.next req => inviteUser L E now s (validateInvitation L req)

/-- Route `POST /api/invitations/accept`:
`validateAcceptInvitation, invitationController.acceptInvitation`. -/
def postAcceptRoute (L : Lib) (E : Env) (now : Nat) (newId : ObjectId) (s : Store) (body : Body) :
    Effects :=
  acceptInvitation L E now newId s (validateAcceptInvitation L { body := body })

/-- Route `POST /api/auth/users/with-credentials`:
`requireAdmin, validateCreateUser, adminController.createUserWithCredentials`. -/
def postUserWithCredentialsRoute (L : Lib) (E : Env) (generated : String) (newId : ObjectId)
    (s : Store) (user : User) (body : Body) : Effects :=
  match requireAdmin { user := user, body := body } with
  | MwResult.respond r => { response := r, store := s }
  | MwResult.next req => createUserWithCredentials L E generated newId s (validateCreateUser L req)

/-- Route `POST /api/auth/users/add-to-project`:
`requireAdmin, adminController.addUserToProject`. -/
def postAddToProjectRoute (L : Lib) (s : Store) (user : User) (body : Body) : Effects :=
  match requireAdmin { user := user, body := body } with
  | MwResult.respond r => { response := r, store := s }
  | MwResult.next req => addUserToProject L s req

/-- Route `POST /api/tasks/:projectId/tasks`:
`requireProjectAccess, validateCreateTask, taskController.createTask`. -/
def postTaskRoute (L : Lib) (newId : ObjectId) (s : Store) (user : User) (projectId : String)
    (body : Body) : Outcome :=
  match requireProjectAccess L s
      { user := user, params := { projectId := some projectId }, body := body } with
  | MwResult.respond r => ⟨r, s⟩
  | MwResult.next req => createTask L newId s (validateCreateTask L req)

/-! ## middleware/auth.js: authenticateToken; projectController.getProjects -/

/-- An Express request as it arrives, before `authenticateToken`:
`authorization` is `req.headers.authorization`. -/
structure RawRequest where
  authorization : Option String := none
  params : Params := {}
  body : Body := {}
  query : Query := {}
  deriving DecidableEq, Repr

/-- The value of `authHeader && authHeader.split(' ')[1]`: the piece between
the first and the second space of the header; `none` (JavaScript `undefined`,
or the falsy header itself) when the header is absent or has no space. -/
def bearerToken (authHeader : Option String) : Option String :=
  match authHeader with
  | none => none
  | some h =>
    match h.data.dropWhile (fun c => c != ' ') with
    | [] => none
    | _ :: rest => some (String.mk (rest.takeWhile (fun c => c != ' ')))

/-- The projection `.select('-password')`: the document without its password
hash, written here as the empty string. -/
def withoutPassword (u : User) : User :=
  { u with password := "" }

/-- Middleware `authenticateToken`, called at time `now`.  It reads the store
and writes nothing.  An error that is neither of the two token errors (the
cast of `decoded.userId` failing) answers 500. -/
def authenticateToken (L : Lib) (E : Env) (now : Nat) (s : Store) (raw : RawRequest) : MwResult :=
  let token := bearerToken raw.authorization
  if !truthy token then
    MwResult.respond (fail 401 "Access token required")
  else
    match E.jwtVerify (token.getD "") now with
    | none =>
      if E.jwtExpired (token.getD "") now then MwResult.respond (fail 401 "Token expired")
      else MwResult.respond (fail 401 "Invalid token")
    | some decoded =>
      match User.findById L s decoded.userId with
      | Lookup.castError => MwResult.respond (fail 500 "Server error during authentication")
      | Lookup.notFound => MwResult.respond (fail 401 "Invalid token - user not found")
      | Lookup.found user =>
        MwResult.next { user := withoutPassword user, params := raw.params, body := raw.body,
                        query := raw.query }

/-- Handler `getProjects`: `Project.find(query)` with `query = { status }` and,
for a principal who is not an admin, `query.members = userId`.  The listing is
given in store order: the documents here carry no `updatedAt` to sort on. -/
def getProjects (s : Store) (req : Request) : Outcome :=
  let userId := req.user._id
  let userRole := req.user.role
  let status := req.query.status.getD "active"
  let projects := s.projects.filter (fun p =>
    p.status == status &&
      (if userRole != "admin" then p.members.any (fun member => member == userId) else true))
  ⟨{ status := 200, success := true, message := "", data := Payload.projects projects }, s⟩

/-- Route `GET /api/projects`: `authenticateToken, projectController.getProjects`. -/
def getProjectsRoute (L : Lib) (E : Env) (now : Nat) (s : Store) (raw : RawRequest) : Outcome :=
  match authenticateToken L E now s raw with
  | MwResult.respond r => ⟨r, s⟩
  | MwResult.next req => getProjects s req

/-! ## A reference token codec

Used to evaluate the handlers on sample requests: a token is its claims and
its expiry time written out as tagged characters.  It stands for a `jwt`
library with a fixed secret. -/

/-- Tag every character of a list with `t`. -/
def tagAll (t : Char) : List Char → List Char
  | [] => []
  | c :: cs => t :: c :: tagAll t cs

/-- The characters tagged `t` in a list of tagged characters. -/
def untag (t : Char) : List Char → List Char
  | c :: d :: rest => if c == t then d :: untag t rest else untag t rest
  | _ => []

/-- The binary digits of `n`, lowest first; `fuel` bounds their number. -/
def encodeBits : Nat → Nat → List Char
  | 0, _ => []
  | fuel + 1, n =>
    if n = 0 then [] else (if n % 2 = 1 then '1' else '0') :: encodeBits fuel (n / 2)

/-- The number a list of binary digits, lowest first, stands for. -/
def decodeBits : List Char → Nat
  | [] => 0
  | c :: cs => (if c == '1' then 1 else 0) + 2 * decodeBits cs

/-- An optional claim: a presence mark, then the tagged characters. -/
def encodeField (present tag : Char) : Option String → List Char
  | none => []
  | some v => present :: present :: tagAll tag v.data

/-- Read an optional claim back. -/
def decodeField (present tag : Char) (cs : List Char) : Option String :=
  if (untag present cs).isEmpty then none else some (String.mk (untag tag cs))

/-- Reference `jwt.sign`: the expiry time and the claims. -/
def refSign (p : JwtPayload) (iat ttl : Nat) : String :=
  String.mk (tagAll 'x' (encodeBits (iat + ttl) (iat + ttl)) ++ encodeField 'T' 't' p.type ++
    encodeField 'E' 'e' p.email ++ encodeField 'P' 'p' p.projectId ++
    encodeField 'U' 'u' p.userId)

/-- Reference `jwt.verify`: the claims of a token that has not expired. -/
def refVerify (token : String) (now : Nat) : Option JwtPayload :=
  let cs := token.data
  if now < decodeBits (untag 'x' cs) then
    some { type := decodeField 'T' 't' cs, email := decodeField 'E' 'e' cs,
           projectId := decodeField 'P' 'p' cs, userId := decodeField 'U' 'u' cs }
  else none

/-- Reference error kind of a failed `jwt.verify`: a token that carries an
expiry has expired; one that carries none is malformed. -/
def refExpired (token : String) (now : Nat) : Bool :=
  decide (0 < decodeBits (untag 'x' token.data)) && decide (decodeBits (untag 'x' token.data) ≤ now)

/-! ## Reference library and sample data -/

/-- A hexadecimal digit. -/
def isHexChar (c : Char) : Bool :=
  c.isDigit || (c.val.toNat ≥ 97 && c.val.toNat ≤ 102) || (c.val.toNat ≥ 65 && c.val.toNat ≤ 70)

/-- Cast of 24 hexadecimal digits to an ObjectId.  The digits are accepted in
either case, as bson does; the ObjectId prints in lower case. -/
def refCast (s : String) : Option ObjectId :=
  if s.data.length = 24 && s.data.all isHexChar then some (String.mk (s.data.map Char.toLower)) else none

/-- Reference `trim`: white space removed at both ends. -/
def refTrim (s : String) : String :=
  String.mk ((s.data.dropWhile Char.isWhitespace).reverse.dropWhile Char.isWhitespace).reverse

/-- A library instance used to evaluate the handlers on sample requests. -/
def refLib : Lib where
  castObjectId := refCast
  trim := refTrim
  validatorLength := String.length
  isEmail := fun s =>
    match s.data.span (fun c => c != '@') with
    | (user, '@' :: domain) => !user.isEmpty && domain.contains '.' && !domain.contains '@'
    | _ => false
  normalizeEmail := fun s => String.mk (s.data.map Char.toLower)
  isMongoId := fun s => (refCast s).isSome
  isISO8601 := fun _ => true
  parseDate := fun _ => some 0
  cast_empty := by decide

/-- Sample user ids. -/
def aliceId : ObjectId := "64b000000000000000000001"
def bobId : ObjectId := "64b000000000000000000002"
def carolId : ObjectId := "64b000000000000000000003"
def rootId : ObjectId := "64b000000000000000000009"

/-- Sample users: three with role member, one admin. -/
def alice : User :=
  { _id := aliceId, name := "Alice", email := "alice@example.org", password := "x",
    role := "member", isEmailVerified := true }
def bob : User :=
  { _id := bobId, name := "Bob", email := "bob@example.org", password := "x",
    role := "member", isEmailVerified := true }
def carol : User :=
  { _id := carolId, name := "Carol", email := "carol@example.org", password := "x",
    role := "member", isEmailVerified := true }
def root : User :=
  { _id := rootId, name := "Root", email := "root@example.org", password := "x",
    role := "admin", isEmailVerified := true }

/-- Sample project ids and task ids. -/
def alphaId : ObjectId := "64b0000000000000000000a1"
def taskOneId : ObjectId := "64b0000000000000000000c1"
def taskTwoId : ObjectId := "64b0000000000000000000c2"

/-- A project created by Alice, with Alice and Bob as members. -/
def alpha : Project :=
  { _id := alphaId, title := "Alpha", description := none, members := [aliceId, bobId],
    createdBy := aliceId, status := "active" }

/-- A task of project Alpha created by Alice and assigned to Bob. -/
def taskOne : Task :=
  { _id := taskOneId, title := "Write report", description := none, status := "todo",
    priority := "medium", assignedTo := some bobId, dueDate := none, projectId := alphaId,
    createdBy := aliceId, comments := [] }

/-- A task of project Alpha created by Bob, not assigned. -/
def taskTwo : Task :=
  { _id := taskTwoId, title := "Review report", description := none, status := "todo",
    priority := "medium", assignedTo := none, dueDate := none, projectId := alphaId,
    createdBy := bobId, comments := [] }

/-- A store with the sample users, project Alpha and its two tasks. -/
def sampleStore : Store :=
  { users := [alice, bob, carol, root], projects := [alpha], tasks := [taskOne, taskTwo],
    comments := [] }

/-- Project Alpha after its member list was replaced by `[Bob]`: its creator,
Alice, is not in the list. -/
def strandedAlpha : Project := { alpha with members := [bobId] }

/-- The sample store with `strandedAlpha` in place of `alpha`. -/
def strandedStore : Store := { sampleStore with projects := [strandedAlpha] }

/-- A task of project Alpha created by Alice and assigned to Carol. -/
def taskThreeId : ObjectId := "64b0000000000000000000c3"
def taskThree : Task :=
  { _id := taskThreeId, title := "Proofread", description := none, status := "todo",
    priority := "medium", assignedTo := some carolId, dueDate := none, projectId := alphaId,
    createdBy := aliceId, comments := [] }

/-- A store in which Carol is the assignee of a task of project Alpha without
being a member of the project. -/
def outsiderStore : Store := { sampleStore with tasks := [taskThree] }

/-- A services instance used to evaluate the handlers on sample requests: the
reference token codec, a marked password hash, and a transporter that
delivers. -/
def refEnv : Env where
  jwtSign := refSign
  jwtVerify := refVerify
  jwtExpired := refExpired
  hashPassword := fun pw => "hashed:" ++ pw
  deliver := fun _ => true
  jwt_verify_sign := by
    have hbits : ∀ (fuel n : Nat), n ≤ fuel → decodeBits (encodeBits fuel n) = n := by
      intro fuel
      induction fuel with
      | zero =>
        intro n h
        have : n = 0 := by omega
        subst this
        rfl
      | succ f ih =>
        intro n h
        unfold encodeBits
        by_cases hn : n = 0
        · simp [hn, decodeBits]
        · simp only [hn, if_false]
          have hle : n / 2 ≤ f := by omega
          by_cases hodd : n % 2 = 1
          · simp only [hodd, if_true, decodeBits, ih (n / 2) hle]
            simp
            omega
          · simp only [hodd, if_false, decodeBits, ih (n / 2) hle]
            simp
            omega
    have htag : ∀ (t u : Char) (xs rest : List Char),
        untag t (tagAll u xs ++ rest) = (if u = t then xs else []) ++ untag t rest := by
      intro t u xs rest
      induction xs with
      | nil => simp [tagAll]
      | cons c cs ih =>
        by_cases h : u = t
        · subst h
          simpa [tagAll, untag] using ih
        · simpa [tagAll, untag, h] using ih
    have hfield : ∀ (t present tag : Char) (v : Option String) (rest : List Char),
        untag t (encodeField present tag v ++ rest) =
          (match v with
            | none => []
            | some w =>
              (if present = t then [present] else []) ++ (if tag = t then w.data else [])) ++
          untag t rest := by
      intro t present tag v rest
      cases v with
      | none => simp [encodeField]
      | some w =>
        by_cases h : present = t
        · simp [encodeField, untag, h, htag]
        · simp [encodeField, untag, h, htag]
    have hlast : ∀ (t present tag : Char) (v : Option String),
        untag t (encodeField present tag v) =
          (match v with
            | none => []
            | some w =>
              (if present = t then [present] else []) ++ (if tag = t then w.data else [])) := by
      intro t present tag v
      have h := hfield t present tag v []
      simpa [untag] using h
    intro p iat ttl now
    unfold refVerify refSign
    simp only [List.append_assoc, htag, hfield, hlast, decodeField]
    obtain ⟨ty, em, pr, us⟩ := p
    cases ty <;> cases em <;> cases pr <;> cases us <;> simp [untag, hbits]

/-- Sample comment ids. -/
def commentOneId : ObjectId := "64b0000000000000000000d1"
def commentTwoId : ObjectId := "64b0000000000000000000d2"

/-- A comment by Alice and a comment by Bob on the first task of Alpha. -/
def commentOne : Comment :=
  { _id := commentOneId, text := "Draft attached", createdBy := aliceId, taskId := taskOneId }
def commentTwo : Comment :=
  { _id := commentTwoId, text := "Looks good", createdBy := bobId, taskId := taskOneId }

/-- The first task of Alpha with its two comments listed. -/
def discussedTask : Task := { taskOne with comments := [commentOneId, commentTwoId] }

/-- The sample store with the two comments. -/
def commentStore : Store :=
  { sampleStore with tasks := [discussedTask, taskTwo], comments := [commentOne, commentTwo] }

/-- The id and the e-mail address of a user still to be created. -/
def danaId : ObjectId := "64b000000000000000000004"
def danaEmail : String := "dana@example.org"

/-- The invitation of Dana to project Alpha, signed at time 100. -/
def danaInvitation : String := generateInvitationToken refEnv 100 (some danaEmail) (some alphaId)

/-- The reference services with a transporter that delivers nothing: every
`sendMail` throws. -/
def failingEnv : Env := { refEnv with deliver := fun _ => false }

/-- A session token of Alice, signed at time 100, and the request that
carries it. -/
def aliceSession : String := refEnv.jwtSign { userId := some aliceId } 100 sevenDays
def aliceRaw : RawRequest := { authorization := some ("Bearer " ++ aliceSession) }

/-- An archived project and an active project of Carol, and a store that holds
them beside Alpha. -/
def betaId : ObjectId := "64b0000000000000000000a2"
def gammaId : ObjectId := "64b0000000000000000000a3"
def beta : Project :=
  { _id := betaId, title := "Beta", description := none, members := [carolId],
    createdBy := carolId, status := "archived" }
def gamma : Project :=
  { _id := gammaId, title := "Gamma", description := none, members := [carolId, bobId],
    createdBy := carolId, status := "active" }
def listingStore : Store := { sampleStore with projects := [alpha, beta, gamma] }

/-! ## Authorization predicates, as the claims state them -/

/-- Admin, creator of the project, or one of its members. -/
def canAccessProject (u : User) (p : Project) : Prop :=
  u.role = "admin" ∨ u._id = p.createdBy ∨ u._id ∈ p.members

/-- Admin or creator of the project. -/
def canDeleteProject (u : User) (p : Project) : Prop :=
  u.role = "admin" ∨ u._id = p.createdBy

/-- Admin, member of the project, creator of the task, or its assignee. -/
def canModifyTask (u : User) (p : Project) (t : Task) : Prop :=
  u.role = "admin" ∨ u._id ∈ p.members ∨ u._id = t.createdBy ∨ t.assignedTo = some u._id

/-- Admin, creator of the project, or creator of the task. -/
def canDeleteTask (u : User) (p : Project) (t : Task) : Prop :=
  u.role = "admin" ∨ u._id = p.createdBy ∨ u._id = t.createdBy

/-! ## Store invariants -/

/-- Every project lists its creator among its members. -/
def creatorsAreMembers (s : Store) : Prop :=
  ∀ p ∈ s.projects, p.createdBy ∈ p.members

/-- The assignee of the task, if set, is a member of the project the task's
`projectId` names. -/
def assigneeIsMember (s : Store) (t : Task) : Bool :=
  match t.assignedTo with
  | none => true
  | some a =>
    match findProject s t.projectId with
    | none => false
    | some p => p.members.contains a

/-- Every assigned task is assigned to a member of its project. -/
def assigneesAreMembers (s : Store) : Prop :=
  ∀ t ∈ s.tasks, assigneeIsMember s t = true

instance (s : Store) : Decidable (creatorsAreMembers s) := by
  unfold creatorsAreMembers; infer_instance

instance (s : Store) : Decidable (assigneesAreMembers s) := by
  unfold assigneesAreMembers; infer_instance

instance (u : User) (p : Project) : Decidable (canAccessProject u p) := by
  unfold canAccessProject; infer_instance

instance (u : User) (p : Project) : Decidable (canDeleteProject u p) := by
  unfold canDeleteProject; infer_instance

instance (u : User) (p : Project) (t : Task) : Decidable (canModifyTask u p t) := by
  unfold canModifyTask; infer_instance

instance (u : User) (p : Project) (t : Task) : Decidable (canDeleteTask u p t) := by
  unfold canDeleteTask; infer_instance

/-- One successful request to a handler that writes a task or extends a member
list: `createTask`, `updateTask`, `addMembers`, or `updateProject` with no
`members` in the body. -/
inductive AssignStep (L : Lib) : Store → Store → Prop where
  | createTask (s : Store) (newId : ObjectId) (req : Request) :
      (createTask L newId s req).response.success = true →
      AssignStep L s (createTask L newId s req).store
  | updateTask (s : Store) (req : Request) :
      (updateTask L s req).response.success = true →
      AssignStep L s (updateTask L s req).store
  | addMembers (s : Store) (req : Request) :
      (addMembers L s req).response.success = true →
      AssignStep L s (addMembers L s req).store
  | updateProject (s : Store) (req : Request) :
      req.body.members = none →
      (updateProject L s req).response.success = true →
      AssignStep L s (updateProject L s req).store

/-- Only the creator of a comment may edit it. -/
def canModifyComment (u : User) (c : Comment) : Prop :=
  u._id = c.createdBy

/-- The creator of a comment or an admin may delete it. -/
def canDeleteComment (u : User) (c : Comment) : Prop :=
  u._id = c.createdBy ∨ u.role = "admin"

instance (u : User) (c : Comment) : Decidable (canModifyComment u c) := by
  unfold canModifyComment; infer_instance

instance (u : User) (c : Comment) : Decidable (canDeleteComment u c) := by
  unfold canDeleteComment; infer_instance

/-- No project lists a user id twice. -/
def membersNodup (s : Store) : Prop :=
  ∀ p ∈ s.projects, p.members.Nodup

instance (s : Store) : Decidable (membersNodup s) := by
  unfold membersNodup; infer_instance

/-- The body of a `POST /api/invitations/accept` that passed validation. -/
def acceptRequest (token name password : String) : AnonRequest :=
  { body := { token := some token, name := some name, password := some password } }

/-- The user `acceptInvitation` stores for an invitation of `email`. -/
def invitedUser (E : Env) (newId : ObjectId) (name email password : String) : User :=
  { _id := newId, name := name, email := email, password := E.hashPassword password,
    role := "member", isEmailVerified := true }

/-- The store after a redeemed invitation: the user appended, the project
written back with the id of the user appended to its members. -/
def redeemedStore (s : Store) (u : User) (J : Project) : Store :=
  { s with users := s.users ++ [u] }.putProject { J with members := J.members ++ [u._id] }

/-! ## Lemmas on lookups -/

theorem truthy_of_cast (L : Lib) (str : String) (oid : ObjectId)
    (h : L.castObjectId str = some oid) : truthy (some str) = true := by
  have hne : str ≠ "" := by
    intro he
    rw [he, L.cast_empty] at h
    exact Option.noConfusion h
  simp [truthy, hne]

theorem project_findById_found (L : Lib) (s : Store) (id : Option String) (P : Project)
    (h : Project.findById L s id = Lookup.found P) :
    ∃ str oid, id = some str ∧ L.castObjectId str = some oid ∧ findProject s oid = some P := by
  unfold Project.findById at h
  split at h
  · exact Lookup.noConfusion h
  · rename_i str
    split at h
    · exact Lookup.noConfusion h
    · rename_i oid hc
      split at h
      · exact Lookup.noConfusion h
      · rename_i p hp
        injection h with h
        subst h
        exact ⟨str, oid, rfl, hc, hp⟩

theorem any_beq_eq_true_iff (xs : List ObjectId) (a : ObjectId) :
    xs.any (fun m => m == a) = true ↔ a ∈ xs := by
  rw [List.any_eq_true]
  constructor
  · rintro ⟨x, hx, hxa⟩
    have : x = a := by simpa using hxa
    exact this ▸ hx
  · intro h
    exact ⟨a, h, by simp⟩

/-! ## The inline permission checks -/

theorem isAssignedTo_eq_true_iff (t : Task) (id : ObjectId) :
    isAssignedTo t id = true ↔ t.assignedTo = some id := by
  unfold isAssignedTo
  cases t.assignedTo with
  | none => simp
  | some a => simp

theorem projectAccessCheck (u : User) (P : Project) :
    (!P.members.any (fun member => member == u._id) && !(u.role == "admin") &&
      !(P.createdBy == u._id)) = !decide (canAccessProject u P) := by
  unfold canAccessProject
  by_cases hm : u._id ∈ P.members
  · have := (any_beq_eq_true_iff P.members u._id).mpr hm
    simp [this, hm]
  · have hm2 : P.members.any (fun member => member == u._id) = false := by
      rw [Bool.eq_false_iff]
      exact fun h => hm ((any_beq_eq_true_iff _ _).mp h)
    by_cases ha : u.role = "admin"
    · simp [ha]
    · by_cases hc : u._id = P.createdBy
      · simp [hc]
      · have hc2 : ¬ P.createdBy = u._id := fun h => hc h.symm
        simp [hm2, hm, ha, hc, hc2]

theorem taskModifyCheck (u : User) (P : Project) (T : Task) :
    (!(u.role == "admin") && !P.members.any (fun member => member == u._id) &&
      !(T.createdBy == u._id) && !isAssignedTo T u._id) = !decide (canModifyTask u P T) := by
  unfold canModifyTask
  by_cases hm : u._id ∈ P.members
  · have := (any_beq_eq_true_iff P.members u._id).mpr hm
    simp [this, hm]
  · have hm2 : P.members.any (fun member => member == u._id) = false := by
      rw [Bool.eq_false_iff]
      exact fun h => hm ((any_beq_eq_true_iff _ _).mp h)
    by_cases ha : u.role = "admin"
    · simp [ha]
    · by_cases hc : u._id = T.createdBy
      · simp [hc]
      · have hc2 : ¬ T.createdBy = u._id := fun h => hc h.symm
        by_cases hs : T.assignedTo = some u._id
        · have := (isAssignedTo_eq_true_iff T u._id).mpr hs
          simp [this, hs]
        · have hs2 : isAssignedTo T u._id = false := by
            rw [Bool.eq_false_iff]
            exact fun h => hs ((isAssignedTo_eq_true_iff _ _).mp h)
          simp [hm2, hm, ha, hc, hc2, hs, hs2]

theorem taskDeleteCheck (u : User) (P : Project) (T : Task) :
    (!(u.role == "admin") && !(P.createdBy == u._id) && !(T.createdBy == u._id)) =
      !decide (canDeleteTask u P T) := by
  unfold canDeleteTask
  by_cases ha : u.role = "admin"
  · simp [ha]
  · by_cases hp : u._id = P.createdBy
    · simp [hp]
    · have hp2 : ¬ P.createdBy = u._id := fun h => hp h.symm
      by_cases hc : u._id = T.createdBy
      · simp [hc]
      · have hc2 : ¬ T.createdBy = u._id := fun h => hc h.symm
        simp [ha, hp, hp2, hc, hc2]

theorem projectDeleteCheck (u : User) (P : Project) :
    (!(u.role == "admin") && !(P.createdBy == u._id)) = !decide (canDeleteProject u P) := by
  unfold canDeleteProject
  by_cases ha : u.role = "admin"
  · simp [ha]
  · by_cases hp : u._id = P.createdBy
    · simp [hp]
    · have hp2 : ¬ P.createdBy = u._id := fun h => hp h.symm
      simp [ha, hp, hp2]

/-! ## Project access -/

/-- C1: for a request whose project id names the existing project `P`,
`requireProjectAccess` calls `next` with `req.project = P` exactly when the
principal is an admin, the creator of `P` or one of its members; in every
other case it responds 403 (and so does not call `next`). -/
theorem requireProjectAccess_iff_canAccess (L : Lib) (s : Store) (req : Request) (P : Project)
    (hP : Project.findById L s (requestedProjectId req) = Lookup.found P) :
    (requireProjectAccess L s req = MwResult.next { req with project := some P } ↔
      canAccessProject req.user P) ∧
    (¬ canAccessProject req.user P →
      requireProjectAccess L s req =
        MwResult.respond (fail 403 "Access denied - not a project member")) := by
  obtain ⟨str, oid, hid, hc, _⟩ := project_findById_found L s _ P hP
  have ht : truthy (requestedProjectId req) = true := by
    rw [hid]; exact truthy_of_cast L str oid hc
  unfold requireProjectAccess canAccessProject
  simp only [ht, hP, Bool.not_true, Bool.false_eq_true, if_false]
  by_cases hm : req.user._id ∈ P.members
  · simp [hm]
  · by_cases ha : req.user.role = "admin"
    · simp [ha]
    · by_cases hcr : req.user._id = P.createdBy
      · simp [hcr]
      · have hcr2 : ¬ P.createdBy = req.user._id := fun h => hcr h.symm
        simp [hm, ha, hcr, hcr2]

theorem requireProjectAccess_iff_canAccess_witness :
    (requireProjectAccess refLib sampleStore (requestWithId bob alphaId {}) =
        MwResult.next { requestWithId bob alphaId {} with project := some alpha } ↔
      canAccessProject (requestWithId bob alphaId {}).user alpha) ∧
    (¬ canAccessProject (requestWithId bob alphaId {}).user alpha →
      requireProjectAccess refLib sampleStore (requestWithId bob alphaId {}) =
        MwResult.respond (fail 403 "Access denied - not a project member")) :=
  requireProjectAccess_iff_canAccess refLib sampleStore (requestWithId bob alphaId {}) alpha
    (by decide)

/-! ## The creator of a project and its member list -/

/-- C2 (the code at the failing input): in the sample store every project
lists its creator as a member; Bob, a member of project Alpha that Alice
created, sends `PUT /api/projects/:id` with `members = [Bob]`; the request
succeeds with 200 and writes the list as sent, so that Alice, the creator, is
no longer a member of her project. -/
theorem updateProject_drops_creator :
    creatorsAreMembers sampleStore ∧
    putProjectRoute refLib sampleStore bob alphaId { members := some [bobId] } =
      ⟨ok 200 "Project updated successfully" (Payload.project strandedAlpha), strandedStore⟩ ∧
    ¬ creatorsAreMembers
        (putProjectRoute refLib sampleStore bob alphaId { members := some [bobId] }).store := by
  decide

/-- With the id of the creator of `P` in the `memberIds` list, written as the
ObjectId prints, `removeMembers` answers 400 "Cannot remove project creator"
whoever the caller is, and the store (so the member list of `P`) is unchanged:
none of the listed ids is removed. -/
theorem removeMembers_rejects_creator (L : Lib) (s : Store) (req : Request) (P : Project)
    (ids : List String) (hids : req.body.memberIds = some ids) (hc : P.createdBy ∈ ids)
    (hP : Project.findById L s req.params.id = Lookup.found P) :
    removeMembers L s req = ⟨fail 400 "Cannot remove project creator", s⟩ := by
  have hlen : (ids.length == 0) = false := by
    cases ids with
    | nil => exact absurd hc (List.not_mem_nil _)
    | cons x xs => simp
  have hany : ids.any (fun id => id == P.createdBy) = true :=
    (any_beq_eq_true_iff ids P.createdBy).mpr hc
  unfold removeMembers
  simp only [hids, hlen, hP, hany, if_true, Bool.false_eq_true, if_false]

theorem removeMembers_rejects_creator_witness :
    removeMembers refLib sampleStore
        (requestWithId root alphaId { memberIds := some [bobId, aliceId] }) =
      ⟨fail 400 "Cannot remove project creator", sampleStore⟩ :=
  removeMembers_rejects_creator refLib sampleStore
    (requestWithId root alphaId { memberIds := some [bobId, aliceId] }) alpha [bobId, aliceId]
    rfl (by decide) (by decide)

/-! ## Assignees -/

theorem any_some_beq_eq_false (xs : List ObjectId) (a : String) (h : a ∉ xs) :
    xs.any (fun member => some member == some a) = false := by
  rw [Bool.eq_false_iff]
  intro hany
  rw [List.any_eq_true] at hany
  obtain ⟨x, hx, hxa⟩ := hany
  have : x = a := by simpa using hxa
  exact h (this ▸ hx)

/-- C4: when the `assignedTo` of the request is a non-empty id that is not a
member of project `P`, a permitted principal gets 400 from `createTask` on `P`
and from `updateTask` on a task of `P`, and the store is unchanged: no task is
created and the existing task is not modified. -/
theorem assignee_must_be_member (L : Lib) (s : Store) (P : Project) (a : String)
    (hne : a ≠ "") (hnot : a ∉ P.members) :
    (∀ (newId : ObjectId) (req : Request), req.body.assignedTo = some a →
      Project.findById L s (jsOr req.params.projectId req.params.id) = Lookup.found P →
      canAccessProject req.user P →
      (createTask L newId s req).response.status = 400 ∧ (createTask L newId s req).store = s) ∧
    (∀ (req : Request) (T : Task), req.body.assignedTo = some a →
      Task.findById L s req.params.id = Lookup.found T →
      findProject s T.projectId = some P →
      canModifyTask req.user P T →
      (updateTask L s req).response.status = 400 ∧ (updateTask L s req).store = s) := by
  have ht : truthy (some a) = true := by simp [truthy, hne]
  have hmem := any_some_beq_eq_false P.members a hnot
  constructor
  · intro newId req ha hP hcan
    unfold createTask
    by_cases hv : req.validationErrors.isEmpty = true
    · simp only [hv, Bool.not_true, Bool.false_eq_true, if_false, hP, projectAccessCheck,
        hcan, decide_True, ha, ht, hmem, Bool.not_false, Bool.and_self, if_true, fail, and_self]
    · simp only [hv, Bool.not_false, if_true, validationFailed, and_self]
  · intro req T ha hT hP hcan
    unfold updateTask
    by_cases hv : req.validationErrors.isEmpty = true
    · simp only [hv, Bool.not_true, Bool.false_eq_true, if_false, hT, hP, taskModifyCheck,
        hcan, decide_True, ha, ht, hmem, Bool.not_false, Bool.and_self, if_true, fail, and_self]
    · simp only [hv, Bool.not_false, if_true, validationFailed, and_self]

theorem assignee_must_be_member_witness :
    ((createTask refLib "64b0000000000000000000c9" sampleStore
        (requestWithId bob alphaId { title := some "Plan", assignedTo := some carolId })).response.status = 400 ∧
      (createTask refLib "64b0000000000000000000c9" sampleStore
        (requestWithId bob alphaId { title := some "Plan", assignedTo := some carolId })).store = sampleStore) ∧
    ((updateTask refLib sampleStore
        (requestWithId bob taskOneId { assignedTo := some carolId })).response.status = 400 ∧
      (updateTask refLib sampleStore
        (requestWithId bob taskOneId { assignedTo := some carolId })).store = sampleStore) :=
  ⟨(assignee_must_be_member refLib sampleStore alpha carolId (by decide) (by decide)).1
      "64b0000000000000000000c9"
      (requestWithId bob alphaId { title := some "Plan", assignedTo := some carolId })
      rfl (by decide) (by decide),
   (assignee_must_be_member refLib sampleStore alpha carolId (by decide) (by decide)).2
      (requestWithId bob taskOneId { assignedTo := some carolId }) taskOne
      rfl (by decide) (by decide) (by decide)⟩

/-! ## Lemmas on writes -/

theorem findProject_id (s : Store) (oid : ObjectId) (P : Project)
    (h : findProject s oid = some P) : P._id = oid := by
  unfold findProject at h
  have := List.find?_some h
  simpa using this

theorem findProject_mem (s : Store) (oid : ObjectId) (P : Project)
    (h : findProject s oid = some P) : P ∈ s.projects := by
  unfold findProject at h
  exact List.mem_of_find?_eq_some h

theorem findTask_id (s : Store) (oid : ObjectId) (T : Task)
    (h : findTask s oid = some T) : T._id = oid := by
  unfold findTask at h
  have := List.find?_some h
  simpa using this

theorem findTask_mem (s : Store) (oid : ObjectId) (T : Task)
    (h : findTask s oid = some T) : T ∈ s.tasks := by
  unfold findTask at h
  exact List.mem_of_find?_eq_some h

theorem task_findById_found (L : Lib) (s : Store) (id : Option String) (T : Task)
    (h : Task.findById L s id = Lookup.found T) :
    ∃ str oid, id = some str ∧ L.castObjectId str = some oid ∧ findTask s oid = some T := by
  unfold Task.findById at h
  split at h
  · exact Lookup.noConfusion h
  · rename_i str
    split at h
    · exact Lookup.noConfusion h
    · rename_i oid hc
      split at h
      · exact Lookup.noConfusion h
      · rename_i p hp
        injection h with h
        subst h
        exact ⟨str, oid, rfl, hc, hp⟩

theorem mem_replaceFirst {α : Type} (p : α → Bool) (n : α) (xs : List α) (x : α)
    (h : x ∈ replaceFirst p n xs) : x ∈ xs ∨ x = n := by
  induction xs with
  | nil => exact absurd h (List.not_mem_nil _)
  | cons y ys ih =>
    unfold replaceFirst at h
    by_cases hy : p y = true
    · simp only [hy, if_true, List.mem_cons] at h
      rcases h with h | h
      · exact Or.inr h
      · exact Or.inl (List.mem_cons_of_mem _ h)
    · simp only [hy, Bool.false_eq_true, if_false, List.mem_cons] at h
      rcases h with h | h
      · exact Or.inl (h ▸ List.mem_cons_self _ _)
      · rcases ih h with h2 | h2
        · exact Or.inl (List.mem_cons_of_mem _ h2)
        · exact Or.inr h2

theorem find_replaceFirst_project (n : Project) (oid : ObjectId) (xs : List Project) :
    (replaceFirst (fun q => q._id == n._id) n xs).find? (fun q => q._id == oid) =
      (xs.find? (fun q => q._id == oid)).map (fun q => if q._id = n._id then n else q) := by
  induction xs with
  | nil => simp [replaceFirst]
  | cons x xs ih =>
    unfold replaceFirst
    by_cases hx : (x._id == n._id) = true
    · have hxe : x._id = n._id := by simpa using hx
      by_cases ho : (n._id == oid) = true
      · have hxo : (x._id == oid) = true := by rw [hxe]; exact ho
        simp [hx, List.find?_cons, ho, hxo, hxe]
      · have ho2 : (n._id == oid) = false := by simpa using ho
        have hxo : (x._id == oid) = false := by rw [hxe]; exact ho2
        have hne : ¬ n._id = oid := by simpa using ho
        simp only [hx, if_true, List.find?_cons, ho2, hxo]
        cases hf : xs.find? (fun q => q._id == oid) with
        | none => rfl
        | some q =>
          have hq2 := List.find?_some hf
          have hq3 : q._id = oid := by simpa using hq2
          have : ¬ q._id = n._id := fun h => hne (h ▸ hq3)
          simp [this]
    · have hx2 : (x._id == n._id) = false := by simpa using hx
      have hxe : ¬ x._id = n._id := by simpa using hx
      by_cases ho : (x._id == oid) = true
      · simp [hx2, List.find?_cons, ho, hxe]
      · have ho2 : (x._id == oid) = false := by simpa using ho
        simp only [hx2, Bool.false_eq_true, if_false, List.find?_cons, ho2]
        exact ih

/-! ## What the task handlers write -/

theorem assigneeValue_some (L : Lib) (v : Option String) (r : Option ObjectId)
    (h : assigneeValue L v = some r) :
    (v = none ∧ r = none) ∨ ∃ a, v = some a ∧ a ≠ "" ∧ r = some a := by
  unfold assigneeValue at h
  cases v with
  | none =>
    left
    simp only [Option.some.injEq] at h
    exact ⟨rfl, h.symm⟩
  | some a =>
    right
    by_cases ha : a = ""
    · subst ha
      simp [L.cast_empty] at h
    · have hb : (a != "") = true := by simpa using ha
      simp only [hb, if_true, Option.some.injEq] at h
      exact ⟨a, rfl, ha, h.symm⟩

theorem member_of_assigned_check (members : List ObjectId) (v : Option String)
    (h : (truthy v && !members.any (fun member => some member == v)) = false) :
    ∀ a, v = some a → a ≠ "" → a ∈ members := by
  intro a hv hne
  subst hv
  have ht : truthy (some a) = true := by simp [truthy, hne]
  rw [ht, Bool.true_and] at h
  have hany : members.any (fun member => some member == some a) = true := by
    simpa using h
  rw [List.any_eq_true] at hany
  obtain ⟨x, hx, hxa⟩ := hany
  have : x = a := by simpa using hxa
  exact this ▸ hx

theorem task_create_some (L : Lib) (newId : ObjectId) (b : Body) (pid cb : ObjectId) (t : Task)
    (h : Task.create L newId b pid cb = some t) :
    t._id = newId ∧ t.projectId = pid ∧ t.createdBy = cb ∧ t.status = "todo" ∧ t.comments = [] ∧
      assigneeValue L b.assignedTo = some t.assignedTo := by
  unfold Task.create at h
  split at h
  · rename_i ti d pr a due h1 h2 h3 h4 h5
    injection h with h
    subst h
    exact ⟨rfl, rfl, rfl, rfl, rfl, h4⟩
  · exact Option.noConfusion h

theorem task_applyUpdate_some (L : Lib) (t : Task) (b : Body) (u : Task)
    (h : Task.applyUpdate L t b = some u) :
    u._id = t._id ∧ u.projectId = t.projectId ∧ u.createdBy = t.createdBy ∧
      u.comments = t.comments ∧
      ((b.assignedTo = none ∧ u.assignedTo = t.assignedTo) ∨
        ∃ a, b.assignedTo = some a ∧ a ≠ "" ∧ u.assignedTo = some a) := by
  unfold Task.applyUpdate at h
  simp only at h
  split at h
  · rename_i ti d st pr a due h1 h2 h3 h4 h5 h6
    injection h with h
    subst h
    refine ⟨rfl, rfl, rfl, rfl, ?_⟩
    cases hb : b.assignedTo with
    | none =>
      left
      rw [hb] at h5
      simp only [Option.some.injEq] at h5
      exact ⟨rfl, h5.symm⟩
    | some x =>
      right
      rw [hb] at h5
      rcases assigneeValue_some L (some x) a h5 with ⟨h7, _⟩ | ⟨y, h7, h8, h9⟩
      · exact Option.noConfusion h7
      · injection h7 with h7
        subst h7
        exact ⟨x, rfl, h8, h9⟩
  · exact Option.noConfusion h

/-- The store after `createTask`: unchanged, or one task appended whose project
exists and whose assignee passed the member check. -/
theorem createTask_store (L : Lib) (newId : ObjectId) (s : Store) (req : Request) :
    (createTask L newId s req).store = s ∨
    ∃ P t, findProject s P._id = some P ∧
      Project.findById L s (jsOr req.params.projectId req.params.id) = Lookup.found P ∧
      canAccessProject req.user P ∧
      Task.create L newId req.body P._id req.user._id = some t ∧
      (∀ a, req.body.assignedTo = some a → a ≠ "" → a ∈ P.members) ∧
      createTask L newId s req =
        ⟨ok 201 "Task created successfully" (Payload.task t), { s with tasks := s.tasks ++ [t] }⟩ := by
  unfold createTask
  by_cases hv : req.validationErrors.isEmpty = true
  · simp only [hv, Bool.not_true, Bool.false_eq_true, if_false]
    cases hf : Project.findById L s (jsOr req.params.projectId req.params.id) with
    | castError => left; rfl
    | notFound => left; rfl
    | found P =>
      simp only [projectAccessCheck]
      by_cases hcan : canAccessProject req.user P
      · simp only [hcan, decide_True, Bool.not_true, Bool.false_eq_true, if_false]
        cases hchk : (truthy req.body.assignedTo &&
            !P.members.any (fun member => some member == req.body.assignedTo)) with
        | true => left; simp
        | false =>
          simp only [Bool.false_eq_true, if_false]
          cases hc : Task.create L newId req.body P._id req.user._id with
          | none => left; rfl
          | some t =>
            right
            obtain ⟨str, oid, _, _, hfp⟩ := project_findById_found L s _ P hf
            have hid := findProject_id s oid P hfp
            refine ⟨P, t, hid ▸ hfp, rfl, hcan, hc, member_of_assigned_check _ _ hchk, rfl⟩
      · left
        simp [hcan]
  · left
    simp [hv]

/-- The store after `updateTask`: unchanged, or the task the request names
written back with the update applied, its assignee having passed the member
check. -/
theorem updateTask_store (L : Lib) (s : Store) (req : Request) :
    (updateTask L s req).store = s ∨
    ∃ T P u, Task.findById L s req.params.id = Lookup.found T ∧
      findProject s T.projectId = some P ∧
      canModifyTask req.user P T ∧
      Task.applyUpdate L T req.body = some u ∧
      (∀ a, req.body.assignedTo = some a → a ≠ "" → a ∈ P.members) ∧
      updateTask L s req =
        ⟨ok 200 "Task updated successfully" (Payload.task u), s.putTask u⟩ := by
  unfold updateTask
  by_cases hv : req.validationErrors.isEmpty = true
  · simp only [hv, Bool.not_true, Bool.false_eq_true, if_false]
    cases hf : Task.findById L s req.params.id with
    | castError => left; rfl
    | notFound => left; rfl
    | found T =>
      cases hp : findProject s T.projectId with
      | none => left; simp only [hp]
      | some P =>
        simp only [hp, taskModifyCheck]
        by_cases hcan : canModifyTask req.user P T
        · simp only [hcan, decide_True, Bool.not_true, Bool.false_eq_true, if_false]
          cases hchk : (truthy req.body.assignedTo &&
              !P.members.any (fun member => some member == req.body.assignedTo)) with
          | true => left; simp
          | false =>
            simp only [Bool.false_eq_true, if_false]
            cases hc : Task.applyUpdate L T req.body with
            | none => left; rfl
            | some u =>
              right
              exact ⟨T, P, u, rfl, hp, hcan, hc, member_of_assigned_check _ _ hchk, rfl⟩
        · left
          simp [hcan]
  · left
    simp [hv]

/-- The store after `addMembers`: unchanged, or the project the request names
written back with ids appended to its member list. -/
theorem addMembers_store (L : Lib) (s : Store) (req : Request) :
    (addMembers L s req).store = s ∨
    ∃ P pushed, Project.findById L s req.params.id = Lookup.found P ∧
      (addMembers L s req).store = s.putProject { P with members := P.members ++ pushed } := by
  simp only [addMembers]
  repeat' split
  all_goals first
    | (left; rfl)
    | (right; exact ⟨_, _, by assumption, rfl⟩)

theorem project_applyUpdate_some (L : Lib) (p : Project) (title description status : Option String)
    (members : Option (List ObjectId)) (u : Project)
    (h : Project.applyUpdate L p title description status members = some u) :
    u._id = p._id ∧ u.createdBy = p.createdBy ∧ u.members = members.getD p.members := by
  unfold Project.applyUpdate at h
  simp only at h
  split at h
  · injection h with h
    subst h
    exact ⟨rfl, rfl, rfl⟩
  · exact Option.noConfusion h

/-- The store after `updateProject` with no `members` in the body: unchanged,
or the project written back with its member list as it was. -/
theorem updateProject_store_of_no_members (L : Lib) (s : Store) (req : Request)
    (hm : req.body.members = none) :
    (updateProject L s req).store = s ∨
    ∃ P u, Project.findById L s req.params.id = Lookup.found P ∧
      u._id = P._id ∧ u.createdBy = P.createdBy ∧ u.members = P.members ∧
      (updateProject L s req).store = s.putProject u := by
  unfold updateProject
  split
  · left; rfl
  · split
    · left; rfl
    · left; rfl
    · rename_i P hf
      simp only [hm]
      split
      · left; rfl
      · unfold updateProjectWrite
        split
        · left; rfl
        · rename_i u hu
          right
          obtain ⟨h1, h2, h3⟩ := project_applyUpdate_some L P _ _ _ _ u hu
          exact ⟨P, u, hf, h1, h2, by simpa using h3, rfl⟩

/-! ## Assignees stay members -/

theorem assigneeIsMember_of_projects_eq (s s' : Store) (t : Task)
    (h : s'.projects = s.projects) : assigneeIsMember s' t = assigneeIsMember s t := by
  unfold assigneeIsMember findProject
  rw [h]

theorem findProject_putProject (s : Store) (n : Project) (oid : ObjectId) :
    findProject (s.putProject n) oid =
      (findProject s oid).map (fun q => if q._id = n._id then n else q) := by
  unfold findProject Store.putProject
  exact find_replaceFirst_project n oid s.projects

/-- Writing back a project with the same id and at least the same members
keeps every assignee a member. -/
theorem putProject_keeps_assignees (s : Store) (P u : Project)
    (hP : findProject s P._id = some P) (hid : u._id = P._id)
    (hsub : ∀ a ∈ P.members, a ∈ u.members) (hinv : assigneesAreMembers s) :
    assigneesAreMembers (s.putProject u) := by
  intro t ht
  have ht0 : t ∈ s.tasks := ht
  have h0 := hinv t ht0
  unfold assigneeIsMember at h0 ⊢
  cases ha : t.assignedTo with
  | none => rfl
  | some a =>
    rw [ha] at h0
    simp only at h0 ⊢
    rw [findProject_putProject]
    cases hq : findProject s t.projectId with
    | none => rw [hq] at h0; exact Bool.noConfusion h0
    | some Q =>
      rw [hq] at h0
      simp only [Option.map_some'] at h0 ⊢
      have haQ : a ∈ Q.members := by simpa using h0
      by_cases hQ : Q._id = u._id
      · have h1 : t.projectId = P._id := by
          rw [← findProject_id s _ Q hq, hQ, hid]
        rw [h1, hP] at hq
        injection hq with hq
        subst hq
        simp only [hQ, if_true]
        simpa using hsub a haQ
      · simp only [hQ, if_false]
        exact h0

theorem createTask_keeps_assignees (L : Lib) (newId : ObjectId) (s : Store) (req : Request)
    (hinv : assigneesAreMembers s) : assigneesAreMembers (createTask L newId s req).store := by
  rcases createTask_store L newId s req with h | ⟨P, t, hP, _, _, hc, hmem, hout⟩
  · rw [h]; exact hinv
  · intro x hx
    rw [assigneeIsMember_of_projects_eq s (createTask L newId s req).store x (by rw [hout])]
    rw [hout] at hx
    have hx2 : x ∈ s.tasks ++ [t] := hx
    rcases List.mem_append.mp hx2 with hx3 | hx3
    · exact hinv x hx3
    · have hxt : x = t := by simpa using hx3
      subst hxt
      obtain ⟨_, hpid, _, _, _, hav⟩ := task_create_some L newId req.body P._id req.user._id x hc
      unfold assigneeIsMember
      rcases assigneeValue_some L _ _ hav with ⟨_, hr⟩ | ⟨a, hb, hne, hr⟩
      · rw [hr]
      · rw [hr, hpid, hP]
        simpa using hmem a hb hne

theorem updateTask_keeps_assignees (L : Lib) (s : Store) (req : Request)
    (hinv : assigneesAreMembers s) : assigneesAreMembers (updateTask L s req).store := by
  rcases updateTask_store L s req with h | ⟨T, P, u, hT, hP, _, hu, hmem, hout⟩
  · rw [h]; exact hinv
  · intro x hx
    rw [assigneeIsMember_of_projects_eq s (updateTask L s req).store x (by rw [hout]; rfl)]
    rw [hout] at hx
    have hx2 : x ∈ replaceFirst (fun q => q._id == u._id) u s.tasks := hx
    rcases mem_replaceFirst _ _ _ _ hx2 with hx3 | hx3
    · exact hinv x hx3
    · subst hx3
      obtain ⟨_, hpid, _, _, hasg⟩ := task_applyUpdate_some L T req.body x hu
      obtain ⟨str, oid, _, _, hft⟩ := task_findById_found L s _ T hT
      have hTmem := findTask_mem s oid T hft
      have hTinv := hinv T hTmem
      unfold assigneeIsMember at hTinv ⊢
      rcases hasg with ⟨_, hr⟩ | ⟨a, hb, hne, hr⟩
      · rw [hr, hpid]; exact hTinv
      · rw [hr, hpid, hP]
        simpa using hmem a hb hne

theorem addMembers_keeps_assignees (L : Lib) (s : Store) (req : Request)
    (hinv : assigneesAreMembers s) : assigneesAreMembers (addMembers L s req).store := by
  rcases addMembers_store L s req with h | ⟨P, pushed, hP, hout⟩
  · rw [h]; exact hinv
  · rw [hout]
    obtain ⟨str, oid, _, _, hfp⟩ := project_findById_found L s _ P hP
    have hid := findProject_id s oid P hfp
    exact putProject_keeps_assignees s P _ (hid ▸ hfp) rfl
      (fun a ha => List.mem_append_left _ ha) hinv

theorem updateProject_keeps_assignees (L : Lib) (s : Store) (req : Request)
    (hm : req.body.members = none) (hinv : assigneesAreMembers s) :
    assigneesAreMembers (updateProject L s req).store := by
  rcases updateProject_store_of_no_members L s req hm with h | ⟨P, u, hP, hid, _, hmem, hout⟩
  · rw [h]; exact hinv
  · rw [hout]
    obtain ⟨str, oid, _, _, hfp⟩ := project_findById_found L s _ P hP
    have hid2 := findProject_id s oid P hfp
    exact putProject_keeps_assignees s P u (hid2 ▸ hfp) hid (fun a ha => hmem ▸ ha) hinv

/-- C5 (counterexample): the sample store satisfies the invariant and Bob is
the assignee of a task of project Alpha; Alice's `DELETE
/api/projects/:id/members` with `memberIds = [Bob]` succeeds, and afterwards
the task is still assigned to Bob, who is no longer a member.  Her `PUT
/api/projects/:id` with `members = [Alice]` does the same. -/
theorem removeMembers_strands_assignee :
    assigneesAreMembers sampleStore ∧
    (deleteMembersRoute refLib sampleStore alice alphaId
        { memberIds := some [bobId] }).response.success = true ∧
    ¬ assigneesAreMembers
        (deleteMembersRoute refLib sampleStore alice alphaId { memberIds := some [bobId] }).store ∧
    (putProjectRoute refLib sampleStore alice alphaId
        { members := some [aliceId] }).response.success = true ∧
    ¬ assigneesAreMembers
        (putProjectRoute refLib sampleStore alice alphaId { members := some [aliceId] }).store := by
  decide

/-- C5 (amended): in every state reachable from a store in which every
assigned task is assigned to a member of its project, by successful
`createTask`, `updateTask`, `addMembers` requests and `updateProject` requests
that carry no member list, every assigned task is still assigned to a member
of its project. -/
theorem assignees_stay_members (L : Lib) (s s' : Store) (hinv : assigneesAreMembers s)
    (hreach : Relation.ReflTransGen (AssignStep L) s s') : assigneesAreMembers s' := by
  induction hreach with
  | refl => exact hinv
  | tail _ hstep ih =>
    cases hstep with
    | createTask newId req _ => exact createTask_keeps_assignees L newId _ req ih
    | updateTask req _ => exact updateTask_keeps_assignees L _ req ih
    | addMembers req _ => exact addMembers_keeps_assignees L _ req ih
    | updateProject req hm _ => exact updateProject_keeps_assignees L _ req hm ih

theorem assignees_stay_members_witness :
    assigneesAreMembers
      (updateTask refLib sampleStore
        (requestWithId alice taskTwoId { assignedTo := some bobId })).store :=
  assignees_stay_members refLib sampleStore _ (by decide)
    (Relation.ReflTransGen.single
      (AssignStep.updateTask sampleStore
        (requestWithId alice taskTwoId { assignedTo := some bobId }) (by decide)))

/-! ## Deleting a project -/

theorem eraseP_eq_erase_of_find {α : Type} [DecidableEq α] (key : α → ObjectId) (xs : List α)
    (oid : ObjectId) (J : α) (h : xs.find? (fun q => key q == oid) = some J) :
    xs.eraseP (fun q => key q == key J) = xs.erase J := by
  induction xs with
  | nil => simp at h
  | cons x xs ih =>
    have hJ : key J = oid := by
      have := List.find?_some h
      simpa using this
    by_cases hx : (key x == oid) = true
    · have hxJ : x = J := by
        simpa [List.find?_cons, hx] using h
      subst hxJ
      simp
    · have hx2 : (key x == oid) = false := by simpa using hx
      have h2 : xs.find? (fun q => key q == oid) = some J := by
        simpa [List.find?_cons, hx2] using h
      have hne : ¬ key x = key J := by
        rw [hJ]
        simpa using hx
      have hxJ : ¬ x = J := fun e => hne (e ▸ rfl)
      have hbeq : (x == J) = false := by simpa using hxJ
      have hkey : (key x == key J) = false := by simpa using hne
      rw [List.eraseP_cons, List.erase_cons, hkey, hbeq, ih h2]
      rfl

theorem erase_ne_self {α : Type} [DecidableEq α] (xs : List α) (J : α) (h : J ∈ xs) :
    xs.erase J ≠ xs := by
  intro he
  have hl := List.length_erase_of_mem h
  rw [he] at hl
  have hpos : 0 < xs.length := List.length_pos_of_mem h
  omega

theorem deleteProject_permitted (L : Lib) (s : Store) (req : Request) (J : Project)
    (hJ : Project.findById L s req.params.id = Lookup.found J)
    (hcan : canDeleteProject req.user J) :
    deleteProject L s req =
      ⟨ok 200 "Project deleted successfully" Payload.empty,
       { s with projects := s.projects.erase J }⟩ := by
  obtain ⟨str, oid, _, _, hfp⟩ := project_findById_found L s _ J hJ
  have herase : s.projects.eraseP (fun q => q._id == J._id) = s.projects.erase J :=
    eraseP_eq_erase_of_find (fun q : Project => q._id) s.projects oid J hfp
  unfold deleteProject
  simp only [hJ, projectDeleteCheck, hcan, decide_True, Bool.not_true, Bool.false_eq_true,
    if_false, herase]

theorem deleteProject_denied (L : Lib) (s : Store) (req : Request) (J : Project)
    (hJ : Project.findById L s req.params.id = Lookup.found J)
    (hcan : ¬ canDeleteProject req.user J) :
    deleteProject L s req =
      ⟨fail 403 "Access denied - only admin or project creator can delete", s⟩ := by
  unfold deleteProject
  simp only [hJ, projectDeleteCheck, hcan, decide_False, Bool.not_false, if_true]

/-- C6: for a request naming the existing project `J`, `deleteProject` removes
`J` from the store exactly when the principal is an admin or the creator of
`J`; for every other principal, a plain member of `J` included, it answers 403
and leaves the store as it was. -/
theorem deleteProject_iff_canDelete (L : Lib) (s : Store) (req : Request) (J : Project)
    (hJ : Project.findById L s req.params.id = Lookup.found J) :
    ((deleteProject L s req).store = { s with projects := s.projects.erase J } ↔
      canDeleteProject req.user J) ∧
    (canDeleteProject req.user J →
      deleteProject L s req =
        ⟨ok 200 "Project deleted successfully" Payload.empty,
         { s with projects := s.projects.erase J }⟩) ∧
    (¬ canDeleteProject req.user J →
      deleteProject L s req =
        ⟨fail 403 "Access denied - only admin or project creator can delete", s⟩) := by
  obtain ⟨str, oid, _, _, hfp⟩ := project_findById_found L s _ J hJ
  have hmem := findProject_mem s oid J hfp
  refine ⟨⟨?_, fun hcan => by rw [deleteProject_permitted L s req J hJ hcan]⟩,
    deleteProject_permitted L s req J hJ, deleteProject_denied L s req J hJ⟩
  intro hst
  by_contra hcan
  rw [deleteProject_denied L s req J hJ hcan] at hst
  have : s.projects = s.projects.erase J := congrArg Store.projects hst
  exact erase_ne_self s.projects J hmem this.symm

theorem deleteProject_iff_canDelete_witness :
    ((deleteProject refLib sampleStore (requestWithId bob alphaId {})).store =
        { sampleStore with projects := sampleStore.projects.erase alpha } ↔
      canDeleteProject (requestWithId bob alphaId {}).user alpha) ∧
    (canDeleteProject (requestWithId bob alphaId {}).user alpha →
      deleteProject refLib sampleStore (requestWithId bob alphaId {}) =
        ⟨ok 200 "Project deleted successfully" Payload.empty,
         { sampleStore with projects := sampleStore.projects.erase alpha }⟩) ∧
    (¬ canDeleteProject (requestWithId bob alphaId {}).user alpha →
      deleteProject refLib sampleStore (requestWithId bob alphaId {}) =
        ⟨fail 403 "Access denied - only admin or project creator can delete", sampleStore⟩) :=
  deleteProject_iff_canDelete refLib sampleStore (requestWithId bob alphaId {}) alpha (by decide)

/-! ## Modifying a task -/

theorem task_findByIdPopulated_found (L : Lib) (s : Store) (id : Option String) (T : Task)
    (h : Task.findById L s id = Lookup.found T) :
    Task.findByIdPopulated L s id =
      Lookup.found { task := T, project := findProject s T.projectId } := by
  unfold Task.findByIdPopulated
  rw [h]

theorem requireTaskAccess_eq (L : Lib) (s : Store) (req : Request) (T : Task) (P : Project)
    (hT : Task.findById L s (requestedTaskId req) = Lookup.found T)
    (hP : findProject s T.projectId = some P) :
    requireTaskAccess L s req =
      if canModifyTask req.user P T then
        MwResult.next { req with task := some { task := T, project := some P } }
      else MwResult.respond (fail 403 "Access denied - insufficient permissions") := by
  obtain ⟨str, oid, hid, hc, _⟩ := task_findById_found L s _ T hT
  have ht : truthy (requestedTaskId req) = true := by
    rw [hid]; exact truthy_of_cast L str oid hc
  have hpop := task_findByIdPopulated_found L s _ T hT
  rw [hP] at hpop
  unfold requireTaskAccess
  simp only [ht, Bool.not_true, Bool.false_eq_true, if_false, hpop, taskModifyCheck]
  by_cases hcan : canModifyTask req.user P T
  · simp [hcan]
  · simp [hcan]

/-- C7: for a request naming task `T` of project `P`, `requireTaskAccess` calls
`next` exactly when the principal is an admin, a member of `P`, the creator of
`T` or its assignee, and answers 403 otherwise; the permission check of
`updateTask` (reached once validation passed) fails exactly when that same
predicate is false, and then the answer is 403 and the store, `T` included, is
unchanged. -/
theorem updateTask_check_iff_canModify (L : Lib) (s : Store) (req : Request) (T : Task)
    (P : Project) (hT1 : Task.findById L s (requestedTaskId req) = Lookup.found T)
    (hT2 : Task.findById L s req.params.id = Lookup.found T)
    (hP : findProject s T.projectId = some P) :
    (requireTaskAccess L s req =
        MwResult.next { req with task := some { task := T, project := some P } } ↔
      canModifyTask req.user P T) ∧
    (¬ canModifyTask req.user P T →
      requireTaskAccess L s req =
        MwResult.respond (fail 403 "Access denied - insufficient permissions")) ∧
    (req.validationErrors = [] →
      ((updateTask L s req).response.status = 403 ↔ ¬ canModifyTask req.user P T)) ∧
    (req.validationErrors = [] → ¬ canModifyTask req.user P T →
      updateTask L s req = ⟨fail 403 "Access denied - insufficient permissions", s⟩) := by
  have hmw := requireTaskAccess_eq L s req T P hT1 hP
  have hno : req.validationErrors = [] → ¬ canModifyTask req.user P T →
      updateTask L s req = ⟨fail 403 "Access denied - insufficient permissions", s⟩ := by
    intro hv hcan
    unfold updateTask
    simp only [hv, List.isEmpty_nil, Bool.not_true, Bool.false_eq_true, if_false, hT2, hP,
      taskModifyCheck, hcan, decide_False, Bool.not_false, if_true]
  refine ⟨?_, ?_, ?_, hno⟩
  · rw [hmw]
    by_cases hcan : canModifyTask req.user P T
    · simp [hcan]
    · simp [hcan]
  · intro hcan
    rw [hmw]
    simp [hcan]
  · intro hv
    constructor
    · intro hst hcan
      rcases updateTask_store L s req with _ | ⟨T2, P2, u, _, _, _, _, _, hout⟩
      · unfold updateTask at hst
        simp only [hv, List.isEmpty_nil, Bool.not_true, Bool.false_eq_true, if_false, hT2, hP,
          taskModifyCheck, hcan, decide_True] at hst
        split at hst
        · simp [fail] at hst
        · split at hst
          · simp [fail] at hst
          · simp [ok] at hst
      · rw [hout] at hst
        simp [ok] at hst
    · intro hcan
      rw [hno hv hcan]
      rfl

theorem updateTask_check_iff_canModify_witness :
    (requireTaskAccess refLib sampleStore (requestWithId carol taskOneId {}) =
        MwResult.next { requestWithId carol taskOneId {} with
          task := some { task := taskOne, project := some alpha } } ↔
      canModifyTask (requestWithId carol taskOneId {}).user alpha taskOne) ∧
    (¬ canModifyTask (requestWithId carol taskOneId {}).user alpha taskOne →
      requireTaskAccess refLib sampleStore (requestWithId carol taskOneId {}) =
        MwResult.respond (fail 403 "Access denied - insufficient permissions")) ∧
    ((requestWithId carol taskOneId {}).validationErrors = [] →
      ((updateTask refLib sampleStore (requestWithId carol taskOneId {})).response.status = 403 ↔
        ¬ canModifyTask (requestWithId carol taskOneId {}).user alpha taskOne)) ∧
    ((requestWithId carol taskOneId {}).validationErrors = [] →
      ¬ canModifyTask (requestWithId carol taskOneId {}).user alpha taskOne →
      updateTask refLib sampleStore (requestWithId carol taskOneId {}) =
        ⟨fail 403 "Access denied - insufficient permissions", sampleStore⟩) :=
  updateTask_check_iff_canModify refLib sampleStore (requestWithId carol taskOneId {}) taskOne
    alpha (by decide) (by decide) (by decide)

/-! ## Completing a task through `PUT /api/tasks/:id` -/

theorem requireTaskAccess_next_body (L : Lib) (s : Store) (req req' : Request)
    (h : requireTaskAccess L s req = MwResult.next req') :
    req'.body = req.body ∧ req'.validationErrors = req.validationErrors := by
  simp only [requireTaskAccess] at h
  repeat' split at h
  all_goals first
    | exact MwResult.noConfusion h
    | (injection h with h; subst h; exact ⟨rfl, rfl⟩)

theorem requireTaskAccess_respond_fails (L : Lib) (s : Store) (req : Request) (r : Response)
    (h : requireTaskAccess L s req = MwResult.respond r) : r.success = false := by
  simp only [requireTaskAccess] at h
  repeat' split at h
  all_goals first
    | exact MwResult.noConfusion h
    | (injection h with h; subst h; rfl)

/-- A `PUT /api/tasks/:id` whose body asks for status `completed` never
succeeds and never writes, whoever sends it and whatever the store holds. -/
theorem putTaskRoute_completed_rejected (L : Lib) (s : Store) (user : User) (id : String)
    (body : Body) (hst : body.status = some "completed") :
    (putTaskRoute L s user id body).response.success = false ∧
      (putTaskRoute L s user id body).store = s := by
  unfold putTaskRoute
  cases hmw : requireTaskAccess L s (requestWithId user id body) with
  | respond r => exact ⟨requireTaskAccess_respond_fails L s _ r hmw, rfl⟩
  | next req =>
    obtain ⟨hb, _⟩ := requireTaskAccess_next_body L s _ req hmw
    have hb2 : req.body.status = some "completed" := by rw [hb]; exact hst
    have hne : (validateUpdateTask L req).validationErrors.isEmpty = false := by
      unfold validateUpdateTask
      simp [hb2, optionalChain, isInErrors, updateTaskStatuses]
    unfold updateTask
    simp only [hne, Bool.not_false, if_true, validationFailed, and_self]

/-- C8 (the code at the failing input): Carol is the assignee of a task with
status `todo`; she is not an admin, not a member of the project and not the
creator of the task.  `requireTaskAccess` lets her `PUT /api/tasks/:id` with
body `status = completed` through, `validateUpdateTask` rejects the status,
which the Task schema allows, and `updateTask` answers 400 "Validation failed";
the stored status stays `todo`. -/
theorem assignee_cannot_complete_task :
    (carol.role ≠ "admin" ∧ carolId ∉ alpha.members ∧ taskThree.createdBy ≠ carolId ∧
      taskThree.assignedTo = some carolId ∧ taskThree.status = "todo") ∧
    requireTaskAccess refLib outsiderStore
        (requestWithId carol taskThreeId { status := some "completed" }) =
      MwResult.next { requestWithId carol taskThreeId { status := some "completed" } with
        task := some { task := taskThree, project := some alpha } } ∧
    putTaskRoute refLib outsiderStore carol taskThreeId { status := some "completed" } =
      ⟨validationFailed ["Status must be todo, in-progress, or done"], outsiderStore⟩ ∧
    "completed" ∈ taskStatuses ∧
    (updateTask refLib outsiderStore
        (requestWithId carol taskThreeId { status := some "completed" })).response.status = 200 := by
  decide

/-! ## Deleting a task -/

theorem deleteTask_permitted (L : Lib) (s : Store) (req : Request) (T : Task) (P : Project)
    (hT : Task.findById L s req.params.id = Lookup.found T)
    (hP : findProject s T.projectId = some P) (hcan : canDeleteTask req.user P T) :
    deleteTask L s req =
      ⟨ok 200 "Task deleted successfully" Payload.empty,
       { s with tasks := s.tasks.erase T }⟩ := by
  obtain ⟨str, oid, _, _, hft⟩ := task_findById_found L s _ T hT
  have herase : s.tasks.eraseP (fun q => q._id == T._id) = s.tasks.erase T :=
    eraseP_eq_erase_of_find (fun q : Task => q._id) s.tasks oid T hft
  unfold deleteTask
  simp only [hT, hP, taskDeleteCheck, hcan, decide_True, Bool.not_true, Bool.false_eq_true,
    if_false, herase]

theorem deleteTask_denied (L : Lib) (s : Store) (req : Request) (T : Task) (P : Project)
    (hT : Task.findById L s req.params.id = Lookup.found T)
    (hP : findProject s T.projectId = some P) (hcan : ¬ canDeleteTask req.user P T) :
    deleteTask L s req = ⟨fail 403 "Access denied - insufficient permissions", s⟩ := by
  unfold deleteTask
  simp only [hT, hP, taskDeleteCheck, hcan, decide_False, Bool.not_false, if_true]

/-- C9: for a request naming task `T` of project `P`, the `deleteTask` handler
deletes `T` exactly when the principal is an admin, the creator of `P` or the
creator of `T`; every other principal, the assignee of `T` and the members of
`P` included, gets 403 and the store, `T` included, is unchanged. -/
theorem deleteTask_iff_canDelete (L : Lib) (s : Store) (req : Request) (T : Task) (P : Project)
    (hT : Task.findById L s req.params.id = Lookup.found T)
    (hP : findProject s T.projectId = some P) :
    ((deleteTask L s req).store = { s with tasks := s.tasks.erase T } ↔
      canDeleteTask req.user P T) ∧
    (canDeleteTask req.user P T →
      deleteTask L s req =
        ⟨ok 200 "Task deleted successfully" Payload.empty,
         { s with tasks := s.tasks.erase T }⟩) ∧
    (¬ canDeleteTask req.user P T →
      deleteTask L s req = ⟨fail 403 "Access denied - insufficient permissions", s⟩) := by
  obtain ⟨str, oid, _, _, hft⟩ := task_findById_found L s _ T hT
  have hmem := findTask_mem s oid T hft
  refine ⟨⟨?_, fun hcan => by rw [deleteTask_permitted L s req T P hT hP hcan]⟩,
    deleteTask_permitted L s req T P hT hP, deleteTask_denied L s req T P hT hP⟩
  intro hst
  by_contra hcan
  rw [deleteTask_denied L s req T P hT hP hcan] at hst
  have : s.tasks = s.tasks.erase T := congrArg Store.tasks hst
  exact erase_ne_self s.tasks T hmem this.symm

theorem deleteTask_iff_canDelete_witness :
    ((deleteTask refLib sampleStore (requestWithId bob taskOneId {})).store =
        { sampleStore with tasks := sampleStore.tasks.erase taskOne } ↔
      canDeleteTask (requestWithId bob taskOneId {}).user alpha taskOne) ∧
    (canDeleteTask (requestWithId bob taskOneId {}).user alpha taskOne →
      deleteTask refLib sampleStore (requestWithId bob taskOneId {}) =
        ⟨ok 200 "Task deleted successfully" Payload.empty,
         { sampleStore with tasks := sampleStore.tasks.erase taskOne }⟩) ∧
    (¬ canDeleteTask (requestWithId bob taskOneId {}).user alpha taskOne →
      deleteTask refLib sampleStore (requestWithId bob taskOneId {}) =
        ⟨fail 403 "Access denied - insufficient permissions", sampleStore⟩) :=
  deleteTask_iff_canDelete refLib sampleStore (requestWithId bob taskOneId {}) taskOne alpha
    (by decide) (by decide)

/-- C10 (counterexample): in the store that Bob's `PUT /api/projects/:id` with
`members = [Bob]` leaves behind, project Alpha lists only Bob.  Alice, who
created the project, passes the check of `deleteTask` for Bob's task (the
handler alone answers 200), fails the check of `requireTaskAccess`, and her
`DELETE /api/tasks/:id` is answered 403 by the middleware; the task is not
deleted. -/
theorem project_creator_blocked_from_delete :
    (putProjectRoute refLib sampleStore bob alphaId { members := some [bobId] }).store =
      strandedStore ∧
    canDeleteTask alice strandedAlpha taskTwo ∧ ¬ canModifyTask alice strandedAlpha taskTwo ∧
    (deleteTask refLib strandedStore (requestWithId alice taskTwoId {})).response.status = 200 ∧
    deleteTaskRoute refLib strandedStore alice taskTwoId {} =
      ⟨fail 403 "Access denied - insufficient permissions", strandedStore⟩ := by
  decide

/-- C10 (amended): when the creator of project `P` is one of its members, every
principal the `deleteTask` check permits on a task `T` of `P` is also permitted
by the `requireTaskAccess` / `updateTask` check, and their `DELETE
/api/tasks/:id` reaches the handler, which deletes `T`. -/
theorem delete_narrower_than_modify (L : Lib) (s : Store) (user : User) (id : String)
    (body : Body) (T : Task) (P : Project) (hcr : P.createdBy ∈ P.members)
    (hT : Task.findById L s (some id) = Lookup.found T)
    (hP : findProject s T.projectId = some P) (hcan : canDeleteTask user P T) :
    canModifyTask user P T ∧
    deleteTaskRoute L s user id body =
      ⟨ok 200 "Task deleted successfully" Payload.empty,
       { s with tasks := s.tasks.erase T }⟩ := by
  have hmod : canModifyTask user P T := by
    unfold canDeleteTask at hcan
    unfold canModifyTask
    rcases hcan with h | h | h
    · exact Or.inl h
    · exact Or.inr (Or.inl (h ▸ hcr))
    · exact Or.inr (Or.inr (Or.inl h))
  refine ⟨hmod, ?_⟩
  have hreq : requestedTaskId (requestWithId user id body) = some id := by
    simp [requestedTaskId, requestWithId, jsOr, truthy]
  have hmw := requireTaskAccess_eq L s (requestWithId user id body) T P
    (by rw [hreq]; exact hT) hP
  have hcan2 : canModifyTask (requestWithId user id body).user P T := hmod
  rw [if_pos hcan2] at hmw
  unfold deleteTaskRoute
  rw [hmw]
  exact deleteTask_permitted L s _ T P hT hP hcan

theorem delete_narrower_than_modify_witness :
    canModifyTask alice alpha taskTwo ∧
    deleteTaskRoute refLib sampleStore alice taskTwoId {} =
      ⟨ok 200 "Task deleted successfully" Payload.empty,
       { sampleStore with tasks := sampleStore.tasks.erase taskTwo }⟩ :=
  delete_narrower_than_modify refLib sampleStore alice taskTwoId {} taskTwo alpha
    (by decide) (by decide) (by decide) (by decide)

/-! ## Sibling paths keep the creator in the member list -/

theorem mem_putProject (s : Store) (u p : Project) (h : p ∈ (s.putProject u).projects) :
    p ∈ s.projects ∨ p = u :=
  mem_replaceFirst _ u s.projects p h

/-- The store after `removeMembers`: unchanged, or the project the request
names written back without the listed ids, none of which is its creator. -/
theorem removeMembers_store (L : Lib) (s : Store) (req : Request) :
    (removeMembers L s req).store = s ∨
    ∃ P ids, Project.findById L s req.params.id = Lookup.found P ∧
      req.body.memberIds = some ids ∧ P.createdBy ∉ ids ∧
      (removeMembers L s req).store =
        s.putProject { P with members := P.members.filter (fun member => !ids.contains member) } := by
  unfold removeMembers
  cases hm : req.body.memberIds with
  | none => left; rfl
  | some ids =>
    by_cases hl : (ids.length == 0) = true
    · left; simp [hl]
    · simp only [hl, Bool.false_eq_true, if_false]
      cases hf : Project.findById L s req.params.id with
      | castError => left; rfl
      | notFound => left; rfl
      | found P =>
        by_cases hany : ids.any (fun id => id == P.createdBy) = true
        · left; simp [hany]
        · right
          have hnot : P.createdBy ∉ ids := fun h => hany ((any_beq_eq_true_iff ids _).mpr h)
          refine ⟨P, ids, rfl, rfl, hnot, ?_⟩
          simp only [hany, Bool.false_eq_true, if_false]

/-- The guarded sibling of `updateProject`: `removeMembers` never takes the
creator of a project out of its member list. -/
theorem removeMembers_keeps_creators (L : Lib) (s : Store) (req : Request)
    (hinv : creatorsAreMembers s) : creatorsAreMembers (removeMembers L s req).store := by
  rcases removeMembers_store L s req with h | ⟨P, ids, hP, _, hnot, hout⟩
  · rw [h]; exact hinv
  · rw [hout]
    intro p hp
    rcases mem_putProject s _ p hp with hp2 | hp2
    · exact hinv p hp2
    · subst hp2
      obtain ⟨str, oid, _, _, hfp⟩ := project_findById_found L s _ P hP
      have hmem := hinv P (findProject_mem s oid P hfp)
      simp only [List.mem_filter, Bool.not_eq_true', List.contains_eq_any_beq]
      refine ⟨hmem, ?_⟩
      rw [Bool.eq_false_iff]
      intro hc
      rw [List.any_eq_true] at hc
      obtain ⟨x, hx, hxe⟩ := hc
      have : P.createdBy = x := by simpa using hxe
      exact hnot (this ▸ hx)

/-- `addMembers` only appends to a member list, so the creator stays in it. -/
theorem addMembers_keeps_creators (L : Lib) (s : Store) (req : Request)
    (hinv : creatorsAreMembers s) : creatorsAreMembers (addMembers L s req).store := by
  rcases addMembers_store L s req with h | ⟨P, pushed, hP, hout⟩
  · rw [h]; exact hinv
  · rw [hout]
    intro p hp
    rcases mem_putProject s _ p hp with hp2 | hp2
    · exact hinv p hp2
    · subst hp2
      obtain ⟨str, oid, _, _, hfp⟩ := project_findById_found L s _ P hP
      exact List.mem_append_left _ (hinv P (findProject_mem s oid P hfp))

/-- `updateProject` with no `members` in the body keeps the creator a member. -/
theorem updateProject_keeps_creators_of_no_members (L : Lib) (s : Store) (req : Request)
    (hm : req.body.members = none) (hinv : creatorsAreMembers s) :
    creatorsAreMembers (updateProject L s req).store := by
  rcases updateProject_store_of_no_members L s req hm with h | ⟨P, u, hP, _, hcb, hmem, hout⟩
  · rw [h]; exact hinv
  · rw [hout]
    intro p hp
    rcases mem_putProject s _ p hp with hp2 | hp2
    · exact hinv p hp2
    · subst hp2
      obtain ⟨str, oid, _, _, hfp⟩ := project_findById_found L s _ P hP
      rw [hcb, hmem]
      exact hinv P (findProject_mem s oid P hfp)

/-! ## Comments -/

theorem comment_findById_found (L : Lib) (s : Store) (id : Option String) (C : Comment)
    (h : Comment.findById L s id = Lookup.found C) :
    ∃ str oid, id = some str ∧ L.castObjectId str = some oid ∧ findComment s oid = some C := by
  unfold Comment.findById at h
  split at h
  · exact Lookup.noConfusion h
  · rename_i str
    split at h
    · exact Lookup.noConfusion h
    · rename_i oid hc
      split at h
      · exact Lookup.noConfusion h
      · rename_i p hp
        injection h with h
        subst h
        exact ⟨str, oid, rfl, hc, hp⟩

theorem commentDeleteCheck (u : User) (C : Comment) :
    (!(C.createdBy == u._id) && !(u.role == "admin")) = !decide (canDeleteComment u C) := by
  unfold canDeleteComment
  by_cases hc : u._id = C.createdBy
  · simp [hc]
  · have hc2 : ¬ C.createdBy = u._id := fun h => hc h.symm
    by_cases ha : u.role = "admin"
    · simp [ha]
    · simp [hc, hc2, ha]

theorem deleteComment_denied (L : Lib) (s : Store) (req : Request) (C : Comment)
    (hC : Comment.findById L s req.params.commentId = Lookup.found C)
    (hcan : ¬ canDeleteComment req.user C) :
    deleteComment L s req =
      ⟨fail 403 "Access denied - can only delete your own comments", s⟩ := by
  unfold deleteComment
  simp only [hC, commentDeleteCheck, hcan, decide_False, Bool.not_false, if_true]

theorem deleteComment_permitted (L : Lib) (s : Store) (req : Request) (C : Comment)
    (hC : Comment.findById L s req.params.commentId = Lookup.found C)
    (hcan : canDeleteComment req.user C) :
    deleteComment L s req =
      ⟨ok 200 "Comment deleted successfully" Payload.empty,
       { detachComment s C req.params.commentId with
         comments := (detachComment s C req.params.commentId).comments.erase C }⟩ := by
  obtain ⟨str, oid, _, _, hfc⟩ := comment_findById_found L s _ C hC
  have hcs : ∀ cid, (detachComment s C cid).comments = s.comments := by
    intro cid
    unfold detachComment
    split <;> rfl
  have herase : s.comments.eraseP (fun q => q._id == C._id) = s.comments.erase C :=
    eraseP_eq_erase_of_find (fun q : Comment => q._id) s.comments oid C hfc
  unfold deleteComment
  simp only [hC, commentDeleteCheck, hcan, decide_True, Bool.not_true, Bool.false_eq_true,
    if_false, hcs, herase]

/-- With the `commentId` of the request written as the id of the comment
prints, the owning task is written back without that id, the other ids in
their order. -/
theorem detachComment_canonical (s : Store) (C : Comment) (T : Task)
    (hT : findTask s C.taskId = some T) :
    detachComment s C (some C._id) =
      s.putTask { T with comments := T.comments.filter (fun ref => ref != C._id) } := by
  unfold detachComment
  simp only [hT]
  rfl

/-- C11 (the code at the failing input): Alice deletes her own comment with
`DELETE /api/comments/:commentId`, the id written in upper-case hexadecimal
digits.  The id casts to the ObjectId of her comment, the request is answered
200 and the comment is removed from the comment store, but the `comments` list
of the owning task is compared with the string of the request and still holds
the id of the deleted comment.  With the id written as it prints, the same
request also takes the id out of the list. -/
theorem deleteComment_leaves_reference :
    Comment.findById refLib commentStore (some "64B0000000000000000000D1") =
      Lookup.found commentOne ∧
    canDeleteComment alice commentOne ∧
    deleteCommentRoute refLib commentStore alice "64B0000000000000000000D1" {} =
      ⟨ok 200 "Comment deleted successfully" Payload.empty,
       { commentStore with comments := [commentTwo] }⟩ ∧
    findTask (deleteCommentRoute refLib commentStore alice "64B0000000000000000000D1" {}).store
        taskOneId =
      some { taskOne with comments := [commentOneId, commentTwoId] } ∧
    deleteCommentRoute refLib commentStore alice commentOneId {} =
      ⟨ok 200 "Comment deleted successfully" Payload.empty,
       { commentStore with comments := [commentTwo],
                           tasks := [{ taskOne with comments := [commentTwoId] }, taskTwo] }⟩ := by
  decide

theorem findComment_mem (s : Store) (oid : ObjectId) (C : Comment)
    (h : findComment s oid = some C) : C ∈ s.comments := by
  unfold findComment at h
  exact List.mem_of_find?_eq_some h

theorem updateComment_by_creator (L : Lib) (s : Store) (req : Request) (C : Comment) (t : String)
    (hv : req.validationErrors = [])
    (hC : Comment.findById L s req.params.commentId = Lookup.found C)
    (ht : requiredString L 500 req.body.text = some t)
    (hcan : canModifyComment req.user C) :
    updateComment L s req =
      ⟨ok 200 "Comment updated successfully" (Payload.comment { C with text := t }),
       s.putComment { C with text := t }⟩ := by
  unfold canModifyComment at hcan
  have hb : (C.createdBy != req.user._id) = false := by simp [hcan]
  unfold updateComment
  simp only [hv, List.isEmpty_nil, Bool.not_true, Bool.false_eq_true, if_false, hC, hb, ht]

theorem updateComment_by_other (L : Lib) (s : Store) (req : Request) (C : Comment)
    (hv : req.validationErrors = [])
    (hC : Comment.findById L s req.params.commentId = Lookup.found C)
    (hcan : ¬ canModifyComment req.user C) :
    updateComment L s req =
      ⟨fail 403 "Access denied - can only edit your own comments", s⟩ := by
  unfold canModifyComment at hcan
  have hb : (C.createdBy != req.user._id) = true := by
    simp only [bne_iff_ne, ne_eq]
    exact fun h => hcan h.symm
  unfold updateComment
  simp only [hv, List.isEmpty_nil, Bool.not_true, Bool.false_eq_true, if_false, hC, hb, if_true]

theorem requiredString_of_trimmed (L : Lib) (max : Nat) (t : String) (htrim : L.trim t = t)
    (hne : t ≠ "") (hlen : utf16Length t ≤ max) : requiredString L max (some t) = some t := by
  unfold requiredString
  simp [htrim, hne, hlen]

/-- C12: for a request that passed validation and names the existing comment
`C`, with a text the Comment schema accepts as it is (trimmed, not empty, at
most 500 code units), `updateComment` answers 200 exactly when the principal is the
creator of `C`; then `C` is written back with the text of the request and its
other fields (`createdBy`, `taskId`, `_id`) as they were; for every other
principal, an admin included, the answer is 403 and the store is unchanged. -/
theorem updateComment_iff_creator (L : Lib) (s : Store) (req : Request) (C : Comment)
    (t : String) (hv : req.validationErrors = [])
    (hC : Comment.findById L s req.params.commentId = Lookup.found C)
    (ht : req.body.text = some t) (htrim : L.trim t = t) (hne : t ≠ "")
    (hlen : utf16Length t ≤ 500) :
    ((updateComment L s req).response.status = 200 ↔ req.user._id = C.createdBy) ∧
    (req.user._id = C.createdBy →
      updateComment L s req =
        ⟨ok 200 "Comment updated successfully" (Payload.comment { C with text := t }),
         s.putComment { C with text := t }⟩) ∧
    (req.user._id ≠ C.createdBy →
      updateComment L s req =
        ⟨fail 403 "Access denied - can only edit your own comments", s⟩) := by
  have hreq : requiredString L 500 req.body.text = some t := by
    rw [ht]; exact requiredString_of_trimmed L 500 t htrim hne hlen
  have hyes := updateComment_by_creator L s req C t hv hC hreq
  have hno := updateComment_by_other L s req C hv hC
  refine ⟨⟨?_, fun h => by rw [hyes h]; rfl⟩, hyes, hno⟩
  intro hst
  by_contra hcan
  rw [hno hcan] at hst
  simp [fail] at hst

theorem updateComment_iff_creator_witness :
    ((updateComment refLib commentStore
        (requestWithCommentId bob commentTwoId { text := some "Checked" })).response.status = 200 ↔
      (requestWithCommentId bob commentTwoId { text := some "Checked" }).user._id =
        commentTwo.createdBy) ∧
    ((requestWithCommentId bob commentTwoId { text := some "Checked" }).user._id =
        commentTwo.createdBy →
      updateComment refLib commentStore
          (requestWithCommentId bob commentTwoId { text := some "Checked" }) =
        ⟨ok 200 "Comment updated successfully"
          (Payload.comment { commentTwo with text := "Checked" }),
         commentStore.putComment { commentTwo with text := "Checked" }⟩) ∧
    ((requestWithCommentId bob commentTwoId { text := some "Checked" }).user._id ≠
        commentTwo.createdBy →
      updateComment refLib commentStore
          (requestWithCommentId bob commentTwoId { text := some "Checked" }) =
        ⟨fail 403 "Access denied - can only edit your own comments", commentStore⟩) :=
  updateComment_iff_creator refLib commentStore
    (requestWithCommentId bob commentTwoId { text := some "Checked" }) commentTwo "Checked"
    rfl (by decide) rfl (by decide) (by decide) (by decide)

/-! ## The admin role -/

theorem admin_requireProjectAccess (L : Lib) (s : Store) (req : Request)
    (h : req.user.role = "admin") (r : Response)
    (hr : requireProjectAccess L s req = MwResult.respond r) : r.status ≠ 403 := by
  simp only [requireProjectAccess, h, beq_self_eq_true, Bool.not_true, Bool.and_false,
    Bool.false_and, Bool.false_eq_true, if_false] at hr
  repeat' split at hr
  all_goals first
    | exact MwResult.noConfusion hr
    | (injection hr with hr; subst hr; simp [fail])

theorem admin_requireTaskAccess (L : Lib) (s : Store) (req : Request)
    (h : req.user.role = "admin") (r : Response)
    (hr : requireTaskAccess L s req = MwResult.respond r) : r.status ≠ 403 := by
  simp only [requireTaskAccess, h, beq_self_eq_true, Bool.not_true, Bool.and_false,
    Bool.false_and, Bool.false_eq_true, if_false] at hr
  repeat' split at hr
  all_goals first
    | exact MwResult.noConfusion hr
    | (injection hr with hr; subst hr; simp [fail])

theorem admin_requireAdmin (req : Request) (h : req.user.role = "admin") :
    requireAdmin req = MwResult.next req := by
  simp [requireAdmin, h]

theorem admin_updateProject (L : Lib) (s : Store) (req : Request)
    (h : req.user.role = "admin") : (updateProject L s req).response.status ≠ 403 := by
  simp only [updateProject, updateProjectWrite, h, beq_self_eq_true, Bool.not_true,
    Bool.and_false, Bool.false_and, Bool.false_eq_true, if_false]
  repeat' split
  all_goals simp [fail, ok, validationFailed]

theorem admin_deleteProject (L : Lib) (s : Store) (req : Request)
    (h : req.user.role = "admin") : (deleteProject L s req).response.status ≠ 403 := by
  simp only [deleteProject, h, beq_self_eq_true, Bool.not_true,
    Bool.and_false, Bool.false_and, Bool.false_eq_true, if_false]
  repeat' split
  all_goals simp [fail, ok, validationFailed]

theorem admin_createTask (L : Lib) (newId : ObjectId) (s : Store) (req : Request)
    (h : req.user.role = "admin") : (createTask L newId s req).response.status ≠ 403 := by
  simp only [createTask, h, beq_self_eq_true, Bool.not_true,
    Bool.and_false, Bool.false_and, Bool.false_eq_true, if_false]
  repeat' split
  all_goals simp [fail, ok, validationFailed]

theorem admin_updateTask (L : Lib) (s : Store) (req : Request)
    (h : req.user.role = "admin") : (updateTask L s req).response.status ≠ 403 := by
  simp only [updateTask, h, beq_self_eq_true, Bool.not_true,
    Bool.and_false, Bool.false_and, Bool.false_eq_true, if_false]
  repeat' split
  all_goals simp [fail, ok, validationFailed]

theorem admin_deleteTask (L : Lib) (s : Store) (req : Request)
    (h : req.user.role = "admin") : (deleteTask L s req).response.status ≠ 403 := by
  simp only [deleteTask, h, beq_self_eq_true, Bool.not_true,
    Bool.and_false, Bool.false_and, Bool.false_eq_true, if_false]
  repeat' split
  all_goals simp [fail, ok, validationFailed]

theorem admin_deleteComment (L : Lib) (s : Store) (req : Request)
    (h : req.user.role = "admin") : (deleteComment L s req).response.status ≠ 403 := by
  simp only [deleteComment, h, beq_self_eq_true, Bool.not_true,
    Bool.and_false, Bool.false_and, Bool.false_eq_true, if_false]
  repeat' split
  all_goals simp [fail, ok, validationFailed]

theorem admin_inviteUser (L : Lib) (E : Env) (now : Nat) (s : Store) (req : Request)
    (h : req.user.role = "admin") : (inviteUser L E now s req).response.status ≠ 403 := by
  simp only [inviteUser, h, beq_self_eq_true, Bool.not_true,
    Bool.and_false, Bool.false_and, Bool.false_eq_true, if_false]
  repeat' split
  all_goals simp [fail, ok, validationFailed]

/-- C13 (counterexample): Root has the admin role; Root's `PUT
/api/comments/:commentId` on a comment Alice wrote is answered 403 and the
store is unchanged: `updateComment` permits the creator of the comment only. -/
theorem admin_cannot_edit_comment :
    root.role = "admin" ∧ ¬ canModifyComment root commentOne ∧
    putCommentRoute refLib commentStore root commentOneId { text := some "Edited by admin" } =
      ⟨fail 403 "Access denied - can only edit your own comments", commentStore⟩ := by
  decide

/-! ## Member lists without duplicates -/

/-- C14 (the code at the failing input): the member list of project Alpha
holds Alice and Bob once each.  Alice sends `POST /api/projects/:id/members`
with Bob's id written in upper-case hexadecimal digits: the id names an
existing user, it is not among the strings of the current members, so it is
pushed, and Bob is in the list twice.  Root's `POST
/api/auth/users/add-to-project` with the same `userId` does the same. -/
theorem addMembers_duplicates_member :
    membersNodup sampleStore ∧
    postMembersRoute refLib sampleStore alice alphaId
        { memberIds := some ["64B000000000000000000002"] } =
      ⟨ok 200 "Members added successfully"
        (Payload.project { alpha with members := [aliceId, bobId, bobId] }),
       { sampleStore with projects := [{ alpha with members := [aliceId, bobId, bobId] }] }⟩ ∧
    ¬ membersNodup
        (postMembersRoute refLib sampleStore alice alphaId
          { memberIds := some ["64B000000000000000000002"] }).store ∧
    (postAddToProjectRoute refLib sampleStore root
        { userId := some "64B000000000000000000002", projectId := some alphaId }).response.status =
      200 ∧
    ¬ membersNodup
        (postAddToProjectRoute refLib sampleStore root
          { userId := some "64B000000000000000000002", projectId := some alphaId }).store := by
  decide

/-! ## Adding members -/

theorem castAll_cons_self (L : Lib) (x : String) (xs : List String)
    (h : castAll L (x :: xs) = some (x :: xs)) :
    L.castObjectId x = some x ∧ castAll L xs = some xs := by
  unfold castAll at h
  split at h
  · rename_i o os ho hos
    injection h with h
    injection h with h1 h2
    subst h1
    subst h2
    exact ⟨ho, hos⟩
  · exact Option.noConfusion h

theorem castAll_filter_self (L : Lib) (p : String → Bool) (xs : List String)
    (h : castAll L xs = some xs) : castAll L (xs.filter p) = some (xs.filter p) := by
  induction xs with
  | nil => rfl
  | cons x xs ih =>
    obtain ⟨hx, hxs⟩ := castAll_cons_self L x xs h
    by_cases hp : p x = true
    · rw [List.filter_cons_of_pos hp]
      unfold castAll
      simp only [hx, ih hxs]
    · rw [List.filter_cons_of_neg hp]
      exact ih hxs

/-- C15 (counterexample): Bob is already a member of project Alpha and Carol
is not; `POST /api/projects/:id/members` with `memberIds = [Bob, Carol]` is
answered 200, not 400, and Carol is appended to the member list. -/
theorem addMembers_partial_overlap :
    bobId ∈ alpha.members ∧
    postMembersRoute refLib sampleStore alice alphaId { memberIds := some [bobId, carolId] } =
      ⟨ok 200 "Members added successfully"
        (Payload.project { alpha with members := [aliceId, bobId, carolId] }),
       { sampleStore with projects := [{ alpha with members := [aliceId, bobId, carolId] }] }⟩ := by
  decide

/-- C15 (amended): for an existing project `P` and a non-empty `memberIds` list
of distinct existing users, each id written as it prints, `addMembers` answers
400 and leaves the store unchanged when every provided id is already in
`P.members`; otherwise it succeeds and the new member list is the old list
followed by exactly the provided ids that were not yet members, in the order
given. -/
theorem addMembers_appends_new (L : Lib) (s : Store) (req : Request) (P : Project)
    (ids : List String) (hids : req.body.memberIds = some ids) (hne : ids ≠ [])
    (hcast : castAll L ids = some ids)
    (husers : (usersWithIds s ids).length = ids.length)
    (hP : Project.findById L s req.params.id = Lookup.found P) :
    ((∀ id ∈ ids, id ∈ P.members) →
      addMembers L s req =
        ⟨fail 400 "All provided members are already in the project", s⟩) ∧
    ((∃ id ∈ ids, id ∉ P.members) →
      addMembers L s req =
        ⟨ok 200 "Members added successfully"
          (Payload.project
            { P with members := P.members ++ ids.filter (fun id => !P.members.contains id) }),
         s.putProject
            { P with members := P.members ++ ids.filter (fun id => !P.members.contains id) }⟩) := by
  have hlen : (ids.length == 0) = false := by
    cases ids with
    | nil => exact absurd rfl hne
    | cons x xs => simp
  have hcnt : ((usersWithIds s ids).length != ids.length) = false := by simp [husers]
  have hfilter := castAll_filter_self L (fun id => !P.members.contains id) ids hcast
  constructor
  · intro hall
    have hnil : ids.filter (fun id => !P.members.contains id) = [] := by
      rw [List.filter_eq_nil_iff]
      intro a ha
      simp [hall a ha]
    simp only [addMembers, hids, hlen, Bool.false_eq_true, if_false, hcast, hcnt, hP, hnil,
      List.length_nil, beq_self_eq_true, if_true]
  · rintro ⟨id, hid, hnot⟩
    have hpos : ((ids.filter (fun id => !P.members.contains id)).length == 0) = false := by
      have hmem : id ∈ ids.filter (fun id => !P.members.contains id) := by
        rw [List.mem_filter]
        exact ⟨hid, by simp [hnot]⟩
      have := List.length_pos_of_mem hmem
      simp only [beq_eq_false_iff_ne, ne_eq]
      omega
    simp only [addMembers, hids, hlen, Bool.false_eq_true, if_false, hcast, hcnt, hP, hpos,
      hfilter]

theorem addMembers_appends_new_witness :
    ((∀ id ∈ [bobId, carolId], id ∈ alpha.members) →
      addMembers refLib sampleStore
          (requestWithId alice alphaId { memberIds := some [bobId, carolId] }) =
        ⟨fail 400 "All provided members are already in the project", sampleStore⟩) ∧
    ((∃ id ∈ [bobId, carolId], id ∉ alpha.members) →
      addMembers refLib sampleStore
          (requestWithId alice alphaId { memberIds := some [bobId, carolId] }) =
        ⟨ok 200 "Members added successfully"
          (Payload.project
            { alpha with members :=
                alpha.members ++ [bobId, carolId].filter (fun id => !alpha.members.contains id) }),
         sampleStore.putProject
            { alpha with members :=
                alpha.members ++
                  [bobId, carolId].filter (fun id => !alpha.members.contains id) }⟩) :=
  addMembers_appends_new refLib sampleStore
    (requestWithId alice alphaId { memberIds := some [bobId, carolId] }) alpha [bobId, carolId]
    rfl (by decide) (by decide) (by decide) (by decide)

/-! ## Inviting a user who has an account -/

/-- C16: for an inviter permitted on project `P`, a request that passed
validation and an e-mail that belongs to the existing user `X`: when `X` is
already a member, `inviteUser` answers 400 and the store is unchanged;
otherwise it answers 200 with `X`, writes `P` back with the id of `X` appended
to its members, signs no token and hands no message to the transporter. -/
theorem inviteUser_existing_user (L : Lib) (E : Env) (now : Nat) (s : Store) (req : Request)
    (P : Project) (X : User) (hv : req.validationErrors = [])
    (hP : Project.findById L s req.params.projectId = Lookup.found P)
    (hcan : canAccessProject req.user P)
    (hX : findUserByEmail s req.body.email = some X) :
    (X._id ∈ P.members →
      inviteUser L E now s req =
        { response := fail 400 "User is already a project member", store := s,
          mails := [], tokens := [] }) ∧
    (X._id ∉ P.members →
      inviteUser L E now s req =
        { response := ok 200 "User added to project successfully" (Payload.user X),
          store := s.putProject { P with members := P.members ++ [X._id] },
          mails := [], tokens := [] }) := by
  constructor
  · intro hmem
    have hany := (any_beq_eq_true_iff P.members X._id).mpr hmem
    simp only [inviteUser, hv, List.isEmpty_nil, Bool.not_true, Bool.false_eq_true, if_false, hP,
      projectAccessCheck, hcan, decide_True, hX, hany, if_true]
  · intro hmem
    have hany : P.members.any (fun member => member == X._id) = false := by
      rw [Bool.eq_false_iff]
      exact fun h => hmem ((any_beq_eq_true_iff _ _).mp h)
    simp only [inviteUser, hv, List.isEmpty_nil, Bool.not_true, Bool.false_eq_true, if_false, hP,
      projectAccessCheck, hcan, decide_True, hX, hany]

theorem inviteUser_existing_user_witness :
    (carol._id ∈ alpha.members →
      inviteUser refLib refEnv 0 sampleStore
          { user := bob, params := { projectId := some alphaId },
            body := { email := some "carol@example.org" } } =
        { response := fail 400 "User is already a project member", store := sampleStore,
          mails := [], tokens := [] }) ∧
    (carol._id ∉ alpha.members →
      inviteUser refLib refEnv 0 sampleStore
          { user := bob, params := { projectId := some alphaId },
            body := { email := some "carol@example.org" } } =
        { response := ok 200 "User added to project successfully" (Payload.user carol),
          store := sampleStore.putProject { alpha with members := alpha.members ++ [carol._id] },
          mails := [], tokens := [] }) :=
  inviteUser_existing_user refLib refEnv 0 sampleStore
    { user := bob, params := { projectId := some alphaId },
      body := { email := some "carol@example.org" } } alpha carol
    rfl (by decide) (by decide) (by decide)

/-! ## Invitation tokens -/

theorem verifyInvitationToken_ok_iff (E : Env) (now : Nat) (tok : String) (p : JwtPayload) :
    verifyInvitationToken E now (some tok) = Except.ok p ↔
      (E.jwtVerify tok now = some p ∧ p.type = some "invitation") := by
  simp only [verifyInvitationToken]
  cases hv : E.jwtVerify tok now with
  | none => simp
  | some d =>
    by_cases ht : d.type = some "invitation"
    · have hb : (d.type != some "invitation") = false := by simp [ht]
      simp only [hb, Bool.false_eq_true, if_false, Except.ok.injEq, Option.some.injEq]
      constructor
      · intro h; subst h; exact ⟨rfl, ht⟩
      · intro h; exact h.1
    · have hb : (d.type != some "invitation") = true := by simpa using ht
      simp only [hb, if_true, Option.some.injEq]
      constructor
      · intro h; exact Except.noConfusion h
      · intro h; exact absurd (h.1 ▸ h.2) ht

theorem verifyInvitationToken_error (E : Env) (now : Nat) (token : Option String) :
    (∃ p, verifyInvitationToken E now token = Except.ok p) ∨
      verifyInvitationToken E now token = Except.error "Invalid or expired invitation token" := by
  unfold verifyInvitationToken
  repeat' split
  all_goals first
    | (right; rfl)
    | (left; exact ⟨_, rfl⟩)

theorem acceptInvitationCatch_token :
    acceptInvitationCatch "Invalid or expired invitation token" =
      fail 400 "Invalid or expired invitation token" := by
  decide

theorem acceptInvitation_bad_token (L : Lib) (E : Env) (now : Nat) (newId : ObjectId)
    (s : Store) (req : AnonRequest)
    (h : verifyInvitationToken E now req.body.token =
      Except.error "Invalid or expired invitation token") :
    (acceptInvitation L E now newId s req).response.status = 400 ∧
      (acceptInvitation L E now newId s req).store = s ∧
      (req.validationErrors = [] →
        acceptInvitation L E now newId s req =
          { response := fail 400 "Invalid or expired invitation token", store := s }) := by
  by_cases hv : req.validationErrors.isEmpty = true
  · have hout : acceptInvitation L E now newId s req =
        { response := fail 400 "Invalid or expired invitation token", store := s } := by
      unfold acceptInvitation
      simp only [hv, Bool.not_true, Bool.false_eq_true, if_false, h, acceptInvitationCatch_token]
    rw [hout]
    exact ⟨rfl, rfl, fun _ => rfl⟩
  · have hne : req.validationErrors ≠ [] := by
      intro he
      rw [he] at hv
      exact hv rfl
    have hout : acceptInvitation L E now newId s req =
        { response := validationFailed req.validationErrors, store := s } := by
      unfold acceptInvitation
      simp only [hv, Bool.not_false, if_true]
    rw [hout]
    exact ⟨rfl, rfl, fun he => absurd he hne⟩

/-- C19: `verifyInvitationToken` returns the claims `p` of a token exactly when
`jwt.verify` accepts the token (signed with the server secret, not expired)
with claims `p` whose `type` is `invitation`; on every other token it throws
"Invalid or expired invitation token", in particular on a session token the
server signed (claims `userId` only), whenever it is verified; `acceptInvitation`
then answers 400 with the store unchanged, and `verifyInvitation` answers 400
with that message. -/
theorem verifyInvitationToken_only_invitations (L : Lib) (E : Env) (now : Nat) (s : Store) :
    (∀ tok p, verifyInvitationToken E now (some tok) = Except.ok p ↔
      (E.jwtVerify tok now = some p ∧ p.type = some "invitation")) ∧
    (∀ token, (∃ p, verifyInvitationToken E now token = Except.ok p) ∨
      verifyInvitationToken E now token = Except.error "Invalid or expired invitation token") ∧
    (∀ (userId : ObjectId) (iat ttl : Nat),
      verifyInvitationToken E now (some (E.jwtSign { userId := some userId } iat ttl)) =
        Except.error "Invalid or expired invitation token") ∧
    (∀ (newId : ObjectId) (req : AnonRequest),
      verifyInvitationToken E now req.body.token =
        Except.error "Invalid or expired invitation token" →
      (acceptInvitation L E now newId s req).response.status = 400 ∧
        (acceptInvitation L E now newId s req).store = s) ∧
    (∀ req : AnonRequest,
      verifyInvitationToken E now req.params.token =
        Except.error "Invalid or expired invitation token" →
      verifyInvitation L E now s req =
        ⟨fail 400 "Invalid or expired invitation token", s⟩) := by
  refine ⟨verifyInvitationToken_ok_iff E now, verifyInvitationToken_error E now, ?_, ?_, ?_⟩
  · intro userId iat ttl
    simp only [verifyInvitationToken, E.jwt_verify_sign]
    by_cases h : now < iat + ttl
    · simp only [h, if_true]
      rfl
    · simp only [h, if_false]
  · intro newId req h
    exact ⟨(acceptInvitation_bad_token L E now newId s req h).1,
      (acceptInvitation_bad_token L E now newId s req h).2.1⟩
  · intro req h
    unfold verifyInvitation
    rw [h]

theorem verifyInvitationToken_only_invitations_witness :
    verifyInvitationToken refEnv 200
        (some (refEnv.jwtSign { userId := some aliceId } 100 sevenDays)) =
      Except.error "Invalid or expired invitation token" :=
  (verifyInvitationToken_only_invitations refLib refEnv 200 sampleStore).2.2.1 aliceId 100
    sevenDays

/-! ## Redeeming an invitation -/

theorem user_create_some (E : Env) (s : Store) (newId : ObjectId)
    (name email password role : Option String) (verified : Bool) (u : User)
    (h : User.create E s newId name email password role verified = some u) :
    u._id = newId ∧ some u.email = email ∧ some u.name = name ∧
      u.isEmailVerified = verified ∧ u.role = role.getD "member" ∧
      findUserByEmail s email = none := by
  simp only [User.create] at h
  split at h
  · rename_i n e pw
    split at h
    · rename_i hc
      injection h with h
      subst h
      have hnone : (findUserByEmail s (some e)).isNone = true := by
        simp only [Bool.and_eq_true] at hc
        exact hc.2
      exact ⟨rfl, rfl, rfl, rfl, rfl, Option.isNone_iff_eq_none.mp hnone⟩
    · exact Option.noConfusion h
  · exact Option.noConfusion h

/-- The outcome of `acceptInvitation`: rejected with the store unchanged, or
redeemed with one user appended and the project written back with the id of
that user appended to its members. -/
theorem acceptInvitation_outcome (L : Lib) (E : Env) (now : Nat) (newId : ObjectId) (s : Store)
    (req : AnonRequest) :
    ((acceptInvitation L E now newId s req).store = s ∧
      (acceptInvitation L E now newId s req).response.success = false) ∨
    ∃ decoded P u, verifyInvitationToken E now req.body.token = Except.ok decoded ∧
      findUserByEmail s decoded.email = none ∧
      Project.findById L s decoded.projectId = Lookup.found P ∧
      User.create E s newId req.body.name decoded.email req.body.password none true = some u ∧
      acceptInvitation L E now newId s req =
        { response := ok 201 "Account created and invitation accepted successfully"
            (Payload.registration u (E.jwtSign { userId := some u._id } now sevenDays)
              P._id P.title),
          store := { s with users := s.users ++ [u] }.putProject
            { P with members := P.members ++ [u._id] },
          tokens := [E.jwtSign { userId := some u._id } now sevenDays] } := by
  simp only [acceptInvitation, acceptInvitationCatch]
  repeat' split
  all_goals first
    | (left; exact ⟨rfl, rfl⟩)
    | (right; exact ⟨_, _, _, by assumption, by assumption, by assumption, by assumption, rfl⟩)

/-- C18: for every token, `acceptInvitation` either rejects, leaving the store
unchanged, or redeems: exactly one user, with the generated id and the e-mail
of the token, is appended to the users and the project of the token is written
back with that id appended to its members.  It rejects with 400 when the token
fails verification, with 400 when a user with the e-mail of the token exists,
and (validation passed) with 404 when the project of the token is not found. -/
theorem acceptInvitation_redeemed_or_rejected (L : Lib) (E : Env) (now : Nat)
    (newId : ObjectId) (s : Store) (req : AnonRequest) :
    (((acceptInvitation L E now newId s req).store = s ∧
        (acceptInvitation L E now newId s req).response.success = false) ∨
      ∃ decoded P u, verifyInvitationToken E now req.body.token = Except.ok decoded ∧
        Project.findById L s decoded.projectId = Lookup.found P ∧
        u._id = newId ∧ some u.email = decoded.email ∧ u.isEmailVerified = true ∧
        (acceptInvitation L E now newId s req).response.status = 201 ∧
        (acceptInvitation L E now newId s req).store =
          { s with users := s.users ++ [u] }.putProject
            { P with members := P.members ++ [newId] }) ∧
    (verifyInvitationToken E now req.body.token =
        Except.error "Invalid or expired invitation token" →
      (acceptInvitation L E now newId s req).response.status = 400 ∧
        (acceptInvitation L E now newId s req).store = s) ∧
    (∀ decoded X, verifyInvitationToken E now req.body.token = Except.ok decoded →
      findUserByEmail s decoded.email = some X →
      (acceptInvitation L E now newId s req).response.status = 400 ∧
        (acceptInvitation L E now newId s req).store = s) ∧
    (∀ decoded, req.validationErrors = [] →
      verifyInvitationToken E now req.body.token = Except.ok decoded →
      findUserByEmail s decoded.email = none →
      Project.findById L s decoded.projectId = Lookup.notFound →
      acceptInvitation L E now newId s req =
        { response := fail 404 "Project not found or has been deleted", store := s }) := by
  refine ⟨?_, ?_, ?_, ?_⟩
  · rcases acceptInvitation_outcome L E now newId s req with h | ⟨d, P, u, hd, _, hP, hc, hout⟩
    · exact Or.inl h
    · right
      obtain ⟨hid, hem, _, hver, _, _⟩ := user_create_some E s newId _ _ _ _ _ u hc
      refine ⟨d, P, u, hd, hP, hid, hem, hver, ?_, ?_⟩
      · rw [hout]; rfl
      · rw [hout, hid]
  · intro h
    exact ⟨(acceptInvitation_bad_token L E now newId s req h).1,
      (acceptInvitation_bad_token L E now newId s req h).2.1⟩
  · intro decoded X hd hX
    by_cases hv : req.validationErrors.isEmpty = true
    · have hout : acceptInvitation L E now newId s req =
          { response := fail 400 "User already exists with this email", store := s } := by
        unfold acceptInvitation
        simp only [hv, Bool.not_true, Bool.false_eq_true, if_false, hd, hX]
      rw [hout]
      exact ⟨rfl, rfl⟩
    · have hout : acceptInvitation L E now newId s req =
          { response := validationFailed req.validationErrors, store := s } := by
        unfold acceptInvitation
        simp only [hv, Bool.not_false, if_true]
      rw [hout]
      exact ⟨rfl, rfl⟩
  · intro decoded hv hd hu hp
    unfold acceptInvitation
    simp only [hv, List.isEmpty_nil, Bool.not_true, Bool.false_eq_true, if_false, hd, hu, hp]

theorem acceptInvitation_redeemed_or_rejected_witness :
    acceptInvitation refLib refEnv 200 danaId sampleStore
        (acceptRequest
          (generateInvitationToken refEnv 100 (some danaEmail) (some "64b0000000000000000000ff"))
          "Dana" "Secret1pass") =
      { response := fail 404 "Project not found or has been deleted", store := sampleStore } :=
  (acceptInvitation_redeemed_or_rejected refLib refEnv 200 danaId sampleStore
    (acceptRequest
      (generateInvitationToken refEnv 100 (some danaEmail) (some "64b0000000000000000000ff"))
      "Dana" "Secret1pass")).2.2.2
    { type := some "invitation", email := some danaEmail,
      projectId := some "64b0000000000000000000ff" }
    rfl (by decide) (by decide) (by decide)

theorem verifyInvitationToken_generated (E : Env) (iat now : Nat) (email projectId : Option String)
    (h : now < iat + sevenDays) :
    verifyInvitationToken E now (some (generateInvitationToken E iat email projectId)) =
      Except.ok { email := email, projectId := projectId, type := some "invitation" } := by
  rw [verifyInvitationToken_ok_iff]
  unfold generateInvitationToken
  rw [E.jwt_verify_sign]
  simp [h]

theorem user_create_invited (E : Env) (s : Store) (newId : ObjectId) (name email password : String)
    (h : findUserByEmail s (some email) = none) :
    User.create E s newId (some name) (some email) (some password) none true =
      some (invitedUser E newId name email password) := by
  simp [User.create, h, userRoles, invitedUser]

theorem findUserByEmail_redeemed (s : Store) (u : User) (J : Project)
    (h : findUserByEmail s (some u.email) = none) :
    findUserByEmail (redeemedStore s u J) (some u.email) = some u := by
  unfold findUserByEmail at h ⊢
  have hu : (redeemedStore s u J).users = s.users ++ [u] := rfl
  rw [hu, List.find?_append, h]
  simp

theorem findProject_redeemed (s : Store) (u : User) (J : Project)
    (h : findProject s J._id = some J) :
    findProject (redeemedStore s u J) J._id =
      some { J with members := J.members ++ [u._id] } := by
  unfold redeemedStore
  rw [findProject_putProject]
  have hp : findProject { s with users := s.users ++ [u] } J._id = some J := h
  simp [hp]

/-- C17: an invitation round trip.  For an e-mail `e` with no account and a
project id naming the existing project `J`, the token
`generateInvitationToken(e, J)` signed at time `iat` and redeemed before it
expires, with a name and a password that pass validation, is answered 201 with
a session token for the new user; the user has e-mail `e` and is marked
verified, and `J` lists the id of the user.  A second `acceptInvitation` with
the same token, still before it expires, is answered 400 "User already exists
with this email" and leaves the store unchanged. -/
theorem invitation_round_trip (L : Lib) (E : Env) (s : Store) (iat now1 now2 : Nat)
    (newId newId2 : ObjectId) (e pid name password name2 password2 : String) (J : Project)
    (hnew : findUserByEmail s (some e) = none)
    (hJ : Project.findById L s (some pid) = Lookup.found J)
    (h1 : now1 < iat + sevenDays) (h2 : now2 < iat + sevenDays) :
    acceptInvitation L E now1 newId s
        (acceptRequest (generateInvitationToken E iat (some e) (some pid)) name password) =
      { response := ok 201 "Account created and invitation accepted successfully"
          (Payload.registration (invitedUser E newId name e password)
            (E.jwtSign { userId := some newId } now1 sevenDays) J._id J.title),
        store := redeemedStore s (invitedUser E newId name e password) J,
        tokens := [E.jwtSign { userId := some newId } now1 sevenDays] } ∧
    (invitedUser E newId name e password).email = e ∧
    (invitedUser E newId name e password).isEmailVerified = true ∧
    invitedUser E newId name e password ∈
      (redeemedStore s (invitedUser E newId name e password) J).users ∧
    findProject (redeemedStore s (invitedUser E newId name e password) J) J._id =
      some { J with members := J.members ++ [newId] } ∧
    acceptInvitation L E now2 newId2 (redeemedStore s (invitedUser E newId name e password) J)
        (acceptRequest (generateInvitationToken E iat (some e) (some pid)) name2 password2) =
      { response := fail 400 "User already exists with this email",
        store := redeemedStore s (invitedUser E newId name e password) J } := by
  obtain ⟨str, oid, _, _, hfp⟩ := project_findById_found L s _ J hJ
  have hJid : findProject s J._id = some J := (findProject_id s oid J hfp) ▸ hfp
  refine ⟨?_, rfl, rfl, ?_, findProject_redeemed s _ J hJid, ?_⟩
  · simp only [acceptInvitation, acceptRequest, List.isEmpty_nil, Bool.not_true,
      Bool.false_eq_true, if_false, verifyInvitationToken_generated E iat now1 _ _ h1, hnew, hJ,
      user_create_invited E s newId name e password hnew]
    rfl
  · have hu : (redeemedStore s (invitedUser E newId name e password) J).users =
        s.users ++ [invitedUser E newId name e password] := rfl
    rw [hu]
    simp
  · have hfound := findUserByEmail_redeemed s (invitedUser E newId name e password) J hnew
    have hfound2 : findUserByEmail (redeemedStore s (invitedUser E newId name e password) J)
        (some e) = some (invitedUser E newId name e password) := hfound
    simp only [acceptInvitation, acceptRequest, List.isEmpty_nil, Bool.not_true,
      Bool.false_eq_true, if_false, verifyInvitationToken_generated E iat now2 _ _ h2, hfound2]

theorem invitation_round_trip_witness :
    acceptInvitation refLib refEnv 200 danaId sampleStore
        (acceptRequest (generateInvitationToken refEnv 100 (some danaEmail) (some alphaId))
          "Dana" "Secret1pass") =
      { response := ok 201 "Account created and invitation accepted successfully"
          (Payload.registration (invitedUser refEnv danaId "Dana" danaEmail "Secret1pass")
            (refEnv.jwtSign { userId := some danaId } 200 sevenDays) alpha._id alpha.title),
        store := redeemedStore sampleStore
          (invitedUser refEnv danaId "Dana" danaEmail "Secret1pass") alpha,
        tokens := [refEnv.jwtSign { userId := some danaId } 200 sevenDays] } ∧
    (invitedUser refEnv danaId "Dana" danaEmail "Secret1pass").email = danaEmail ∧
    (invitedUser refEnv danaId "Dana" danaEmail "Secret1pass").isEmailVerified = true ∧
    invitedUser refEnv danaId "Dana" danaEmail "Secret1pass" ∈
      (redeemedStore sampleStore
        (invitedUser refEnv danaId "Dana" danaEmail "Secret1pass") alpha).users ∧
    findProject
        (redeemedStore sampleStore (invitedUser refEnv danaId "Dana" danaEmail "Secret1pass")
          alpha) alpha._id =
      some { alpha with members := alpha.members ++ [danaId] } ∧
    acceptInvitation refLib refEnv 300 "64b000000000000000000005"
        (redeemedStore sampleStore (invitedUser refEnv danaId "Dana" danaEmail "Secret1pass")
          alpha)
        (acceptRequest (generateInvitationToken refEnv 100 (some danaEmail) (some alphaId))
          "Dana" "Secret1pass") =
      { response := fail 400 "User already exists with this email",
        store := redeemedStore sampleStore
          (invitedUser refEnv danaId "Dana" danaEmail "Secret1pass") alpha } :=
  invitation_round_trip refLib refEnv sampleStore 100 200 300 danaId "64b000000000000000000005"
    danaEmail alphaId "Dana" "Secret1pass" "Dana" "Secret1pass" alpha
    (by decide) (by decide) (by decide) (by decide)

/-! ## Creating a user with generated credentials -/

/-- C20 (the code at the failing input): Root is an admin, no account has
Dana's e-mail and project Alpha exists.  Root's `POST
/api/auth/users/with-credentials` with a name, the e-mail and the project id is
answered 400 "Validation failed": the route runs `validateCreateUser`, which
demands a password in the body, although the handler never reads it and
generates one.  No user is created.  With a password added to the body, the
same request is answered 201 with the generated password in the credentials,
and the new user is a member of Alpha. -/
theorem createUser_demands_password :
    root.role = "admin" ∧ findUserByEmail sampleStore (some danaEmail) = none ∧
    findProject sampleStore alphaId = some alpha ∧
    postUserWithCredentialsRoute refLib refEnv "Qx7Lm2RtAb" danaId sampleStore root
        { name := some "Dana", email := some danaEmail, projectId := some alphaId } =
      { response := validationFailed
          ["Password must be at least 6 characters long",
           "Password must contain at least one uppercase letter, one lowercase letter, and one number"],
        store := sampleStore } ∧
    (postUserWithCredentialsRoute refLib refEnv "Qx7Lm2RtAb" danaId sampleStore root
        { name := some "Dana", email := some danaEmail, projectId := some alphaId,
          password := some "Ignored1pass" }).response =
      ok 201 "User created and credentials sent successfully"
        (Payload.credentials
          { _id := danaId, name := "Dana", email := danaEmail,
            password := refEnv.hashPassword "Qx7Lm2RtAb123", role := "member",
            isEmailVerified := true }
          (some danaEmail) "Qx7Lm2RtAb123") ∧
    findProject
        (postUserWithCredentialsRoute refLib refEnv "Qx7Lm2RtAb" danaId sampleStore root
          { name := some "Dana", email := some danaEmail, projectId := some alphaId,
            password := some "Ignored1pass" }).store alphaId =
      some { alpha with members := [aliceId, bobId, danaId] } := by
  decide

/-! ## Member lists stay duplicate-free when ids are written as they print -/

theorem putProject_keeps_nodup (s : Store) (u : Project) (hu : u.members.Nodup)
    (hinv : membersNodup s) : membersNodup (s.putProject u) := by
  intro p hp
  rcases mem_putProject s u p hp with h | h
  · exact hinv p h
  · exact h ▸ hu

theorem removeMembers_keeps_nodup (L : Lib) (s : Store) (req : Request)
    (hinv : membersNodup s) : membersNodup (removeMembers L s req).store := by
  rcases removeMembers_store L s req with h | ⟨P, ids, hP, _, _, hout⟩
  · rw [h]; exact hinv
  · rw [hout]
    obtain ⟨str, oid, _, _, hfp⟩ := project_findById_found L s _ P hP
    exact putProject_keeps_nodup s _ ((hinv P (findProject_mem s oid P hfp)).filter _) hinv

/-- The store after `addMembers` with ids written as they print: unchanged, or
the project written back with the new ids appended. -/
theorem addMembers_store_canonical (L : Lib) (s : Store) (req : Request) (ids : List String)
    (hids : req.body.memberIds = some ids) (hcast : castAll L ids = some ids) :
    (addMembers L s req).store = s ∨
    ∃ P, Project.findById L s req.params.id = Lookup.found P ∧
      (addMembers L s req).store =
        s.putProject
          { P with members := P.members ++ ids.filter (fun id => !P.members.contains id) } := by
  cases hP : Project.findById L s req.params.id with
  | castError =>
    left
    simp only [addMembers, hids, hcast, hP]
    repeat' split
    all_goals rfl
  | notFound =>
    left
    simp only [addMembers, hids, hcast, hP]
    repeat' split
    all_goals rfl
  | found P =>
    have hfilter := castAll_filter_self L (fun id => !P.members.contains id) ids hcast
    simp only [addMembers, hids, hcast, hP, hfilter]
    repeat' split
    all_goals first
      | (left; rfl)
      | (right; exact ⟨P, rfl, rfl⟩)

theorem addMembers_keeps_nodup_of_canonical (L : Lib) (s : Store) (req : Request)
    (ids : List String) (hids : req.body.memberIds = some ids)
    (hcast : castAll L ids = some ids) (hnd : ids.Nodup) (hinv : membersNodup s) :
    membersNodup (addMembers L s req).store := by
  rcases addMembers_store_canonical L s req ids hids hcast with h | ⟨P, hP, hout⟩
  · rw [h]; exact hinv
  · rw [hout]
    obtain ⟨str, oid, _, _, hfp⟩ := project_findById_found L s _ P hP
    have hPnd := hinv P (findProject_mem s oid P hfp)
    apply putProject_keeps_nodup s _ _ hinv
    refine List.Nodup.append hPnd (hnd.filter _) ?_
    intro a ha hb
    rw [List.mem_filter] at hb
    simp only [Bool.not_eq_true', List.contains_eq_any_beq, List.any_eq_false, beq_iff_eq] at hb
    exact hb.2 a ha rfl

/-- The store after `inviteUser`: unchanged, or the project written back with
the id of the existing user, not yet a member, appended. -/
theorem inviteUser_store (L : Lib) (E : Env) (now : Nat) (s : Store) (req : Request) :
    (inviteUser L E now s req).store = s ∨
    ∃ P X, Project.findById L s req.params.projectId = Lookup.found P ∧
      findUserByEmail s req.body.email = some X ∧ X._id ∉ P.members ∧
      (inviteUser L E now s req).store =
        s.putProject { P with members := P.members ++ [X._id] } := by
  cases hP : Project.findById L s req.params.projectId with
  | castError =>
    left
    simp only [inviteUser, hP]
    split <;> rfl
  | notFound =>
    left
    simp only [inviteUser, hP]
    split <;> rfl
  | found P =>
    cases hX : findUserByEmail s req.body.email with
    | none =>
      left
      simp only [inviteUser, hP, hX]
      repeat' split
      all_goals rfl
    | some X =>
      by_cases hmem : X._id ∈ P.members
      · left
        have hany := (any_beq_eq_true_iff P.members X._id).mpr hmem
        simp only [inviteUser, hP, hX, hany, if_true]
        repeat' split
        all_goals rfl
      · have hany : P.members.any (fun member => member == X._id) = false := by
          rw [Bool.eq_false_iff]
          exact fun h => hmem ((any_beq_eq_true_iff _ _).mp h)
        simp only [inviteUser, hP, hX, hany, Bool.false_eq_true, if_false]
        repeat' split
        all_goals first
          | (left; rfl)
          | (right; exact ⟨P, X, rfl, rfl, hmem, rfl⟩)

theorem inviteUser_keeps_nodup (L : Lib) (E : Env) (now : Nat) (s : Store) (req : Request)
    (hinv : membersNodup s) : membersNodup (inviteUser L E now s req).store := by
  rcases inviteUser_store L E now s req with h | ⟨P, X, hP, _, hnot, hout⟩
  · rw [h]; exact hinv
  · rw [hout]
    obtain ⟨str, oid, _, _, hfp⟩ := project_findById_found L s _ P hP
    have hPnd := hinv P (findProject_mem s oid P hfp)
    apply putProject_keeps_nodup s _ _ hinv
    refine List.Nodup.append hPnd (List.nodup_singleton _) ?_
    intro a ha hb
    have : a = X._id := by simpa using hb
    exact hnot (this ▸ ha)

/-- `acceptInvitation` keeps member lists duplicate-free when the generated id
is new. -/
theorem acceptInvitation_keeps_nodup (L : Lib) (E : Env) (now : Nat) (newId : ObjectId)
    (s : Store) (req : AnonRequest) (hfresh : ∀ p ∈ s.projects, newId ∉ p.members)
    (hinv : membersNodup s) : membersNodup (acceptInvitation L E now newId s req).store := by
  rcases acceptInvitation_outcome L E now newId s req with h | ⟨d, P, u, _, _, hP, hc, hout⟩
  · rw [h.1]; exact hinv
  · rw [hout]
    obtain ⟨hid, _⟩ := user_create_some E s newId _ _ _ _ _ u hc
    obtain ⟨str, oid, _, _, hfp⟩ := project_findById_found L s _ P hP
    have hPmem := findProject_mem s oid P hfp
    have hinv2 : membersNodup { s with users := s.users ++ [u] } := hinv
    apply putProject_keeps_nodup _ _ _ hinv2
    refine List.Nodup.append (hinv P hPmem) (List.nodup_singleton _) ?_
    intro a ha hb
    have : a = u._id := by simpa using hb
    rw [this, hid] at ha
    exact hfresh P hPmem ha

/-! ## What `createUserWithCredentials` does once validation has passed -/

theorem project_findById_of_projects_eq (L : Lib) (s s' : Store) (id : Option String)
    (h : s'.projects = s.projects) : Project.findById L s' id = Project.findById L s id := by
  unfold Project.findById findProject
  rw [h]

/-- The handler behind `POST /api/auth/users/with-credentials`, on a request
that passed validation, with a name, an e-mail that has no account, a role
among the user roles (or none) and a project id naming the existing project
`J`: the answer is 201 with the generated password in the credentials, the new
user is stored, and `J` is written back with the id of the user appended. -/
theorem createUserWithCredentials_created (L : Lib) (E : Env) (generated : String)
    (newId : ObjectId) (s : Store) (req : Request) (name email pid : String) (J : Project)
    (hv : req.validationErrors = []) (hn : req.body.name = some name)
    (he : req.body.email = some email) (hnew : findUserByEmail s (some email) = none)
    (hrole : userRoles.contains (req.body.role.getD "member") = true)
    (hpid : req.body.projectId = some pid)
    (hJ : Project.findById L s (some pid) = Lookup.found J) :
    createUserWithCredentials L E generated newId s req =
      { response := ok 201 "User created and credentials sent successfully"
          (Payload.credentials
            { _id := newId, name := name, email := email,
              password := E.hashPassword (generated ++ "123"),
              role := req.body.role.getD "member", isEmailVerified := true }
            (some email) (generated ++ "123")),
        store := redeemedStore s
          { _id := newId, name := name, email := email,
            password := E.hashPassword (generated ++ "123"),
            role := req.body.role.getD "member", isEmailVerified := true } J,
        mails := [Mail.loginCredentials email name (generated ++ "123") (some J.title)] } := by
  obtain ⟨str, oid, hstr, hc, _⟩ := project_findById_found L s _ J hJ
  have ht : truthy (some pid) = true := by
    injection hstr with hstr
    exact hstr ▸ truthy_of_cast L str oid hc
  have hJ1 : ∀ u : User, Project.findById L { s with users := s.users ++ [u] } (some pid) =
      Lookup.found J := by
    intro u
    rw [project_findById_of_projects_eq L s { s with users := s.users ++ [u] } (some pid) rfl]
    exact hJ
  simp only [createUserWithCredentials, hv, List.isEmpty_nil, Bool.not_true, Bool.false_eq_true,
    if_false, hn, he, hnew, hpid, ht, if_true, User.create, hrole, Option.isNone_none,
    Bool.and_self, Option.getD_some, hJ1]
  rfl

/-! ## What a deletion leaves in place -/

/-- Detaching a comment from its task touches the tasks only. -/
theorem detachComment_frame (s : Store) (C : Comment) (id : Option String) :
    (detachComment s C id).comments = s.comments ∧ (detachComment s C id).users = s.users ∧
      (detachComment s C id).projects = s.projects := by
  unfold detachComment
  split
  · exact ⟨rfl, rfl, rfl⟩
  · exact ⟨rfl, rfl, rfl⟩

/-- A `deleteTask` that answers with success was permitted: the store it
leaves is the store without the task. -/
theorem deleteTask_success (L : Lib) (s : Store) (req : Request) (T : Task)
    (hT : Task.findById L s req.params.id = Lookup.found T)
    (hok : (deleteTask L s req).response.success = true) :
    deleteTask L s req =
      ⟨ok 200 "Task deleted successfully" Payload.empty, { s with tasks := s.tasks.erase T }⟩ := by
  cases hP : findProject s T.projectId with
  | none =>
    have h : deleteTask L s req = ⟨fail 404 "Project not found", s⟩ := by
      simp only [deleteTask, hT, hP]
    rw [h] at hok
    exact Bool.noConfusion hok
  | some P =>
    by_cases hcan : canDeleteTask req.user P T
    · exact deleteTask_permitted L s req T P hT hP hcan
    · rw [deleteTask_denied L s req T P hT hP hcan] at hok
      exact Bool.noConfusion hok

/-- A `deleteProject` that answers with success was permitted. -/
theorem deleteProject_success (L : Lib) (s : Store) (req : Request) (J : Project)
    (hJ : Project.findById L s req.params.id = Lookup.found J)
    (hok : (deleteProject L s req).response.success = true) :
    deleteProject L s req =
      ⟨ok 200 "Project deleted successfully" Payload.empty,
       { s with projects := s.projects.erase J }⟩ := by
  by_cases hcan : canDeleteProject req.user J
  · exact deleteProject_permitted L s req J hJ hcan
  · rw [deleteProject_denied L s req J hJ hcan] at hok
    exact Bool.noConfusion hok

/-- C22: a `deleteTask` of task `T` that answers with success leaves the store
without `T` and otherwise as it was: every comment whose `taskId` is `T` is
still stored; and on the store it leaves, a `deleteComment` of such a comment
`C` by the creator of `C` or an admin answers 200 and removes `C` (and nothing
else from the comments, no user and no project). -/
theorem deleteTask_leaves_comments (L : Lib) (s : Store) (req : Request) (T : Task)
    (hT : Task.findById L s req.params.id = Lookup.found T)
    (hok : (deleteTask L s req).response.success = true) :
    (deleteTask L s req).store = { s with tasks := s.tasks.erase T } ∧
    (∀ c ∈ s.comments, c.taskId = T._id → c ∈ (deleteTask L s req).store.comments) ∧
    (∀ (req2 : Request) (C : Comment), C.taskId = T._id →
      Comment.findById L (deleteTask L s req).store req2.params.commentId = Lookup.found C →
      canDeleteComment req2.user C →
      (deleteComment L (deleteTask L s req).store req2).response =
        ok 200 "Comment deleted successfully" Payload.empty ∧
      (deleteComment L (deleteTask L s req).store req2).store.comments = s.comments.erase C ∧
      (deleteComment L (deleteTask L s req).store req2).store.users = s.users ∧
      (deleteComment L (deleteTask L s req).store req2).store.projects = s.projects) := by
  have h := deleteTask_success L s req T hT hok
  rw [h]
  refine ⟨rfl, fun c hc _ => hc, ?_⟩
  intro req2 C _ hC hcan
  rw [deleteComment_permitted L _ req2 C hC hcan]
  obtain ⟨h1, h2, h3⟩ := detachComment_frame { s with tasks := s.tasks.erase T } C
    req2.params.commentId
  exact ⟨rfl, by simp only [h1], h2, h3⟩

theorem deleteTask_leaves_comments_witness :
    (deleteComment refLib (deleteTask refLib commentStore (requestWithId alice taskOneId {})).store
        (requestWithCommentId root commentOneId {})).response =
      ok 200 "Comment deleted successfully" Payload.empty ∧
    (deleteComment refLib (deleteTask refLib commentStore (requestWithId alice taskOneId {})).store
        (requestWithCommentId root commentOneId {})).store.comments =
      commentStore.comments.erase commentOne ∧
    (deleteComment refLib (deleteTask refLib commentStore (requestWithId alice taskOneId {})).store
        (requestWithCommentId root commentOneId {})).store.users = commentStore.users ∧
    (deleteComment refLib (deleteTask refLib commentStore (requestWithId alice taskOneId {})).store
        (requestWithCommentId root commentOneId {})).store.projects = commentStore.projects :=
  (deleteTask_leaves_comments refLib commentStore (requestWithId alice taskOneId {}) discussedTask
    (by decide) (by decide)).2.2 (requestWithCommentId root commentOneId {}) commentOne rfl
    (by decide) (by decide)

/-- C23: a `deleteProject` of project `J` that answers with success removes the
document `J` from the projects and nothing else: tasks, comments and users are
as they were, and every other project is still stored. -/
theorem deleteProject_removes_only_project (L : Lib) (s : Store) (req : Request) (J : Project)
    (hJ : Project.findById L s req.params.id = Lookup.found J)
    (hok : (deleteProject L s req).response.success = true) :
    J ∈ s.projects ∧
    (deleteProject L s req).store.projects = s.projects.erase J ∧
    (deleteProject L s req).store.tasks = s.tasks ∧
    (deleteProject L s req).store.comments = s.comments ∧
    (deleteProject L s req).store.users = s.users ∧
    (∀ p ∈ s.projects, p ≠ J → p ∈ (deleteProject L s req).store.projects) ∧
    (∀ p ∈ (deleteProject L s req).store.projects, p ∈ s.projects) := by
  obtain ⟨str, oid, _, _, hf⟩ := project_findById_found L s _ J hJ
  have hmem := findProject_mem s oid J hf
  rw [deleteProject_success L s req J hJ hok]
  refine ⟨hmem, rfl, rfl, rfl, rfl, ?_, ?_⟩
  · intro p hp hne
    exact (List.mem_erase_of_ne hne).mpr hp
  · intro p hp
    exact List.mem_of_mem_erase hp

theorem deleteProject_removes_only_project_witness :
    alpha ∈ sampleStore.projects ∧
    (deleteProject refLib sampleStore (requestWithId alice alphaId {})).store.projects =
      sampleStore.projects.erase alpha ∧
    (deleteProject refLib sampleStore (requestWithId alice alphaId {})).store.tasks =
      sampleStore.tasks ∧
    (deleteProject refLib sampleStore (requestWithId alice alphaId {})).store.comments =
      sampleStore.comments ∧
    (deleteProject refLib sampleStore (requestWithId alice alphaId {})).store.users =
      sampleStore.users :=
  have h := deleteProject_removes_only_project refLib sampleStore (requestWithId alice alphaId {})
    alpha (by decide) (by decide)
  ⟨h.1, h.2.1, h.2.2.1, h.2.2.2.1, h.2.2.2.2.1⟩

/-! ## What a task update leaves in place -/

/-- Either `updateTask` answers without success, or it wrote the update of the
task it found. -/
theorem updateTask_cases (L : Lib) (s : Store) (req : Request) :
    (updateTask L s req).response.success = false ∨
    ∃ T P u, Task.findById L s req.params.id = Lookup.found T ∧
      findProject s T.projectId = some P ∧
      canModifyTask req.user P T ∧
      Task.applyUpdate L T req.body = some u ∧
      updateTask L s req =
        ⟨ok 200 "Task updated successfully" (Payload.task u), s.putTask u⟩ := by
  unfold updateTask
  by_cases hv : req.validationErrors.isEmpty = true
  · simp only [hv, Bool.not_true, Bool.false_eq_true, if_false]
    cases hf : Task.findById L s req.params.id with
    | castError => left; rfl
    | notFound => left; rfl
    | found T =>
      cases hp : findProject s T.projectId with
      | none => left; simp only [hp]; rfl
      | some P =>
        simp only [hp, taskModifyCheck]
        by_cases hcan : canModifyTask req.user P T
        · simp only [hcan, decide_True, Bool.not_true, Bool.false_eq_true, if_false]
          cases hchk : (truthy req.body.assignedTo &&
              !P.members.any (fun member => some member == req.body.assignedTo)) with
          | true => left; simp [fail]
          | false =>
            simp only [Bool.false_eq_true, if_false]
            cases hc : Task.applyUpdate L T req.body with
            | none => left; rfl
            | some u =>
              right
              exact ⟨T, P, u, rfl, hp, hcan, hc, rfl⟩
        · left
          simp [hcan, fail]
  · left
    simp [hv, validationFailed]

/-- A field that the body of an update does not carry keeps its value. -/
theorem task_applyUpdate_absent (L : Lib) (t : Task) (b : Body) (u : Task)
    (h : Task.applyUpdate L t b = some u) :
    (b.title = none → u.title = t.title) ∧
    (b.description = none → u.description = t.description) ∧
    (b.status = none → u.status = t.status) ∧
    (b.priority = none → u.priority = t.priority) ∧
    (b.assignedTo = none → u.assignedTo = t.assignedTo) ∧
    (b.dueDate = none → u.dueDate = t.dueDate) := by
  unfold Task.applyUpdate at h
  simp only at h
  split at h
  · rename_i ti d st pr a due h1 h2 h3 h4 h5 h6
    injection h with h
    subst h
    refine ⟨?_, ?_, ?_, ?_, ?_, ?_⟩
    · intro hb
      rw [hb] at h1
      simp only [truthy, Bool.false_eq_true, if_false, Option.some.injEq] at h1
      exact h1.symm
    · intro hb
      rw [hb] at h2
      simp only [Option.some.injEq] at h2
      exact h2.symm
    · intro hb
      rw [hb] at h3
      simp only [truthy, Bool.false_eq_true, if_false, Option.some.injEq] at h3
      exact h3.symm
    · intro hb
      rw [hb] at h4
      simp only [truthy, Bool.false_eq_true, if_false, Option.some.injEq] at h4
      exact h4.symm
    · intro hb
      rw [hb] at h5
      simp only [Option.some.injEq] at h5
      exact h5.symm
    · intro hb
      rw [hb] at h6
      simp only [Option.some.injEq] at h6
      exact h6.symm
  · exact Option.noConfusion h

/-- The first task with a given id, after a task was written back. -/
theorem find_replaceFirst_task (n : Task) (xs : List Task) (T : Task)
    (h : xs.find? (fun q => q._id == n._id) = some T) :
    (replaceFirst (fun q => q._id == n._id) n xs).find? (fun q => q._id == n._id) = some n := by
  induction xs with
  | nil => simp at h
  | cons x xs ih =>
    unfold replaceFirst
    by_cases hx : (x._id == n._id) = true
    · simp [hx, List.find?_cons]
    · have hx2 : (x._id == n._id) = false := by simpa using hx
      rw [List.find?_cons, hx2] at h
      simp only [hx2, Bool.false_eq_true, if_false, List.find?_cons]
      exact ih h

/-- C30: an `updateTask` of task `T` that answers with success writes back a
task `u` with the id, the `projectId`, the `createdBy` and the `comments` of
`T`, and with the previous value in each of title, description, status,
priority, assignedTo and dueDate that the request body does not carry; `u` is
the task the id names afterwards, and users, projects and comments are as they
were. -/
theorem updateTask_keeps_unlisted (L : Lib) (s : Store) (req : Request) (T : Task)
    (hT : Task.findById L s req.params.id = Lookup.found T)
    (hok : (updateTask L s req).response.success = true) :
    ∃ u, updateTask L s req =
        ⟨ok 200 "Task updated successfully" (Payload.task u), s.putTask u⟩ ∧
      Task.findById L (updateTask L s req).store req.params.id = Lookup.found u ∧
      u._id = T._id ∧ u.projectId = T.projectId ∧ u.createdBy = T.createdBy ∧
      u.comments = T.comments ∧
      (req.body.title = none → u.title = T.title) ∧
      (req.body.description = none → u.description = T.description) ∧
      (req.body.status = none → u.status = T.status) ∧
      (req.body.priority = none → u.priority = T.priority) ∧
      (req.body.assignedTo = none → u.assignedTo = T.assignedTo) ∧
      (req.body.dueDate = none → u.dueDate = T.dueDate) ∧
      (updateTask L s req).store.users = s.users ∧
      (updateTask L s req).store.projects = s.projects ∧
      (updateTask L s req).store.comments = s.comments := by
  rcases updateTask_cases L s req with hf | ⟨T2, P, u, hT2, _, _, hu, hout⟩
  · rw [hf] at hok
    exact Bool.noConfusion hok
  · rw [hT] at hT2
    injection hT2 with hT2
    subst hT2
    obtain ⟨h1, h2, h3, h4, _⟩ := task_applyUpdate_some L T req.body u hu
    obtain ⟨a1, a2, a3, a4, a5, a6⟩ := task_applyUpdate_absent L T req.body u hu
    obtain ⟨str, oid, hid, hc, hfind⟩ := task_findById_found L s _ T hT
    have hoid : oid = u._id := by
      rw [h1]
      exact (findTask_id s oid T hfind).symm
    have hfound : Task.findById L (s.putTask u) req.params.id = Lookup.found u := by
      subst hoid
      have := find_replaceFirst_task u s.tasks T hfind
      simp only [Task.findById, hid, hc, findTask, Store.putTask, this]
    rw [hout]
    exact ⟨u, rfl, hfound, h1, h2, h3, h4, a1, a2, a3, a4, a5, a6, rfl, rfl, rfl⟩

theorem updateTask_keeps_unlisted_witness :
    ∃ u, updateTask refLib commentStore (requestWithId alice taskOneId { priority := some "high" }) =
        ⟨ok 200 "Task updated successfully" (Payload.task u), commentStore.putTask u⟩ ∧
      Task.findById refLib
        (updateTask refLib commentStore
          (requestWithId alice taskOneId { priority := some "high" })).store
        (requestWithId alice taskOneId { priority := some "high" }).params.id = Lookup.found u ∧
      u._id = discussedTask._id ∧ u.projectId = discussedTask.projectId ∧
      u.createdBy = discussedTask.createdBy ∧ u.comments = discussedTask.comments ∧
      u.title = discussedTask.title ∧ u.status = discussedTask.status ∧
      u.assignedTo = discussedTask.assignedTo ∧ u.dueDate = discussedTask.dueDate :=
  match updateTask_keeps_unlisted refLib commentStore
      (requestWithId alice taskOneId { priority := some "high" }) discussedTask
      (by decide) (by decide) with
  | ⟨u, h1, h2, h3, h4, h5, h6, a1, _, a3, _, a5, a6, _⟩ =>
    ⟨u, h1, h2, h3, h4, h5, h6, a1 rfl, a3 rfl, a5 rfl, a6 rfl⟩

/-! ## The handlers repeat the check of `requireProjectAccess` -/

/-- The check of `updateProject`, which tests the three roles in another order. -/
theorem projectAccessCheckAlt (u : User) (P : Project) :
    (!(u.role == "admin") && !(P.createdBy == u._id) &&
      !P.members.any (fun member => member == u._id)) = !decide (canAccessProject u P) := by
  rw [← projectAccessCheck]
  cases P.members.any (fun member => member == u._id) <;> cases (u.role == "admin") <;>
    cases (P.createdBy == u._id) <;> rfl

/-- What `requireProjectAccess` does: it responds without success, or it found
a project the principal may access and calls `next` with it. -/
theorem requireProjectAccess_cases (L : Lib) (s : Store) (req : Request) :
    (∃ r, requireProjectAccess L s req = MwResult.respond r ∧ r.success = false ∧
      (r.status = 403 ↔ ∃ P, Project.findById L s (requestedProjectId req) = Lookup.found P ∧
        ¬ canAccessProject req.user P)) ∨
    ∃ P, Project.findById L s (requestedProjectId req) = Lookup.found P ∧
      truthy (requestedProjectId req) = true ∧
      canAccessProject req.user P ∧
      requireProjectAccess L s req = MwResult.next { req with project := some P } := by
  unfold requireProjectAccess
  by_cases ht : truthy (requestedProjectId req) = true
  · simp only [ht, Bool.not_true, Bool.false_eq_true, if_false]
    cases hf : Project.findById L s (requestedProjectId req) with
    | castError =>
      left
      exact ⟨_, rfl, rfl, by simp [fail]⟩
    | notFound =>
      left
      exact ⟨_, rfl, rfl, by simp [fail]⟩
    | found P =>
      simp only [projectAccessCheck]
      by_cases hcan : canAccessProject req.user P
      · right
        refine ⟨P, rfl, trivial, hcan, ?_⟩
        simp [hcan]
      · left
        refine ⟨fail 403 "Access denied - not a project member", by simp [hcan], rfl, ?_⟩
        simp [fail, hcan]
  · left
    have ht2 : truthy (requestedProjectId req) = false := by simpa using ht
    refine ⟨fail 400 "Project ID required", by simp [ht2], rfl, ?_⟩
    constructor
    · intro h
      simp [fail] at h
    · rintro ⟨P, hP, _⟩
      obtain ⟨str, oid, hid, hc, _⟩ := project_findById_found L s _ P hP
      rw [hid, truthy_of_cast L str oid hc] at ht2
      exact Bool.noConfusion ht2

/-- The 403 of `updateProject`: the request passed validation, the project
exists, and the principal is no admin, not its creator and not a member. -/
theorem updateProject_403 (L : Lib) (s : Store) (req : Request) :
    (updateProject L s req).response.status = 403 ↔
      req.validationErrors.isEmpty = true ∧
      ∃ P, Project.findById L s req.params.id = Lookup.found P ∧
        ¬ canAccessProject req.user P := by
  unfold updateProject
  by_cases hv : req.validationErrors.isEmpty = true
  · simp only [hv, Bool.not_true, Bool.false_eq_true, if_false, true_and]
    cases hf : Project.findById L s req.params.id with
    | castError => simp [fail]
    | notFound => simp [fail]
    | found P =>
      simp only [projectAccessCheckAlt]
      by_cases hcan : canAccessProject req.user P
      · simp only [hcan, decide_True, Bool.not_true, Bool.false_eq_true, if_false,
          Lookup.found.injEq, not_true_eq_false]
        have hr : ¬ ∃ P_1, P = P_1 ∧ ¬ canAccessProject req.user P_1 := by
          rintro ⟨Q, rfl, hq⟩
          exact hq hcan
        simp only [hr, iff_false]
        unfold updateProjectWrite
        repeat' split
        all_goals simp [fail, ok]
      · simp [hcan, fail]
  · have hv2 : req.validationErrors.isEmpty = false := by simpa using hv
    simp [hv2, validationFailed]

/-- The 403 of `createTask`, as for `updateProject`. -/
theorem createTask_403 (L : Lib) (newId : ObjectId) (s : Store) (req : Request) :
    (createTask L newId s req).response.status = 403 ↔
      req.validationErrors.isEmpty = true ∧
      ∃ P, Project.findById L s (jsOr req.params.projectId req.params.id) = Lookup.found P ∧
        ¬ canAccessProject req.user P := by
  unfold createTask
  by_cases hv : req.validationErrors.isEmpty = true
  · simp only [hv, Bool.not_true, Bool.false_eq_true, if_false, true_and]
    cases hf : Project.findById L s (jsOr req.params.projectId req.params.id) with
    | castError => simp [fail]
    | notFound => simp [fail]
    | found P =>
      simp only [projectAccessCheck]
      by_cases hcan : canAccessProject req.user P
      · simp only [hcan, decide_True, Bool.not_true, Bool.false_eq_true, if_false,
          Lookup.found.injEq, not_true_eq_false]
        have hr : ¬ ∃ P_1, P = P_1 ∧ ¬ canAccessProject req.user P_1 := by
          rintro ⟨Q, rfl, hq⟩
          exact hq hcan
        simp only [hr, iff_false]
        repeat' split
        all_goals simp [fail, ok]
      · simp [hcan, fail]
  · have hv2 : req.validationErrors.isEmpty = false := by simpa using hv
    simp [hv2, validationFailed]

/-- The 403 of `inviteUser`, as for `updateProject`. -/
theorem inviteUser_403 (L : Lib) (E : Env) (now : Nat) (s : Store) (req : Request) :
    (inviteUser L E now s req).response.status = 403 ↔
      req.validationErrors.isEmpty = true ∧
      ∃ P, Project.findById L s req.params.projectId = Lookup.found P ∧
        ¬ canAccessProject req.user P := by
  unfold inviteUser
  by_cases hv : req.validationErrors.isEmpty = true
  · simp only [hv, Bool.not_true, Bool.false_eq_true, if_false, true_and]
    cases hf : Project.findById L s req.params.projectId with
    | castError => simp [fail]
    | notFound => simp [fail]
    | found P =>
      simp only [projectAccessCheck]
      by_cases hcan : canAccessProject req.user P
      · simp only [hcan, decide_True, Bool.not_true, Bool.false_eq_true, if_false,
          Lookup.found.injEq, not_true_eq_false]
        have hr : ¬ ∃ P_1, P = P_1 ∧ ¬ canAccessProject req.user P_1 := by
          rintro ⟨Q, rfl, hq⟩
          exact hq hcan
        simp only [hr, iff_false]
        repeat' split
        all_goals simp [fail, ok]
      · simp [hcan, fail]
  · have hv2 : req.validationErrors.isEmpty = false := by simpa using hv
    simp [hv2, validationFailed]

/-- After `requireProjectAccess` called `next`, the project that the key `k` of
a handler names, if any, is one the principal may access: the key is the id the
middleware looked up, unless it is the empty string, which names nothing. -/
theorem access_of_next (L : Lib) (s : Store) (req : Request) (k : String)
    (hk : k ≠ "" → requestedProjectId req = some k)
    (P0 : Project) (hP0 : Project.findById L s (requestedProjectId req) = Lookup.found P0)
    (hcan : canAccessProject req.user P0) :
    ¬ ∃ P, Project.findById L s (some k) = Lookup.found P ∧ ¬ canAccessProject req.user P := by
  rintro ⟨P, hP, hn⟩
  by_cases hke : k = ""
  · subst hke
    simp only [Project.findById, L.cast_empty] at hP
    exact Lookup.noConfusion hP
  · rw [hk hke, hP] at hP0
    injection hP0 with hP0
    subst hP0
    exact hn hcan

/-- The id `requireProjectAccess` looks up on a route with `:id`. -/
theorem requestedProjectId_of_id (user : User) (id : String) (body : Body) (h : id ≠ "") :
    requestedProjectId (requestWithId user id body) = some id := by
  simp [requestedProjectId, requestWithId, jsOr, truthy, h]

/-- The id `requireProjectAccess` looks up on a route with `:projectId`. -/
theorem requestedProjectId_of_projectId (user : User) (id : String) (body : Body) (h : id ≠ "") :
    requestedProjectId { user := user, params := { projectId := some id }, body := body } =
      some id := by
  simp [requestedProjectId, jsOr, truthy, h]

/-- C26: the permission checks written inline in `updateProject`, `createTask`
and `inviteUser` decide as the check of `requireProjectAccess` does: for the
project `P` that the handler (the middleware) finds, the answer is 403 exactly
when the principal is no admin, not the creator of `P` and not one of its
members.  Hence on the routes `PUT /api/projects/:id`,
`POST /api/projects/:id/tasks`, `POST /api/tasks/:projectId/tasks` and
`POST /api/invitations/:projectId/invite`, where the handler runs on the same
store after `requireProjectAccess` called `next`, the handler never answers
403. -/
theorem inline_checks_repeat_access_check (L : Lib) (E : Env) (now : Nat) (newId : ObjectId)
    (s : Store) (req : Request) (user : User) (id : String) (body : Body) :
    (∀ P, Project.findById L s (requestedProjectId req) = Lookup.found P →
      ((∃ r, requireProjectAccess L s req = MwResult.respond r ∧ r.status = 403) ↔
        ¬ canAccessProject req.user P)) ∧
    (∀ P, req.validationErrors.isEmpty = true →
      Project.findById L s req.params.id = Lookup.found P →
      ((updateProject L s req).response.status = 403 ↔ ¬ canAccessProject req.user P)) ∧
    (∀ P, req.validationErrors.isEmpty = true →
      Project.findById L s (jsOr req.params.projectId req.params.id) = Lookup.found P →
      ((createTask L newId s req).response.status = 403 ↔ ¬ canAccessProject req.user P)) ∧
    (∀ P, req.validationErrors.isEmpty = true →
      Project.findById L s req.params.projectId = Lookup.found P →
      ((inviteUser L E now s req).response.status = 403 ↔ ¬ canAccessProject req.user P)) ∧
    (∀ req1, requireProjectAccess L s (requestWithId user id body) = MwResult.next req1 →
      (updateProject L s (validateUpdateProject L req1)).response.status ≠ 403 ∧
      (createTask L newId s (validateCreateTask L req1)).response.status ≠ 403) ∧
    (∀ req1, requireProjectAccess L s
        { user := user, params := { projectId := some id }, body := body } = MwResult.next req1 →
      (createTask L newId s (validateCreateTask L req1)).response.status ≠ 403 ∧
      (inviteUser L E now s (validateInvitation L req1)).response.status ≠ 403) := by
  refine ⟨?_, ?_, ?_, ?_, ?_, ?_⟩
  · intro P hP
    rcases requireProjectAccess_cases L s req with ⟨r, hr, _, h403⟩ | ⟨P0, hP0, _, hcan, hnext⟩
    · rw [hr]
      constructor
      · rintro ⟨r1, h1, h2⟩
        injection h1 with h1
        subst h1
        obtain ⟨Q, hQ, hn⟩ := h403.mp h2
        rw [hP] at hQ
        injection hQ with hQ
        subst hQ
        exact hn
      · intro hn
        exact ⟨r, rfl, h403.mpr ⟨P, hP, hn⟩⟩
    · rw [hnext]
      rw [hP] at hP0
      injection hP0 with hP0
      subst hP0
      constructor
      · rintro ⟨r1, h1, _⟩
        exact MwResult.noConfusion h1
      · intro hn
        exact absurd hcan hn
  · intro P hv hP
    rw [updateProject_403]
    constructor
    · rintro ⟨_, Q, hQ, hn⟩
      rw [hP] at hQ
      injection hQ with hQ
      subst hQ
      exact hn
    · intro hn
      exact ⟨hv, P, hP, hn⟩
  · intro P hv hP
    rw [createTask_403]
    constructor
    · rintro ⟨_, Q, hQ, hn⟩
      rw [hP] at hQ
      injection hQ with hQ
      subst hQ
      exact hn
    · intro hn
      exact ⟨hv, P, hP, hn⟩
  · intro P hv hP
    rw [inviteUser_403]
    constructor
    · rintro ⟨_, Q, hQ, hn⟩
      rw [hP] at hQ
      injection hQ with hQ
      subst hQ
      exact hn
    · intro hn
      exact ⟨hv, P, hP, hn⟩
  · intro req1 h
    rcases requireProjectAccess_cases L s (requestWithId user id body) with
      ⟨r, hr, _⟩ | ⟨P0, hP0, _, hcan, hnext⟩
    · rw [hr] at h
      exact MwResult.noConfusion h
    · rw [hnext] at h
      injection h with h
      subst h
      have hno := access_of_next L s (requestWithId user id body) id
        (requestedProjectId_of_id user id body) P0 hP0 hcan
      constructor
      · rw [Ne, updateProject_403]
        rintro ⟨_, hex⟩
        exact hno hex
      · rw [Ne, createTask_403]
        rintro ⟨_, hex⟩
        apply hno
        simpa [validateCreateTask, requestWithId, jsOr, truthy] using hex
  · intro req1 h
    rcases requireProjectAccess_cases L s
        { user := user, params := { projectId := some id }, body := body } with
      ⟨r, hr, _⟩ | ⟨P0, hP0, _, hcan, hnext⟩
    · rw [hr] at h
      exact MwResult.noConfusion h
    · rw [hnext] at h
      injection h with h
      subst h
      have hno := access_of_next L s
        { user := user, params := { projectId := some id }, body := body } id
        (requestedProjectId_of_projectId user id body) P0 hP0 hcan
      constructor
      · rw [Ne, createTask_403]
        rintro ⟨_, hex⟩
        apply hno
        by_cases hid : id = ""
        · subst hid
          obtain ⟨P, hP, _⟩ := hex
          simp only [validateCreateTask, jsOr, truthy, bne_self_eq_false, Bool.false_eq_true,
            if_false, Project.findById] at hP
          exact Lookup.noConfusion hP
        · simpa [validateCreateTask, jsOr, truthy, hid] using hex
      · rw [Ne, inviteUser_403]
        rintro ⟨_, hex⟩
        exact hno hex

theorem inline_checks_repeat_access_check_witness :
    (updateProject refLib sampleStore
      (validateUpdateProject refLib
        { requestWithId bob alphaId {} with project := some alpha })).response.status ≠ 403 ∧
    (createTask refLib taskThreeId sampleStore
      (validateCreateTask refLib
        { requestWithId bob alphaId {} with project := some alpha })).response.status ≠ 403 :=
  (inline_checks_repeat_access_check refLib refEnv 100 taskThreeId sampleStore
    (requestWithId bob alphaId {}) bob alphaId {}).2.2.2.2.1
    { requestWithId bob alphaId {} with project := some alpha } (by decide)

/-! ## The project of a created task -/

/-- Either `createTask` answers without success, or it stored a task of the
project it found. -/
theorem createTask_cases (L : Lib) (newId : ObjectId) (s : Store) (req : Request) :
    (createTask L newId s req).response.success = false ∨
    ∃ P t, Project.findById L s (jsOr req.params.projectId req.params.id) = Lookup.found P ∧
      canAccessProject req.user P ∧
      Task.create L newId req.body P._id req.user._id = some t ∧
      createTask L newId s req =
        ⟨ok 201 "Task created successfully" (Payload.task t), { s with tasks := s.tasks ++ [t] }⟩ := by
  unfold createTask
  by_cases hv : req.validationErrors.isEmpty = true
  · simp only [hv, Bool.not_true, Bool.false_eq_true, if_false]
    cases hf : Project.findById L s (jsOr req.params.projectId req.params.id) with
    | castError => left; rfl
    | notFound => left; rfl
    | found P =>
      simp only [projectAccessCheck]
      by_cases hcan : canAccessProject req.user P
      · simp only [hcan, decide_True, Bool.not_true, Bool.false_eq_true, if_false]
        cases hchk : (truthy req.body.assignedTo &&
            !P.members.any (fun member => some member == req.body.assignedTo)) with
        | true => left; simp [fail]
        | false =>
          simp only [Bool.false_eq_true, if_false]
          cases hc : Task.create L newId req.body P._id req.user._id with
          | none => left; rfl
          | some t =>
            right
            exact ⟨P, t, rfl, hcan, hc, rfl⟩
      · left
        simp [hcan, fail]
  · left
    simp [hv, validationFailed]

/-- C29: when `POST /api/projects/:id/tasks` answers with success, the id in
the URL names a project `P`, `P` is the project `requireProjectAccess` checked
and passed on, the principal may access `P`, and the task stored has
`projectId = P._id` and `createdBy` the principal: the project is fixed by the
URL alone, whatever `projectId` the body carries. -/
theorem created_task_belongs_to_url_project (L : Lib) (newId : ObjectId) (s : Store)
    (user : User) (id : String) (body : Body)
    (hok : (postProjectTaskRoute L newId s user id body).response.success = true) :
    ∃ P t, Project.findById L s (some id) = Lookup.found P ∧
      requireProjectAccess L s (requestWithId user id body) =
        MwResult.next { requestWithId user id body with project := some P } ∧
      canAccessProject user P ∧
      t._id = newId ∧ t.projectId = P._id ∧ t.createdBy = user._id ∧
      postProjectTaskRoute L newId s user id body =
        ⟨ok 201 "Task created successfully" (Payload.task t),
         { s with tasks := s.tasks ++ [t] }⟩ := by
  unfold postProjectTaskRoute at hok ⊢
  rcases requireProjectAccess_cases L s (requestWithId user id body) with
    ⟨r, hr, hs, _⟩ | ⟨P0, hP0, _, hcan, hnext⟩
  · rw [hr] at hok
    simp only [hs] at hok
    exact Bool.noConfusion hok
  · rw [hnext] at hok ⊢
    simp only at hok ⊢
    rcases createTask_cases L newId s
        (validateCreateTask L { requestWithId user id body with project := some P0 }) with
      hf | ⟨P, t, hP, _, ht, hout⟩
    · rw [hf] at hok
      exact Bool.noConfusion hok
    · have hP2 : Project.findById L s (some id) = Lookup.found P := by
        simpa [validateCreateTask, requestWithId, jsOr, truthy] using hP
      have hid : id ≠ "" := by
        intro h
        subst h
        simp only [Project.findById, L.cast_empty] at hP2
        exact Lookup.noConfusion hP2
      rw [requestedProjectId_of_id user id body hid, hP2] at hP0
      injection hP0 with hP0
      subst hP0
      obtain ⟨h1, h2, h3, _⟩ := task_create_some L newId _ _ _ t ht
      exact ⟨P, t, hP2, rfl, hcan, h1, h2, h3, hout⟩

theorem created_task_belongs_to_url_project_witness :
    ∃ P t, Project.findById refLib sampleStore (some alphaId) = Lookup.found P ∧
      requireProjectAccess refLib sampleStore
          (requestWithId bob alphaId { title := some "Proofread", projectId := some taskOneId }) =
        MwResult.next
          { requestWithId bob alphaId { title := some "Proofread", projectId := some taskOneId }
            with project := some P } ∧
      canAccessProject bob P ∧
      t._id = taskThreeId ∧ t.projectId = P._id ∧ t.createdBy = bob._id ∧
      postProjectTaskRoute refLib taskThreeId sampleStore bob alphaId
          { title := some "Proofread", projectId := some taskOneId } =
        ⟨ok 201 "Task created successfully" (Payload.task t),
         { sampleStore with tasks := sampleStore.tasks ++ [t] }⟩ :=
  created_task_belongs_to_url_project refLib taskThreeId sampleStore bob alphaId
    { title := some "Proofread", projectId := some taskOneId } (by decide)

/-! ## Listing projects -/

/-- A principal who may access the project the request names is let through. -/
theorem requireProjectAccess_passes (L : Lib) (s : Store) (req : Request) (P : Project)
    (hP : Project.findById L s (requestedProjectId req) = Lookup.found P)
    (hcan : canAccessProject req.user P) :
    requireProjectAccess L s req = MwResult.next { req with project := some P } := by
  obtain ⟨str, oid, hid, hc, _⟩ := project_findById_found L s _ P hP
  have ht : truthy (requestedProjectId req) = true := by
    rw [hid]; exact truthy_of_cast L str oid hc
  unfold requireProjectAccess
  simp only [ht, hP, Bool.not_true, Bool.false_eq_true, if_false, projectAccessCheck, hcan,
    decide_True]

/-- C27: `getProjects` answers 200 with a list `ps` and leaves the store as it
is.  For a principal who is not an admin, `ps` holds exactly the stored
projects whose status is the one asked for (`active` when the query names
none) and whose members contain the principal; for an admin, exactly the
stored projects with that status.  So the principal may access every project
listed, and `requireProjectAccess` lets a request of the principal for a
listed project through. -/
theorem getProjects_lists_accessible (s : Store) (req : Request) :
    ∃ ps, getProjects s req =
        ⟨{ status := 200, success := true, message := "", data := Payload.projects ps }, s⟩ ∧
      (req.user.role ≠ "admin" → ∀ P, P ∈ ps ↔
        P ∈ s.projects ∧ P.status = req.query.status.getD "active" ∧ req.user._id ∈ P.members) ∧
      (req.user.role = "admin" → ∀ P, P ∈ ps ↔
        P ∈ s.projects ∧ P.status = req.query.status.getD "active") ∧
      (∀ P ∈ ps, canAccessProject req.user P) ∧
      (∀ (L : Lib) (req2 : Request) (P : Project), P ∈ ps → req2.user = req.user →
        Project.findById L s (requestedProjectId req2) = Lookup.found P →
        requireProjectAccess L s req2 = MwResult.next { req2 with project := some P }) := by
  have hmem : ∀ P, P ∈ s.projects.filter (fun p =>
        p.status == req.query.status.getD "active" &&
          (if req.user.role != "admin" then p.members.any (fun member => member == req.user._id)
           else true)) ↔
      P ∈ s.projects ∧ P.status = req.query.status.getD "active" ∧
        (req.user.role = "admin" ∨ req.user._id ∈ P.members) := by
    intro P
    rw [List.mem_filter]
    by_cases ha : req.user.role = "admin"
    · simp [ha]
    · have := any_beq_eq_true_iff P.members req.user._id
      simp [ha, this]
  have hcan : ∀ P ∈ s.projects.filter (fun p =>
        p.status == req.query.status.getD "active" &&
          (if req.user.role != "admin" then p.members.any (fun member => member == req.user._id)
           else true)), canAccessProject req.user P := by
    intro P hP
    rcases ((hmem P).mp hP).2.2 with h | h
    · exact Or.inl h
    · exact Or.inr (Or.inr h)
  refine ⟨_, rfl, ?_, ?_, hcan, ?_⟩
  · intro ha P
    rw [hmem P]
    simp [ha]
  · intro ha P
    rw [hmem P]
    simp [ha]
  · intro L req2 P hP hu hf
    exact requireProjectAccess_passes L s req2 P hf (hu ▸ hcan P hP)

theorem getProjects_lists_accessible_witness :
    ∃ ps, getProjects listingStore { user := carol, query := { status := some "archived" } } =
        ⟨{ status := 200, success := true, message := "", data := Payload.projects ps },
         listingStore⟩ ∧
      (beta ∈ ps ↔ beta ∈ listingStore.projects ∧ beta.status = "archived" ∧
        carolId ∈ beta.members) ∧
      (∀ P ∈ ps, canAccessProject carol P) :=
  match getProjects_lists_accessible listingStore
      { user := carol, query := { status := some "archived" } } with
  | ⟨ps, h1, h2, _, h4, _⟩ => ⟨ps, h1, h2 (by decide) beta, h4⟩

/-! ## Authentication -/

/-- A user that `User.findById` finds is stored. -/
theorem user_findById_found (L : Lib) (s : Store) (id : Option String) (u : User)
    (h : User.findById L s id = Lookup.found u) :
    ∃ str oid, id = some str ∧ L.castObjectId str = some oid ∧ u ∈ s.users ∧ u._id = oid := by
  unfold User.findById at h
  split at h
  · exact Lookup.noConfusion h
  · rename_i str
    split at h
    · exact Lookup.noConfusion h
    · rename_i oid hc
      split at h
      · exact Lookup.noConfusion h
      · rename_i p hp
        injection h with h
        subst h
        unfold findUser at hp
        have h1 := List.mem_of_find?_eq_some hp
        have h2 := List.find?_some hp
        exact ⟨str, oid, rfl, hc, h1, by simpa using h2⟩

/-- With a non-empty token in the header, `authenticateToken` verifies it and
looks the user up. -/
theorem authenticateToken_eq (L : Lib) (E : Env) (now : Nat) (s : Store) (raw : RawRequest)
    (token : String) (hb : bearerToken raw.authorization = some token) (hne : token ≠ "") :
    authenticateToken L E now s raw =
      match E.jwtVerify token now with
      | none =>
        if E.jwtExpired token now then MwResult.respond (fail 401 "Token expired")
        else MwResult.respond (fail 401 "Invalid token")
      | some decoded =>
        match User.findById L s decoded.userId with
        | Lookup.castError => MwResult.respond (fail 500 "Server error during authentication")
        | Lookup.notFound => MwResult.respond (fail 401 "Invalid token - user not found")
        | Lookup.found user =>
          MwResult.next { user := withoutPassword user, params := raw.params, body := raw.body,
                          query := raw.query } := by
  have ht : truthy (some token) = true := by simp [truthy, hne]
  unfold authenticateToken
  simp only [hb, ht, Bool.not_true, Bool.false_eq_true, if_false, Option.getD_some]

/-- Without a token in the header, `authenticateToken` answers 401. -/
theorem authenticateToken_no_token (L : Lib) (E : Env) (now : Nat) (s : Store) (raw : RawRequest)
    (ht : truthy (bearerToken raw.authorization) = false) :
    authenticateToken L E now s raw = MwResult.respond (fail 401 "Access token required") := by
  unfold authenticateToken
  simp [ht]

/-- C21: `authenticateToken` calls `next` exactly when the Authorization header
carries a non-empty token that `jwt.verify` accepts at the time of the request
(signature and expiry) and whose `userId` names a stored user; the request
passed on has that user, without the password hash, as `req.user`, and the
params, body and query it came with.  It responds 401 when the header carries
no token, when the token does not verify (malformed or expired), and when the
token verifies but no user has its `userId`.  The middleware reads the store
only: it returns no store. -/
theorem authenticateToken_next_iff (L : Lib) (E : Env) (now : Nat) (s : Store)
    (raw : RawRequest) :
    (∀ req, authenticateToken L E now s raw = MwResult.next req ↔
      ∃ token decoded user, bearerToken raw.authorization = some token ∧ token ≠ "" ∧
        E.jwtVerify token now = some decoded ∧
        User.findById L s decoded.userId = Lookup.found user ∧ user ∈ s.users ∧
        req = { user := withoutPassword user, params := raw.params, body := raw.body,
                query := raw.query }) ∧
    (truthy (bearerToken raw.authorization) = false →
      authenticateToken L E now s raw = MwResult.respond (fail 401 "Access token required")) ∧
    (∀ token, bearerToken raw.authorization = some token → token ≠ "" →
      E.jwtVerify token now = none →
      authenticateToken L E now s raw =
        MwResult.respond
          (fail 401 (if E.jwtExpired token now then "Token expired" else "Invalid token"))) ∧
    (∀ token decoded, bearerToken raw.authorization = some token → token ≠ "" →
      E.jwtVerify token now = some decoded →
      User.findById L s decoded.userId = Lookup.notFound →
      authenticateToken L E now s raw =
        MwResult.respond (fail 401 "Invalid token - user not found")) := by
  refine ⟨?_, authenticateToken_no_token L E now s raw, ?_, ?_⟩
  · intro req
    constructor
    · intro h
      cases hb : bearerToken raw.authorization with
      | none =>
        rw [authenticateToken_no_token L E now s raw (by rw [hb]; rfl)] at h
        exact MwResult.noConfusion h
      | some token =>
        by_cases hne : token = ""
        · rw [authenticateToken_no_token L E now s raw (by rw [hb, hne]; rfl)] at h
          exact MwResult.noConfusion h
        · rw [authenticateToken_eq L E now s raw token hb hne] at h
          cases hv : E.jwtVerify token now with
          | none =>
            rw [hv] at h
            simp only at h
            split at h <;> exact MwResult.noConfusion h
          | some decoded =>
            rw [hv] at h
            simp only at h
            cases hu : User.findById L s decoded.userId with
            | castError =>
              rw [hu] at h
              exact MwResult.noConfusion h
            | notFound =>
              rw [hu] at h
              exact MwResult.noConfusion h
            | found user =>
              rw [hu] at h
              injection h with h
              obtain ⟨_, _, _, _, hmem, _⟩ := user_findById_found L s _ user hu
              exact ⟨token, decoded, user, rfl, hne, hv, hu, hmem, h.symm⟩
    · rintro ⟨token, decoded, user, hb, hne, hv, hu, _, hreq⟩
      rw [authenticateToken_eq L E now s raw token hb hne, hv]
      simp only [hu, hreq]
  · intro token hb hne hv
    rw [authenticateToken_eq L E now s raw token hb hne, hv]
    simp only
    split <;> rfl
  · intro token decoded hb hne hv hu
    rw [authenticateToken_eq L E now s raw token hb hne, hv]
    simp only [hu]

theorem authenticateToken_next_iff_witness :
    authenticateToken refLib refEnv 150 sampleStore aliceRaw =
      MwResult.next { user := withoutPassword alice } :=
  ((authenticateToken_next_iff refLib refEnv 150 sampleStore aliceRaw).1 _).mpr
    ⟨aliceSession, { userId := some aliceId }, alice, by decide, by decide, by decide, by decide,
      by decide, rfl⟩

/-! ## Mail delivery and the outcome of a request -/

/-- `addUserToProject` hands a message to the transporter only when it answers
200. -/
theorem addUserToProject_mails (L : Lib) (s : Store) (req : Request) :
    (addUserToProject L s req).mails = [] ∨
    ((addUserToProject L s req).response.status = 200 ∧
      (addUserToProject L s req).response.success = true) := by
  simp only [addUserToProject]
  repeat' split
  all_goals first
    | (left; rfl)
    | (right; exact ⟨rfl, rfl⟩)

/-- `createUserWithCredentials` hands a message to the transporter only when
it answers 201. -/
theorem createUserWithCredentials_mails (L : Lib) (E : Env) (generated : String)
    (newId : ObjectId) (s : Store) (req : Request) :
    (createUserWithCredentials L E generated newId s req).mails = [] ∨
    ((createUserWithCredentials L E generated newId s req).response.status = 201 ∧
      (createUserWithCredentials L E generated newId s req).response.success = true) := by
  simp only [createUserWithCredentials]
  repeat' split
  all_goals first
    | (left; rfl)
    | (right; exact ⟨rfl, rfl⟩)

/-- C24: `createUserWithCredentials` and `acceptInvitation` leave the same
response, store, messages and tokens whatever the transporter does: replacing
the transporter of the services by any other (one that delivers, one that
throws) changes nothing.  `addUserToProject`, which uses no service but the
transporter, hands over its message only together with the answer 200, and
`createUserWithCredentials` only together with the answer 201: the response
does not wait for the delivery. -/
theorem delivery_does_not_decide (L : Lib) (E : Env) (deliver : Mail → Bool) (now : Nat)
    (generated : String) (newId : ObjectId) (s : Store) (req : Request) (areq : AnonRequest) :
    createUserWithCredentials L { E with deliver := deliver } generated newId s req =
      createUserWithCredentials L E generated newId s req ∧
    acceptInvitation L { E with deliver := deliver } now newId s areq =
      acceptInvitation L E now newId s areq ∧
    (∀ m ∈ (addUserToProject L s req).mails,
      (addUserToProject L s req).response.status = 200 ∧
      (addUserToProject L s req).response.success = true) ∧
    (∀ m ∈ (createUserWithCredentials L E generated newId s req).mails,
      (createUserWithCredentials L E generated newId s req).response.status = 201 ∧
      (createUserWithCredentials L E generated newId s req).response.success = true) := by
  refine ⟨rfl, rfl, ?_, ?_⟩
  · intro m hm
    rcases addUserToProject_mails L s req with h | h
    · rw [h] at hm
      exact absurd hm (List.not_mem_nil _)
    · exact h
  · intro m hm
    rcases createUserWithCredentials_mails L E generated newId s req with h | h
    · rw [h] at hm
      exact absurd hm (List.not_mem_nil _)
    · exact h

theorem delivery_does_not_decide_witness :
    createUserWithCredentials refLib failingEnv "Abc" danaId sampleStore
        { user := root,
          body := { name := some "Dana", email := some danaEmail, projectId := some alphaId } } =
      createUserWithCredentials refLib refEnv "Abc" danaId sampleStore
        { user := root,
          body := { name := some "Dana", email := some danaEmail, projectId := some alphaId } } ∧
    acceptInvitation refLib failingEnv 200 danaId sampleStore
        (acceptRequest danaInvitation "Dana" "Secret123") =
      acceptInvitation refLib refEnv 200 danaId sampleStore
        (acceptRequest danaInvitation "Dana" "Secret123") :=
  have h := delivery_does_not_decide refLib refEnv (fun _ => false) 200 "Abc" danaId sampleStore
    { user := root,
      body := { name := some "Dana", email := some danaEmail, projectId := some alphaId } }
    (acceptRequest danaInvitation "Dana" "Secret123")
  ⟨h.1, h.2.1⟩

/-- C25 (the code at the failing input): Dana has no account; Alice, creator
and member of project Alpha, invites her through
`POST /api/invitations/:projectId/invite`.  With a transporter that delivers,
the answer is 200 with the token.  With a transporter that throws, the token
is minted and the message handed over all the same, but the answer is 500
"Server error while sending invitation", without the token. -/
theorem inviteUser_fails_with_transporter :
    findUserByEmail sampleStore (some danaEmail) = none ∧
    canAccessProject alice alpha ∧
    postInviteRoute refLib refEnv 100 sampleStore alice alphaId { email := some danaEmail } =
      { response := ok 200 "Invitation sent successfully"
          (Payload.invitation (some danaEmail) danaInvitation),
        store := sampleStore,
        mails := [Mail.projectInvitation (some danaEmail) "Alpha" "Alice" danaInvitation],
        tokens := [danaInvitation] } ∧
    postInviteRoute refLib failingEnv 100 sampleStore alice alphaId { email := some danaEmail } =
      { response := fail 500 "Server error while sending invitation",
        store := sampleStore,
        mails := [Mail.projectInvitation (some danaEmail) "Alpha" "Alice" danaInvitation],
        tokens := [danaInvitation] } := by
  decide

/-! ## The statuses of an update and the statuses of the schema -/

/-- C28 (the code at the failing inputs): the list of `validateUpdateTask` and
the enum of the Task schema differ.  `done` is in the list and not in the
enum: Alice's `PUT /api/tasks/:id` with `status = done` passes validation and
`updateTask` answers 500, the schema validator having rejected the write.
`completed` is in the enum and not in the list: the same request with
`status = completed` answers 400 "Validation failed", though `updateTask`
alone stores it.  The store is unchanged in both. -/
theorem update_statuses_differ_from_schema :
    "done" ∈ updateTaskStatuses ∧ "done" ∉ taskStatuses ∧
    "completed" ∈ taskStatuses ∧ "completed" ∉ updateTaskStatuses ∧
    (validateUpdateTask refLib
      (requestWithId alice taskOneId { status := some "done" })).validationErrors = [] ∧
    putTaskRoute refLib sampleStore alice taskOneId { status := some "done" } =
      ⟨fail 500 "Server error while updating task", sampleStore⟩ ∧
    putTaskRoute refLib sampleStore alice taskOneId { status := some "completed" } =
      ⟨validationFailed ["Status must be todo, in-progress, or done"], sampleStore⟩ ∧
    (updateTask refLib sampleStore
      (requestWithId alice taskOneId { status := some "completed" })).response.status = 200 ∧
    (taskStatuses.filter (fun st => updateTaskStatuses.contains st) = ["todo", "in-progress"]) := by
  decide

/-! ## Removing the creator, named in another spelling -/

/-- C3 (the code at the failing input): Alice is the creator of project Alpha,
whose members are Alice and Bob.  `DELETE /api/projects/:id/members` with a
`memberIds` list that holds Alice's id written with upper-case digits (which
casts to her ObjectId) and Bob's id is answered 200 and Bob is removed: the
check compares the strings of the request with the id as it prints and misses
the creator.  With Alice's id written as it prints, the same request is
answered 400 and nobody is removed. -/
theorem removeMembers_misses_creator_spelling :
    refLib.castObjectId "64B000000000000000000001" = some alpha.createdBy ∧
    alpha.members = [aliceId, bobId] ∧
    deleteMembersRoute refLib sampleStore alice alphaId
        { memberIds := some ["64B000000000000000000001", bobId] } =
      ⟨ok 200 "Members removed successfully" (Payload.project { alpha with members := [aliceId] }),
       { sampleStore with projects := [{ alpha with members := [aliceId] }] }⟩ ∧
    deleteMembersRoute refLib sampleStore alice alphaId { memberIds := some [aliceId, bobId] } =
      ⟨fail 400 "Cannot remove project creator", sampleStore⟩ := by
  decide

/-! ## The admin role, check by check -/

/-- The assignee check of `createTask` and `updateTask` passes for an absent
assignee and for a member. -/
theorem assigned_check_of_member (members : List ObjectId) (v : Option String)
    (h : ∀ a, v = some a → a ≠ "" → a ∈ members) :
    (truthy v && !members.any (fun member => some member == v)) = false := by
  cases v with
  | none => simp [truthy]
  | some a =>
    by_cases ha : a = ""
    · simp [truthy, ha]
    · have hm := h a rfl ha
      have hany : members.any (fun member => some member == some a) = true := by
        rw [List.any_eq_true]
        exact ⟨a, hm, by simp⟩
      rw [hany]
      simp

/-- A principal who may access the project gets past the check of
`updateProject`; a valid update without a member list is written. -/
theorem updateProject_permitted (L : Lib) (s : Store) (req : Request) (P u : Project)
    (hv : req.validationErrors.isEmpty = true)
    (hP : Project.findById L s req.params.id = Lookup.found P)
    (hcan : canAccessProject req.user P) (hm : req.body.members = none)
    (hu : Project.applyUpdate L P req.body.title req.body.description req.body.status none =
      some u) :
    updateProject L s req =
      ⟨ok 200 "Project updated successfully" (Payload.project u), s.putProject u⟩ := by
  unfold updateProject
  simp only [hv, hP, projectAccessCheckAlt, hcan, decide_True, Bool.not_true, Bool.false_eq_true,
    if_false, hm, updateProjectWrite, hu]

/-- A principal who may access the project gets past the check of
`createTask`; a valid task is stored. -/
theorem createTask_permitted (L : Lib) (newId : ObjectId) (s : Store) (req : Request)
    (P : Project) (t : Task)
    (hv : req.validationErrors.isEmpty = true)
    (hP : Project.findById L s (jsOr req.params.projectId req.params.id) = Lookup.found P)
    (hcan : canAccessProject req.user P)
    (ha : ∀ a, req.body.assignedTo = some a → a ≠ "" → a ∈ P.members)
    (ht : Task.create L newId req.body P._id req.user._id = some t) :
    createTask L newId s req =
      ⟨ok 201 "Task created successfully" (Payload.task t), { s with tasks := s.tasks ++ [t] }⟩ := by
  unfold createTask
  simp only [hv, hP, projectAccessCheck, hcan, decide_True, Bool.not_true, Bool.false_eq_true,
    if_false, assigned_check_of_member P.members req.body.assignedTo ha, ht]

/-- A principal who may modify the task gets past the check of `updateTask`; a
valid update is written. -/
theorem updateTask_permitted (L : Lib) (s : Store) (req : Request) (T u : Task) (P : Project)
    (hv : req.validationErrors.isEmpty = true)
    (hT : Task.findById L s req.params.id = Lookup.found T)
    (hP : findProject s T.projectId = some P)
    (hcan : canModifyTask req.user P T)
    (ha : ∀ a, req.body.assignedTo = some a → a ≠ "" → a ∈ P.members)
    (hu : Task.applyUpdate L T req.body = some u) :
    updateTask L s req =
      ⟨ok 200 "Task updated successfully" (Payload.task u), s.putTask u⟩ := by
  unfold updateTask
  simp only [hv, hT, hP, taskModifyCheck, hcan, decide_True, Bool.not_true, Bool.false_eq_true,
    if_false, assigned_check_of_member P.members req.body.assignedTo ha, hu]

/-- A principal who may access the project gets past the check of
`inviteUser`: a user who has an account and is no member is added, and for an
address without an account the invitation is minted and handed to the
transporter. -/
theorem inviteUser_permitted (L : Lib) (E : Env) (now : Nat) (s : Store) (req : Request)
    (P : Project)
    (hv : req.validationErrors.isEmpty = true)
    (hP : Project.findById L s req.params.projectId = Lookup.found P)
    (hcan : canAccessProject req.user P) :
    (∀ X, findUserByEmail s req.body.email = some X → X._id ∉ P.members →
      inviteUser L E now s req =
        { response := ok 200 "User added to project successfully" (Payload.user X),
          store := s.putProject { P with members := P.members ++ [X._id] } }) ∧
    (findUserByEmail s req.body.email = none →
      E.deliver (Mail.projectInvitation req.body.email P.title req.user.name
        (generateInvitationToken E now req.body.email req.params.projectId)) = true →
      inviteUser L E now s req =
        { response := ok 200 "Invitation sent successfully"
            (Payload.invitation req.body.email
              (generateInvitationToken E now req.body.email req.params.projectId)),
          store := s,
          mails := [Mail.projectInvitation req.body.email P.title req.user.name
            (generateInvitationToken E now req.body.email req.params.projectId)],
          tokens := [generateInvitationToken E now req.body.email req.params.projectId] }) := by
  constructor
  · intro X hX hn
    have hany : P.members.any (fun member => member == X._id) = false := by
      rw [Bool.eq_false_iff]
      exact fun h => hn ((any_beq_eq_true_iff _ _).mp h)
    unfold inviteUser
    simp only [hv, hP, projectAccessCheck, hcan, decide_True, Bool.not_true, Bool.false_eq_true,
      if_false, hX, hany]
  · intro hX hd
    unfold inviteUser
    simp only [hv, hP, projectAccessCheck, hcan, decide_True, Bool.not_true, Bool.false_eq_true,
      if_false, hX, hd, if_true]

/-- On a task whose project no longer exists `requireTaskAccess` answers 500,
whoever asks. -/
theorem requireTaskAccess_orphan (L : Lib) (s : Store) (req : Request) (T : Task)
    (hT : Task.findById L s (requestedTaskId req) = Lookup.found T)
    (hP : findProject s T.projectId = none) :
    requireTaskAccess L s req =
      MwResult.respond (fail 500 "Server error during authorization") := by
  obtain ⟨str, oid, hid, hc, _⟩ := task_findById_found L s _ T hT
  have ht : truthy (requestedTaskId req) = true := by
    rw [hid]; exact truthy_of_cast L str oid hc
  unfold requireTaskAccess
  simp only [ht, Bool.not_true, Bool.false_eq_true, if_false,
    task_findByIdPopulated_found L s _ T hT, hP]

/-- C13 (amended): a principal whose role is admin passes every permission
check but the one of `updateComment`, whatever the resource and whoever created
it, provided the resource exists (for a task: the task and the project its
`projectId` names).  `requireProjectAccess`, `requireTaskAccess` and
`requireAdmin` call `next`; `deleteProject`, `deleteTask` and `deleteComment`
delete; `updateProject`, `createTask`, `updateTask` and `inviteUser` go on to
their write and succeed when the request is otherwise valid; none of the ten
ever answers 403.  On a task whose project no longer exists `requireTaskAccess`
answers 500, to an admin as to anyone.  The predicates of project access and
deletion, task modification and deletion and comment deletion hold of an
admin. -/
theorem admin_permitted_except_comment_edit (L : Lib) (E : Env) (now : Nat) (s : Store)
    (req : Request) (h : req.user.role = "admin") :
    (∀ P, Project.findById L s (requestedProjectId req) = Lookup.found P →
      requireProjectAccess L s req = MwResult.next { req with project := some P }) ∧
    (∀ T P, Task.findById L s (requestedTaskId req) = Lookup.found T →
      findProject s T.projectId = some P →
      requireTaskAccess L s req =
        MwResult.next { req with task := some { task := T, project := some P } }) ∧
    (∀ T, Task.findById L s (requestedTaskId req) = Lookup.found T →
      findProject s T.projectId = none →
      requireTaskAccess L s req =
        MwResult.respond (fail 500 "Server error during authorization")) ∧
    requireAdmin req = MwResult.next req ∧
    (∀ J, Project.findById L s req.params.id = Lookup.found J →
      deleteProject L s req =
        ⟨ok 200 "Project deleted successfully" Payload.empty,
         { s with projects := s.projects.erase J }⟩) ∧
    (∀ T P, Task.findById L s req.params.id = Lookup.found T →
      findProject s T.projectId = some P →
      deleteTask L s req =
        ⟨ok 200 "Task deleted successfully" Payload.empty,
         { s with tasks := s.tasks.erase T }⟩) ∧
    (∀ C, Comment.findById L s req.params.commentId = Lookup.found C →
      deleteComment L s req =
        ⟨ok 200 "Comment deleted successfully" Payload.empty,
         { detachComment s C req.params.commentId with
           comments := (detachComment s C req.params.commentId).comments.erase C }⟩) ∧
    (∀ P u, req.validationErrors.isEmpty = true →
      Project.findById L s req.params.id = Lookup.found P → req.body.members = none →
      Project.applyUpdate L P req.body.title req.body.description req.body.status none = some u →
      updateProject L s req =
        ⟨ok 200 "Project updated successfully" (Payload.project u), s.putProject u⟩) ∧
    (∀ newId P t, req.validationErrors.isEmpty = true →
      Project.findById L s (jsOr req.params.projectId req.params.id) = Lookup.found P →
      (∀ a, req.body.assignedTo = some a → a ≠ "" → a ∈ P.members) →
      Task.create L newId req.body P._id req.user._id = some t →
      createTask L newId s req =
        ⟨ok 201 "Task created successfully" (Payload.task t),
         { s with tasks := s.tasks ++ [t] }⟩) ∧
    (∀ T P u, req.validationErrors.isEmpty = true →
      Task.findById L s req.params.id = Lookup.found T → findProject s T.projectId = some P →
      (∀ a, req.body.assignedTo = some a → a ≠ "" → a ∈ P.members) →
      Task.applyUpdate L T req.body = some u →
      updateTask L s req =
        ⟨ok 200 "Task updated successfully" (Payload.task u), s.putTask u⟩) ∧
    (∀ P X, req.validationErrors.isEmpty = true →
      Project.findById L s req.params.projectId = Lookup.found P →
      findUserByEmail s req.body.email = some X → X._id ∉ P.members →
      inviteUser L E now s req =
        { response := ok 200 "User added to project successfully" (Payload.user X),
          store := s.putProject { P with members := P.members ++ [X._id] } }) ∧
    (∀ P, req.validationErrors.isEmpty = true →
      Project.findById L s req.params.projectId = Lookup.found P →
      findUserByEmail s req.body.email = none →
      E.deliver (Mail.projectInvitation req.body.email P.title req.user.name
        (generateInvitationToken E now req.body.email req.params.projectId)) = true →
      (inviteUser L E now s req).response =
        ok 200 "Invitation sent successfully"
          (Payload.invitation req.body.email
            (generateInvitationToken E now req.body.email req.params.projectId))) ∧
    (∀ r, requireProjectAccess L s req = MwResult.respond r → r.status ≠ 403) ∧
    (∀ r, requireTaskAccess L s req = MwResult.respond r → r.status ≠ 403) ∧
    (updateProject L s req).response.status ≠ 403 ∧
    (deleteProject L s req).response.status ≠ 403 ∧
    (∀ newId, (createTask L newId s req).response.status ≠ 403) ∧
    (updateTask L s req).response.status ≠ 403 ∧
    (deleteTask L s req).response.status ≠ 403 ∧
    (deleteComment L s req).response.status ≠ 403 ∧
    (inviteUser L E now s req).response.status ≠ 403 ∧
    (∀ P : Project, canAccessProject req.user P ∧ canDeleteProject req.user P) ∧
    (∀ (P : Project) (T : Task), canModifyTask req.user P T ∧ canDeleteTask req.user P T) ∧
    (∀ C : Comment, canDeleteComment req.user C) := by
  refine ⟨?_, ?_, ?_, admin_requireAdmin req h, ?_, ?_, ?_, ?_, ?_, ?_, ?_, ?_,
    admin_requireProjectAccess L s req h, admin_requireTaskAccess L s req h,
    admin_updateProject L s req h, admin_deleteProject L s req h,
    fun newId => admin_createTask L newId s req h, admin_updateTask L s req h,
    admin_deleteTask L s req h, admin_deleteComment L s req h, admin_inviteUser L E now s req h,
    fun _ => ⟨Or.inl h, Or.inl h⟩, fun _ _ => ⟨Or.inl h, Or.inl h⟩, fun _ => Or.inr h⟩
  · intro P hP
    exact requireProjectAccess_passes L s req P hP (Or.inl h)
  · intro T P hT hP
    have hcan : canModifyTask req.user P T := Or.inl h
    rw [requireTaskAccess_eq L s req T P hT hP, if_pos hcan]
  · intro T hT hP
    exact requireTaskAccess_orphan L s req T hT hP
  · intro J hJ
    exact deleteProject_permitted L s req J hJ (Or.inl h)
  · intro T P hT hP
    exact deleteTask_permitted L s req T P hT hP (Or.inl h)
  · intro C hC
    exact deleteComment_permitted L s req C hC (Or.inr h)
  · intro P u hv hP hm hu
    exact updateProject_permitted L s req P u hv hP (Or.inl h) hm hu
  · intro newId P t hv hP ha ht
    exact createTask_permitted L newId s req P t hv hP (Or.inl h) ha ht
  · intro T P u hv hT hP ha hu
    exact updateTask_permitted L s req T u P hv hT hP (Or.inl h) ha hu
  · intro P X hv hP hX hn
    exact (inviteUser_permitted L E now s req P hv hP (Or.inl h)).1 X hX hn
  · intro P hv hP hX hd
    rw [(inviteUser_permitted L E now s req P hv hP (Or.inl h)).2 hX hd]

theorem admin_permitted_except_comment_edit_witness :
    requireProjectAccess refLib commentStore (requestWithId root alphaId {}) =
      MwResult.next { requestWithId root alphaId {} with project := some alpha } ∧
    requireAdmin (requestWithId root alphaId {}) = MwResult.next (requestWithId root alphaId {}) ∧
    deleteProject refLib commentStore (requestWithId root alphaId {}) =
      ⟨ok 200 "Project deleted successfully" Payload.empty,
       { commentStore with projects := commentStore.projects.erase alpha }⟩ ∧
    (updateProject refLib commentStore (requestWithId root alphaId {})).response.status ≠ 403 :=
  match admin_permitted_except_comment_edit refLib refEnv 0 commentStore
      (requestWithId root alphaId {}) (by decide) with
  | ⟨h1, _, _, h4, h5, _, _, _, _, _, _, _, _, _, h15, _⟩ =>
    ⟨h1 alpha (by decide), h4, h5 alpha (by decide), h15⟩

end TaskNestle
